import Mathlib

/-!
# myhttpd

A shallow embedding of `myhttpd.c`: the token reader `filesep`, the error
reporter `reporterror` and the connection worker `svcthread`, followed by the
theorems that settle the claims of the specification against that code.

Modelling conventions.

* A C `char` is a `Char`; the byte `'\0'` is `NUL`.  A `char[n]` array is a
  `List Char` of length `n`; a pointer into it is an offset, `none` is `NULL`.
  A C string inside an array runs from its offset to the first `NUL`
  (`cstrAt`).  Writes are clipped at the end of the array (`writeAt`).
* A descriptor open for reading is a `Script`: the results of the successive
  `read(2)` calls still to come.  `none` is a failed read (`-1`), `some bs` a
  read that has the bytes `bs` available, and an exhausted script is
  end-of-stream (`read` returns `0`).
* Every `write(2)` is accepted in full: bytes written to the socket are
  appended to `State.out`, bytes written to a file to its content.  The one
  exception is a `write` asked for more bytes than its array holds, which the
  system refuses (`fileWrite`).
* The file system maps a path to a readable regular file; `stat` reports the
  length of its content as `st_size`.
* `size_t` is 64 bits wide.
-/

namespace MyHttpd

set_option maxRecDepth 100000

/-- The terminating byte of a C string. -/
abbrev NUL : Char := Char.ofNat 0

/-- The macro `svcbuffersize` (line 18). -/
abbrev svcbuffersize : Nat := 256

/-- The width of `size_t`. -/
abbrev sizeBits : Nat := 64

/-- The enumeration `htcommand` (lines 21-26). -/
inductive htcommand where
  | INVALID
  | GET
  | POST
  | HEAD
  deriving DecidableEq, Repr

/-- What the coming `read(2)` calls on a descriptor return. -/
abbrev Script := List (Option (List Char))

/-- A regular file: its bytes and its modification time (`st_mtime`). -/
structure FileNode where
  content : List Char
  st_mtime : Int
  deriving DecidableEq, Repr

/-- The file system seen from the server's working directory. -/
abbrev Files := List (List Char × FileNode)

/-! ## Memory and libc primitives -/

/-- Store `bs` into the array `buf` from offset `off` on, clipped at the end
of the array. -/
def writeAt (buf : List Char) (off : Nat) (bs : List Char) : List Char :=
  buf.take off ++ bs.take (buf.length - off) ++ buf.drop (off + bs.length)

/-- The libc call `bzero(buf + off, n)`. -/
def bzero (buf : List Char) (off n : Nat) : List Char :=
  writeAt buf off (List.replicate n NUL)

/-- The libc call `memmove(buf + dst, buf + src, n)` within one array. -/
def memmove (buf : List Char) (dst src n : Nat) : List Char :=
  writeAt buf dst ((buf.drop src).take n)

/-- The C string found at offset `i` of `buf`: the bytes up to the first
`NUL` (or up to the end of the array). -/
def cstrAt (buf : List Char) (i : Nat) : List Char :=
  (buf.drop i).takeWhile (fun c => c != NUL)

/-- The libc call `strlen(buf + i)`. -/
def strlen (buf : List Char) (i : Nat) : Nat :=
  (cstrAt buf i).length

/-- Offset of the first byte of `delim` in a C string, `none` when the string
ends (at a `NUL` or at the end of the array) before any such byte. -/
def findDelim (delim : List Char) : List Char → Option Nat
  | [] => none
  | c :: cs =>
    if c = NUL then none
    else if c ∈ delim then some 0
    else (findDelim delim cs).map (fun k => k + 1)

/-- What `strsep` hands back: the token it returns, the array after it has
overwritten the delimiter, and the updated `*stringp`. -/
structure StrsepResult where
  tok : Option Nat
  buf : List Char
  stringp : Option Nat
  deriving DecidableEq, Repr

/-- The libc call `strsep(&stringp, delim)` on a string living in `buf`. -/
def strsep (buf : List Char) (stringp : Option Nat) (delim : List Char) : StrsepResult :=
  match stringp with
  | none => ⟨none, buf, none⟩
  | some i =>
    match findDelim delim (buf.drop i) with
    | none => ⟨some i, buf, none⟩
    | some k => ⟨some i, buf.set (i + k) NUL, some (i + k + 1)⟩

/-- The system call `read(fd, _, n)`: its result and the script that is left.
A read that asks for fewer bytes than are available leaves the rest for the
next read; a read of zero bytes takes nothing. -/
def readFd (fd : Script) (n : Nat) : Option (List Char) × Script :=
  if n = 0 then (some [], fd)
  else
    match fd with
    | [] => (some [], [])
    | none :: rest => (none, rest)
    | some bs :: rest =>
      if bs.length ≤ n then (some bs, rest)
      else (some (bs.take n), some (bs.drop n) :: rest)

/-- The bytes a `read` stored into its buffer. -/
def readData (r : Option (List Char)) : List Char :=
  r.getD []

/-- The return value of `read` once assigned to a `size_t`: `-1` becomes
`2^64 - 1`. -/
def readLen (r : Option (List Char)) : Nat :=
  match r with
  | none => 2 ^ sizeBits - 1
  | some bs => bs.length % 2 ^ sizeBits

/-- The conversion `%d` / `%ld` of a non-negative number. -/
def decimal (n : Nat) : List Char :=
  (Nat.repr n).toList

/-- The conversion `%d` of `printf`. -/
def fmt_d (n : Int) : List Char :=
  match n with
  | Int.ofNat m => decimal m
  | Int.negSucc m => '-' :: decimal (m + 1)

/-! ## The token reader -/

/-- What `filesep` hands back: the returned token pointer and the updated
descriptor, array and cursor. -/
structure FilesepResult where
  field : Option Nat
  filedesc : Script
  buffer : List Char
  bufferleft : Option Nat
  deriving DecidableEq, Repr

/-- The function `filesep` (lines 35-59), called with a non-null cursor slot
`bufferleft` as the worker does (the branch of line 40, for a null slot,
dereferences it and is not modelled).  `bufferleft` here is `*bufferleft`. -/
def filesep (filedesc : Script) (buffer : List Char) (bufflen : Nat)
    (bufferleft : Option Nat) (delim : List Char) : FilesepResult :=
  let r := strsep buffer bufferleft delim
  match r.tok with
  | none =>
    let buffer := bzero r.buf 0 bufflen
    let rd := readFd filedesc (bufflen - 1)
    let buffer := writeAt buffer 0 (readData rd.1)
    let r2 := strsep buffer (some 0) delim
    ⟨r2.tok, rd.2, r2.buf, r2.stringp⟩
  | some fieldptr =>
    match r.stringp with
    | none =>
      let partlen := strlen r.buf fieldptr
      let buffer := memmove r.buf 0 fieldptr partlen
      let buffer := bzero buffer partlen (bufflen - partlen)
      let rd := readFd filedesc ((bufflen - 1) - partlen)
      let buffer := writeAt buffer partlen (readData rd.1)
      let r2 := strsep buffer (some 0) delim
      ⟨r2.tok, rd.2, r2.buf, r2.stringp⟩
    | some _ => ⟨some fieldptr, filedesc, r.buf, r.stringp⟩

/-! ## The worker -/

/-- The place in `svcthread` a `filesep` call is made from. -/
inductive Site where
  | method
  | target
  | version
  | header
  | hostval
  deriving DecidableEq, Repr

/-- What the worker gets from outside: the clock, the text `strftime`
produces for the conversions `%a, %d %b %Y %H:%M:%S` of a UTC time, and the
string that happens to lie in the uninitialised array `errdes`. -/
structure Env where
  now : Int
  httpdate : Int → List Char
  stale : List Char

/-- The variables of `svcthread` together with the world it acts on: `sock`
is what the socket will deliver, `out` what has been written to it, `closes`
how often it has been closed, `fs` the files.  The arrays `entity` and
`hostline` are kept as the strings they hold.  `pulled` is a ghost variable:
the tokens `filesep` has returned so far, each with its call site.  `segv`
records a null dereference, `overrun` a `write` that was asked for more bytes
than `filebuff` holds (and refused), `hung` a loop that does not end. -/
structure State where
  sock : Script
  out : List Char
  closes : Nat
  fs : Files
  buffer : List Char
  bufferleft : Option Nat
  field : Option Nat
  herror : Int
  methodtype : htcommand
  httpver : Nat
  entity : List Char
  hostline : List Char
  emptycount : Nat
  filebuff : List Char
  pulled : List (Site × Option (List Char))
  segv : Bool
  overrun : Bool
  hung : Bool
  deriving DecidableEq, Repr

/-- The delimiters the worker passes to `filesep`. -/
abbrev delims : List Char := " \r\n".toList

/-- The array `errdes` of `reporterror` after lines 69-74. -/
def errdes (stale : List Char) (hterror : Int) : List Char :=
  let d := stale
  let d := if 400 = hterror then "Bad Request".toList else d
  let d := if 405 = hterror then "Method Not Allowed".toList else d
  let d := if 404 = hterror then "Not Found".toList else d
  d

/-- The function `reporterror` (lines 65-79). -/
def reporterror (env : Env) (s : State) (hterror : Int) : State :=
  let errorbuffer :=
    "HTTP/1.0 ".toList ++ fmt_d hterror ++ " ".toList ++ errdes env.stale hterror ++ "\n\n".toList
  { s with out := s.out ++ errorbuffer, closes := s.closes + 1 }

/-- One statement `field = filesep(sockfd, buffer, svcbuffersize, &bufferleft, " \r\n")`. -/
def pull (site : Site) (s : State) : State :=
  let r := filesep s.sock s.buffer svcbuffersize s.bufferleft delims
  { s with
    sock := r.filedesc, buffer := r.buffer, bufferleft := r.bufferleft, field := r.field,
    pulled := s.pulled ++ [(site, r.field.map (cstrAt r.buffer))] }

/-- The state set up by lines 86-120. -/
def initState (sock : Script) (fs : Files) : State :=
  { sock := sock, out := [], closes := 0, fs := fs,
    buffer := List.replicate svcbuffersize NUL, bufferleft := some 0, field := none,
    herror := 0, methodtype := htcommand.INVALID, httpver := 0,
    entity := [], hostline := [], emptycount := 0,
    filebuff := List.replicate svcbuffersize NUL,
    pulled := [], segv := false, overrun := false, hung := false }

/-- The priming read (lines 123-129).  `bytesread` is a `size_t`. -/
def prime (s : State) : State :=
  let rd := readFd s.sock (svcbuffersize - 1)
  let s := { s with sock := rd.2, buffer := writeAt s.buffer 0 (readData rd.1) }
  let bytesread := readLen rd.1
  if bytesread ≤ 0 then { s with closes := s.closes + 1, herror := -1 } else s

/-- The request method (lines 131-146). -/
def stageMethod (env : Env) (s : State) : State :=
  if s.herror = 0 ∧ s.segv = false then
    let s := pull Site.method s
    match s.field with
    | none => { s with herror := -2 }
    | some field =>
      if cstrAt s.buffer field = "GET".toList then { s with methodtype := htcommand.GET }
      else if cstrAt s.buffer field = "HEAD".toList then { s with methodtype := htcommand.HEAD }
      else if cstrAt s.buffer field = "POST".toList then { s with methodtype := htcommand.POST }
      else reporterror env { s with methodtype := htcommand.INVALID, herror := 405 } 405
  else s

/-- The request target (lines 148-160). -/
def stageEntity (env : Env) (s : State) : State :=
  let s :=
    if s.herror = 0 ∧ s.segv = false then
      let s := { s with entity := [] }
      let s := pull Site.target s
      match s.field with
      | none => { s with segv := true }
      | some field =>
        if cstrAt s.buffer field ≠ [] then { s with entity := cstrAt s.buffer field }
        else reporterror env { s with herror := 400 } 400
    else s
  { s with emptycount := 0 }

/-- The protocol version (lines 161-175). -/
def stageVersion (env : Env) (s : State) : State :=
  if s.herror = 0 ∧ s.segv = false then
    let s := pull Site.version s
    match s.field with
    | none => { s with segv := true }
    | some field =>
      if cstrAt s.buffer field = [] then { s with httpver := 10, emptycount := 1 }
      else if cstrAt s.buffer field = "HTTP/1.0".toList then { s with httpver := 10 }
      else if cstrAt s.buffer field = "HTTP/1.1".toList then { s with httpver := 11 }
      else reporterror env { s with herror := 400 } 400
  else s

/-- The loop of lines 178-200, run for at most `fuel` rounds. -/
def headerLoop (env : Env) : Nat → State → State
  | fuel, s =>
    if 2 > s.emptycount then
      match fuel with
      | 0 => { s with hung := true }
      | fuel + 1 =>
        let s := pull Site.header s
        match s.field with
        | none => { s with herror := -3 }
        | some field =>
          if cstrAt s.buffer field = [] then
            headerLoop env fuel { s with emptycount := s.emptycount + 1 }
          else
            let s := { s with emptycount := 0 }
            if cstrAt s.buffer field = "Host:".toList then
              let s := pull Site.hostval s
              match s.field with
              | none => { s with segv := true }
              | some field =>
                if cstrAt s.buffer field = [] then
                  reporterror env { s with herror := 400 } 400
                else
                  headerLoop env fuel
                    { s with hostline := (cstrAt s.buffer field).take (svcbuffersize - 1) }
            else headerLoop env fuel s
    else s

/-- The size of a script: its bytes plus one for every read. -/
def scriptSize (fd : Script) : Nat :=
  (fd.map (fun r => (readData r).length + 1)).sum

/-- A number of rounds the header loop cannot exceed: every round either moves
the cursor forward inside the array, or takes something from the socket, or
meets end-of-stream and counts an empty token. -/
def headerFuel (s : State) : Nat :=
  3 * (scriptSize s.sock * (s.buffer.length + 2) + s.buffer.length + 2)

/-- The header section (lines 177-201). -/
def stageHeaders (env : Env) (s : State) : State :=
  if s.herror = 0 ∧ s.segv = false then headerLoop env (headerFuel s) s else s

/-- One `write(sockfd, bs, strlen(bs))`. -/
def sockWrite (s : State) (bs : List Char) : State :=
  { s with out := s.out ++ bs }

/-- The test of line 236 on the path in `entity`.  The pointer
`entity + strlen(entity) - 5` lies before the array when the path is shorter
than five bytes; the comparison then fails whatever those bytes are, because
it reaches the leading `'.'` of the path at a place where the extension has
another byte. -/
def isJpeg (entity : List Char) : Bool :=
  (5 ≤ entity.length && entity.drop (entity.length - 5) == ".jpeg".toList)
    || (4 ≤ entity.length && entity.drop (entity.length - 4) == ".jpg".toList)

/-- The loop of lines 250-256: `file` is what is left to read of the open
file, `isize` the bytes sent so far. -/
def getLoop (st_size : Nat) : Nat → Nat → List Char → State → State
  | fuel, isize, file, s =>
    if isize < st_size then
      match fuel with
      | 0 => { s with hung := true }
      | fuel + 1 =>
        let chunk := file.take (svcbuffersize - 1)
        let scratchsize := chunk.length
        let filebuff := writeAt s.filebuff 0 chunk
        let s := { s with filebuff := filebuff, out := s.out ++ filebuff.take scratchsize }
        getLoop st_size fuel (isize + scratchsize) (file.drop (svcbuffersize - 1)) s
    else s

/-- Append `data` to the file at `path`. -/
def fsAppend : Files → List Char → List Char → Files
  | [], _, _ => []
  | (p, node) :: rest, path, data =>
    if p = path then (p, { node with content := node.content ++ data }) :: rest
    else (p, node) :: fsAppend rest path data

/-- The bytes the call `write(filefd, buf, count)` appends to the file: the
first `count` bytes of the array `buf`.  A count greater than the array, as
is the `2^64 - 1` a failed read leaves in `scratchsize`, names a range of
memory that does not exist: the system refuses the call (`EFAULT`) and
nothing is appended. -/
def fileWrite (buf : List Char) (count : Nat) : List Char :=
  if count ≤ buf.length then buf.take count else []

/-- The loop of lines 260-263, run for at most `fuel` rounds.  A failed read
leaves `2^64 - 1` in `scratchsize`: the `write` of line 262 is refused
(`overrun` records it) and appends nothing, and the loop, whose test
`scratchsize > 0` holds, goes on. -/
def postLoop (path : List Char) : Nat → State → State
  | 0, s => { s with hung := true }
  | fuel + 1, s =>
    let rd := readFd s.sock svcbuffersize
    let scratchsize := readLen rd.1
    let filebuff := writeAt s.filebuff 0 (readData rd.1)
    let s :=
      { s with
        sock := rd.2, filebuff := filebuff,
        fs := fsAppend s.fs path (fileWrite filebuff scratchsize),
        overrun := s.overrun || decide (svcbuffersize < scratchsize) }
    if scratchsize > 0 then postLoop path fuel s else s

/-- The header block of a successful response (lines 218-245). -/
def sendHeaders (env : Env) (filestat : FileNode) (s : State) : State :=
  let s := sockWrite s ("HTTP/1.0 200 OK\r\n".toList.take 17)
  let s := sockWrite s ("Date: ".toList ++ env.httpdate env.now ++ " GMT\r\n".toList)
  let s := sockWrite s ("Server: myhttpd/0.5 (Unix)\r\n".toList.take 28)
  let s := sockWrite s "Transfer-Encoding: identity\r\n".toList
  let s := sockWrite s "Connection: close\r\n".toList
  let s :=
    if s.methodtype = htcommand.GET ∨ s.methodtype = htcommand.HEAD then
      let s := sockWrite s
        ("Last-Modified: ".toList ++ env.httpdate filestat.st_mtime ++ " GMT\r\n".toList)
      let s :=
        if isJpeg s.entity then sockWrite s "Content-Type: image/jpeg\r\n".toList else s
      sockWrite s ("Content-Length: ".toList ++ decimal filestat.content.length ++ "\r\n".toList)
    else s
  sockWrite s ("\r\n".toList.take 2)

/-- The body transfer (lines 246-264). -/
def transfer (filestat : FileNode) (s : State) : State :=
  let s :=
    if s.methodtype = htcommand.GET then
      let s := { s with filebuff := bzero s.filebuff 0 svcbuffersize }
      getLoop filestat.content.length filestat.content.length 0 filestat.content s
    else s
  if s.methodtype = htcommand.POST then postLoop s.entity (scriptSize s.sock + 1) s
  else s

/-- The response (lines 204-266).  The path is built in place in `entity`
(lines 206-207); the array has `svcbuffersize` bytes, so for a target of 255
bytes the terminating `NUL` lands one byte behind it, which this embedding,
keeping `entity` as a string, does not show.  Messages to `stderr` are left
out. -/
def respond (env : Env) (s : State) : State :=
  if s.herror = 0 ∧ s.segv = false ∧ s.hung = false then
    let s := { s with entity := '.' :: s.entity }
    match s.fs.lookup s.entity with
    | none => reporterror env { s with herror := 404 } 404
    | some filestat => transfer filestat (sendHeaders env filestat s)
  else s

/-- Lines 268-269. -/
def finish (s : State) : State :=
  if s.herror = 0 ∧ s.segv = false ∧ s.hung = false then { s with closes := s.closes + 1 } else s

/-- The request parser: everything `svcthread` does before it looks the
target up (lines 86-201). -/
def parseRequest (env : Env) (sock : Script) (fs : Files) : State :=
  stageHeaders env (stageVersion env (stageEntity env (stageMethod env (prime (initState sock fs)))))

/-- The function `svcthread` (lines 85-272) on a connection whose reads are
`sock`, over the file system `fs`. -/
def svcthread (env : Env) (sock : Script) (fs : Files) : State :=
  finish (respond env (parseRequest env sock fs))

/-- An environment for worked examples: the clock stands at the epoch. -/
def env0 : Env :=
  { now := 0, httpdate := fun _ => "Thu, 01 Jan 1970 00:00:00".toList, stale := [] }

/-! ## Notions used in the statements -/

/-- A token body: no `NUL` and no delimiter among its bytes. -/
def Clean (delim tok : List Char) : Prop :=
  ∀ c ∈ tok, c ≠ NUL ∧ c ∉ delim

/-- The array after a refill: the pending partial token, the bytes read, and
zeroes up to the capacity. -/
def refilled (n : Nat) (p data : List Char) : List Char :=
  p ++ data ++ List.replicate (n - p.length - data.length) NUL

instance (delim tok : List Char) : Decidable (Clean delim tok) :=
  inferInstanceAs (Decidable (∀ c ∈ tok, c ≠ NUL ∧ c ∉ delim))

/-- The text of the token `field` points to. -/
def tokenOf (s : State) : List Char :=
  cstrAt s.buffer (s.field.getD 0)

/-- The header block as one byte string. -/
def headerBytes (env : Env) (filestat : FileNode) (m : htcommand) (entity : List Char) :
    List Char :=
  "HTTP/1.0 200 OK\r\n".toList
    ++ ("Date: ".toList ++ env.httpdate env.now ++ " GMT\r\n".toList)
    ++ "Server: myhttpd/0.5 (Unix)\r\n".toList
    ++ "Transfer-Encoding: identity\r\n".toList
    ++ "Connection: close\r\n".toList
    ++ (if m = htcommand.GET ∨ m = htcommand.HEAD then
          ("Last-Modified: ".toList ++ env.httpdate filestat.st_mtime ++ " GMT\r\n".toList)
            ++ (if isJpeg entity then "Content-Type: image/jpeg\r\n".toList else [])
            ++ ("Content-Length: ".toList ++ decimal filestat.content.length ++ "\r\n".toList)
        else [])
    ++ "\r\n".toList

/-- A trace entry: the call site and the token text (`none` for `NULL`). -/
abbrev Pull := Site × Option (List Char)

/-- The header token `Host:`. -/
abbrev hostTok : Pull := (Site.header, some "Host:".toList)

/-- An empty token pulled as the value of `Host:`. -/
abbrev emptyVal : Pull := (Site.hostval, some [])

/-- Somewhere in the trace a header token `Host:` is immediately followed by
an empty value token. -/
def hostErrIn : List Pull → Bool
  | a :: b :: rest => (a == hostTok && b == emptyVal) || hostErrIn (b :: rest)
  | _ => false

/-- The 400 report. -/
abbrev line400 : List Char := "HTTP/1.0 400 Bad Request\n\n".toList

/-- A version token the worker accepts. -/
def goodVersion (v : List Char) : Prop :=
  v = [] ∨ v = "HTTP/1.0".toList ∨ v = "HTTP/1.1".toList

instance (v : List Char) : Decidable (goodVersion v) :=
  inferInstanceAs (Decidable (_ ∨ _ ∨ _))

/-- The 404 report. -/
abbrev line404 : List Char := "HTTP/1.0 404 Not Found\n\n".toList

/-- The array is well formed: it has the declared capacity, its last byte is
`NUL`, and the cursor, when set, lies inside it. -/
def BufOK (bufflen : Nat) (buf : List Char) (cur : Option Nat) : Prop :=
  buf.length = bufflen ∧ (∃ b, buf = b ++ [NUL]) ∧ ∀ i, cur = some i → i < bufflen

/-- The room the cursor leaves in the array. -/
def cursorRoom (bufflen : Nat) : Option Nat → Nat
  | none => 0
  | some i => bufflen + 1 - i

/-- A quantity no `filesep` call increases: what the socket still holds,
weighted by the capacity, plus the room behind the cursor. -/
def readerMeasure (bufflen : Nat) (fd : Script) (cur : Option Nat) : Nat :=
  scriptSize fd * (bufflen + 2) + cursorRoom bufflen cur

/-- The worker's socket buffer is well formed. -/
def StateOK (s : State) : Prop :=
  BufOK svcbuffersize s.buffer s.bufferleft

/-- The reader's measure in a worker state. -/
def stateMeasure (s : State) : Nat :=
  readerMeasure svcbuffersize s.sock s.bufferleft

/-- The state once the header block of a successful response is written. -/
def headersSent (env : Env) (filestat : FileNode) (s : State) : State :=
  { s with
    entity := '.' :: s.entity,
    out := s.out ++ headerBytes env filestat s.methodtype ('.' :: s.entity) }

/-- The unconsumed region of the socket buffer is `u`. -/
def View (s : State) (u : List Char) : Prop :=
  ∃ i, s.bufferleft = some i ∧ s.buffer.drop i = u

/-- The texts of the tokens `k` successive `filesep` calls return. -/
def fileseps : Nat → Script → List Char → Nat → Option Nat → List Char → List (List Char)
  | 0, _, _, _, _, _ => []
  | k + 1, fd, buf, n, cur, delim =>
    (match (filesep fd buf n cur delim).field with
      | some i => cstrAt (filesep fd buf n cur delim).buffer i
      | none => [])
    :: fileseps k (filesep fd buf n cur delim).filedesc (filesep fd buf n cur delim).buffer n
        (filesep fd buf n cur delim).bufferleft delim

/-- The fields of a stream, as the specification has them: the stream cut at
every delimiter, each field with the delimiter that ends it (the last field
has none). -/
def fieldsD (delim : List Char) : List Char → List (List Char × Option Char)
  | [] => [([], none)]
  | c :: cs =>
    if c ∈ delim then ([], some c) :: fieldsD delim cs
    else
      match fieldsD delim cs with
      | (t, d) :: r => (c :: t, d) :: r
      | [] => [([c], none)]

/-- Fields rejoined, each followed by its delimiter. -/
def unsplit : List (List Char × Option Char) → List Char
  | [] => []
  | (t, some d) :: r => t ++ d :: unsplit r
  | (t, none) :: r => t ++ unsplit r

/-- The number of delimiters in a stream. -/
def countDelims (delim : List Char) (s : List Char) : Nat :=
  (s.filter (fun c => decide (c ∈ delim))).length

/-- The text behind the last delimiter of `u` (all of `u` when it has none):
what is pending as a partial token once `u` has been tokenised. -/
def pend (delim : List Char) (u : List Char) : List Char :=
  u.foldl (fun acc c => if c ∈ delim then [] else acc ++ [c]) []

/-- A division of a stream into reads that `filesep` copes with: every read is
free of `NUL`, holds a delimiter, and fits in an array of `n` bytes behind
the partial token pending when it is made. -/
def Fits (n : Nat) (delim : List Char) : List Char → List (List Char) → Prop
  | _, [] => True
  | u, c :: cs =>
    NUL ∉ c ∧ (∃ d ∈ c, d ∈ delim) ∧ (pend delim u).length + c.length ≤ n - 1
      ∧ Fits n delim c cs

/-- The request `req` came whole with the priming read and nothing follows
it; as long as the cursor is set it marks how much of `req` is consumed, and
the consumed bytes end with `m` delimiters. -/
def Consumed (req : List Char) (s : State) (m : Nat) : Prop :=
  s.sock = [] ∧ s.buffer.length = svcbuffersize
  ∧ ∀ k, s.bufferleft = some k →
      s.buffer.drop k = req.drop k ++ List.replicate (svcbuffersize - req.length) NUL
      ∧ ∃ pre ds : List Char, req.take k = pre ++ ds ∧ ds.length = m ∧ ∀ d ∈ ds, d ∈ delims

/-- A property of the reader's variables (descriptor, array, cursor) that
every `filesep` call of the worker keeps. -/
def Kept (P : Script → List Char → Option Nat → Prop) : Prop :=
  ∀ fd buf cur, P fd buf cur →
    P (filesep fd buf svcbuffersize cur delims).filedesc
      (filesep fd buf svcbuffersize cur delims).buffer
      (filesep fd buf svcbuffersize cur delims).bufferleft

/-- The 405 report. -/
abbrev line405 : List Char := "HTTP/1.0 405 Method Not Allowed\n\n".toList

/-- The token reader between two calls: the descriptor, the array, the cursor
`*bufferleft` and the token last returned.  `live` is a ghost variable, the
number of data bytes the array holds: the length of the partial token the
last refill kept plus the number of bytes its `read` stored. -/
structure Reader where
  filedesc : Script
  buffer : List Char
  bufferleft : Option Nat
  field : Option Nat
  live : Nat
  deriving DecidableEq, Repr

/-- The reader as the worker sets it up: the zeroed array of line 115, the
cursor of line 116 and the priming read of line 123. -/
def primed (sock : Script) : Reader :=
  let rd := readFd sock (svcbuffersize - 1)
  { filedesc := rd.2,
    buffer := writeAt (List.replicate svcbuffersize NUL) 0 (readData rd.1),
    bufferleft := some 0, field := none, live := (readData rd.1).length }

/-- The number of data bytes in the array after a call of `filesep` that
found `live` of them: the refill of lines 45-46 leaves what its `read`
stored, the refill of lines 50-53 the partial token and what its `read`
stored, and a call that does not refill leaves the count as it was. -/
def liveAfter (filedesc : Script) (buffer : List Char) (bufflen : Nat)
    (bufferleft : Option Nat) (delim : List Char) (live : Nat) : Nat :=
  let r := strsep buffer bufferleft delim
  match r.tok with
  | none => (readData (readFd filedesc (bufflen - 1)).1).length
  | some fieldptr =>
    match r.stringp with
    | none =>
      let partlen := strlen r.buf fieldptr
      partlen + (readData (readFd filedesc ((bufflen - 1) - partlen)).1).length
    | some _ => live

/-- One call `filesep(fd, buffer, svcbuffersize, &bufferleft, delim)`. -/
def Reader.call (delim : List Char) (r : Reader) : Reader :=
  let f := filesep r.filedesc r.buffer svcbuffersize r.bufferleft delim
  { filedesc := f.filedesc, buffer := f.buffer, bufferleft := f.bufferleft, field := f.field,
    live := liveAfter r.filedesc r.buffer svcbuffersize r.bufferleft delim r.live }

/-- A sequence of `filesep` calls, one for each delimiter set of the list. -/
def Reader.calls : List (List Char) → Reader → Reader
  | [], r => r
  | d :: ds, r => Reader.calls ds (Reader.call d r)

/-- The array holds `live` data bytes and nothing but `NUL` behind them, at
least one; the cursor, when set, is not beyond the end of the data. -/
def LiveOK (n : Nat) (buf : List Char) (cur : Option Nat) (live : Nat) : Prop :=
  buf.length = n ∧ live ≤ n - 1 ∧ 1 ≤ n ∧ buf.drop live = List.replicate (n - live) NUL
    ∧ ∀ i, cur = some i → i ≤ live

/-- The reader is well formed. -/
def ReaderOK (r : Reader) : Prop :=
  LiveOK svcbuffersize r.buffer r.bufferleft r.live ∧ ∀ j, r.field = some j → j ≤ r.live

/-- The texts of the first `k` tokens the token reader returns on a connection
whose reads are `sock`: `filesep` called `k` times with the worker's
delimiters behind the priming read.  It is the reader alone that is run
here, whatever the worker would do with the tokens. -/
def requestTokens (k : Nat) (sock : Script) : List (List Char) :=
  fileseps k (primed sock).filedesc (primed sock).buffer svcbuffersize (primed sock).bufferleft
    delims

/-- The texts of the next `k` tokens the reader returns from a worker state. -/
def nextTokens (k : Nat) (s : State) : List (List Char) :=
  fileseps k s.sock s.buffer svcbuffersize s.bufferleft delims

/-- What the parser of the specification makes of a list of tokens: it needs
more of them, or it has accepted the request, or rejected it with status 400,
after a number of tokens. -/
inductive Outcome where
  | more
  | accept (used : Nat)
  | reject (used : Nat)
  deriving DecidableEq, Repr

/-- The header section as the specification words it (section 4.2, HEADERS):
tokens are taken one by one, `run` counting the consecutive empty ones, and a
run of two ends the section; a token `Host:` takes the next token as its
value, and an empty value is an error; any other token is discarded.  `used`
counts the tokens taken. -/
def specHeaders : Nat → Nat → List (List Char) → Outcome
  | run, used, [] => if 2 ≤ run then Outcome.accept used else Outcome.more
  | run, used, t :: rest =>
    if 2 ≤ run then Outcome.accept used
    else if t = [] then specHeaders (run + 1) (used + 1) rest
    else if t = "Host:".toList then
      match rest with
      | [] => Outcome.more
      | v :: rest2 =>
        if v = [] then Outcome.reject (used + 2) else specHeaders 0 (used + 2) rest2
    else specHeaders 0 (used + 1) rest

/-- The request behind a valid method token as the specification words it
(section 4.2, TARGET, VERSION, HEADERS): an empty target is an error; an empty
version stands for 1.0, and starts the run of empty tokens; a version other
than `HTTP/1.0` and `HTTP/1.1` is an error; the header section follows. -/
def specRequest : List (List Char) → Outcome
  | [] => Outcome.more
  | target :: rest =>
    if target = [] then Outcome.reject 1
    else
      match rest with
      | [] => Outcome.more
      | version :: headers =>
        if version = [] then specHeaders 1 2 headers
        else if version = "HTTP/1.0".toList ∨ version = "HTTP/1.1".toList then
          specHeaders 0 2 headers
        else Outcome.reject 2

/-- A connection on which the bytes `s` are all available: every read returns
as many of them as it asks for, and end-of-stream behind them. -/
def avail (s : List Char) : Script :=
  if s = [] then [] else [some s]

/-- The request `req` reaches the worker in the reads `c1`, `c2`, ..., each
returned whole by the read that takes it: the priming read returns `c1`, and
every later read holds a delimiter and fits the array behind the partial token
pending when it is made. -/
def InReads (req : List Char) (sock : Script) : Prop :=
  ∃ (c1 : List Char) (cs : List (List Char)),
    sock = (c1 :: cs).map some ∧ c1 ≠ [] ∧ c1.length ≤ svcbuffersize - 1
      ∧ Fits svcbuffersize delims c1 cs ∧ c1 ++ cs.flatten = req

/-! ## Arrays, strings and `strsep` -/

theorem writeAt_length (buf : List Char) (off : Nat) (bs : List Char) :
    (writeAt buf off bs).length = buf.length := by
  simp only [writeAt, List.length_append, List.length_take, List.length_drop]
  omega

theorem writeAt_zero_replicate (n : Nat) (bs : List Char) (h : bs.length ≤ n) :
    writeAt (List.replicate n NUL) 0 bs = bs ++ List.replicate (n - bs.length) NUL := by
  simp [writeAt, List.take_of_length_le h]

theorem Clean.tail {delim : List Char} {c : Char} {cs : List Char}
    (h : Clean delim (c :: cs)) : Clean delim cs :=
  fun x hx => h x (by simp [hx])

theorem findDelim_hit (delim tok : List Char) (d : Char) (rest : List Char)
    (hc : Clean delim tok) (hd : d ∈ delim) (hn : d ≠ NUL) :
    findDelim delim (tok ++ d :: rest) = some tok.length := by
  induction tok with
  | nil => simp [findDelim, hn, hd]
  | cons c cs ih =>
    have h1 := hc c (by simp)
    simp [findDelim, h1.1, h1.2, ih hc.tail]

theorem findDelim_miss (delim tok : List Char) (rest : List Char) (hc : Clean delim tok) :
    findDelim delim (tok ++ NUL :: rest) = none := by
  induction tok with
  | nil => simp [findDelim]
  | cons c cs ih =>
    have h1 := hc c (by simp)
    simp [findDelim, h1.1, h1.2, ih hc.tail]

theorem findDelim_end (delim tok : List Char) (hc : Clean delim tok) :
    findDelim delim tok = none := by
  induction tok with
  | nil => simp [findDelim]
  | cons c cs ih =>
    have h1 := hc c (by simp)
    simp [findDelim, h1.1, h1.2, ih hc.tail]

theorem takeWhile_clean (delim tok rest : List Char) (hc : Clean delim tok) :
    (tok ++ NUL :: rest).takeWhile (fun c => c != NUL) = tok := by
  induction tok with
  | nil => simp
  | cons c cs ih =>
    have h1 := hc c (by simp)
    simp [List.takeWhile_cons, h1.1, ih hc.tail]

theorem cstrAt_of_drop (delim buf : List Char) (i : Nat) (tok rest : List Char)
    (hc : Clean delim tok) (h : buf.drop i = tok ++ NUL :: rest) : cstrAt buf i = tok := by
  simp [cstrAt, h, takeWhile_clean delim tok rest hc]

theorem drop_set_of_drop (buf : List Char) (i : Nat) (tok : List Char) (d : Char)
    (rest : List Char) (h : buf.drop i = tok ++ d :: rest) :
    (buf.set (i + tok.length) NUL).drop i = tok ++ NUL :: rest := by
  rw [List.drop_set]
  simp [h]

theorem drop_set_after (buf : List Char) (i : Nat) (tok : List Char) (d : Char)
    (rest : List Char) (h : buf.drop i = tok ++ d :: rest) :
    (buf.set (i + tok.length) NUL).drop (i + tok.length + 1) = rest := by
  rw [List.drop_set]
  have h2 : buf.drop (i + tok.length + 1) = (buf.drop i).drop (tok.length + 1) := by
    simp [List.drop_drop, Nat.add_assoc]
  simp [h2, h]

theorem strsep_hit (delim buf : List Char) (i : Nat) (tok : List Char) (d : Char)
    (rest : List Char) (h : buf.drop i = tok ++ d :: rest)
    (hc : Clean delim tok) (hd : d ∈ delim) (hn : d ≠ NUL) :
    strsep buf (some i) delim
      = ⟨some i, buf.set (i + tok.length) NUL, some (i + tok.length + 1)⟩ := by
  simp [strsep, h, findDelim_hit delim tok d rest hc hd hn]

theorem strsep_miss (delim buf : List Char) (i : Nat) (tok : List Char)
    (rest : List Char) (h : buf.drop i = tok ++ NUL :: rest) (hc : Clean delim tok) :
    strsep buf (some i) delim = ⟨some i, buf, none⟩ := by
  simp [strsep, h, findDelim_miss delim tok rest hc]

theorem filesep_hit (fd : Script) (delim buf : List Char) (n i : Nat) (tok : List Char)
    (d : Char) (rest : List Char) (h : buf.drop i = tok ++ d :: rest)
    (hc : Clean delim tok) (hd : d ∈ delim) (hn : d ≠ NUL) :
    filesep fd buf n (some i) delim
      = ⟨some i, fd, buf.set (i + tok.length) NUL, some (i + tok.length + 1)⟩ := by
  simp [filesep, strsep_hit delim buf i tok d rest h hc hd hn]

theorem readFd_length (fd : Script) (n : Nat) : (readData (readFd fd n).1).length ≤ n := by
  unfold readFd
  split
  · simp [readData]
  · split
    · simp [readData]
    · simp [readData]
    · split
      · simpa [readData]
      · simp [readData]

theorem refill_buffer (buf : List Char) (i : Nat) (p z data : List Char)
    (h : buf.drop i = p ++ NUL :: z) (hd : p.length + data.length ≤ buf.length - 1) :
    writeAt (bzero (memmove buf 0 i p.length) p.length (buf.length - p.length)) p.length data
      = refilled buf.length p data := by
  have hlen : i + (p.length + (z.length + 1)) = buf.length := by
    have := congrArg List.length h
    simp at this
    omega
  have h1 : memmove buf 0 i p.length = p ++ buf.drop p.length := by
    simp [memmove, writeAt, h]
    omega
  have h2 : bzero (memmove buf 0 i p.length) p.length (buf.length - p.length)
      = p ++ List.replicate (buf.length - p.length) NUL := by
    rw [h1]
    simp [bzero, writeAt]
    omega
  rw [h2]
  simp [writeAt, refilled, List.take_of_length_le, List.drop_append]
  omega

theorem readFd_fits (bs : List Char) (fd : Script) (n : Nat) (h0 : bs ≠ [])
    (h : bs.length ≤ n) : readFd (some bs :: fd) n = (some bs, fd) := by
  have : n ≠ 0 := by
    intro hn
    subst hn
    simp at h
    exact h0 h
  simp [readFd, this, h]

theorem filesep_pending (fd : Script) (delim buf : List Char) (i : Nat) (p z : List Char)
    (h : buf.drop i = p ++ NUL :: z) (hc : Clean delim p) :
    filesep fd buf buf.length (some i) delim
      = ⟨(strsep (refilled buf.length p
              (readData (readFd fd (buf.length - 1 - p.length)).1)) (some 0) delim).tok,
          (readFd fd (buf.length - 1 - p.length)).2,
          (strsep (refilled buf.length p
              (readData (readFd fd (buf.length - 1 - p.length)).1)) (some 0) delim).buf,
          (strsep (refilled buf.length p
              (readData (readFd fd (buf.length - 1 - p.length)).1)) (some 0) delim).stringp⟩ := by
  have hlen : i + (p.length + (z.length + 1)) = buf.length := by
    have := congrArg List.length h
    simp at this
    omega
  have hs : strlen buf i = p.length := by
    simp [strlen, cstrAt_of_drop delim buf i p z hc h]
  have hr := readFd_length fd (buf.length - 1 - p.length)
  have hb := refill_buffer buf i p z (readData (readFd fd (buf.length - 1 - p.length)).1) h
    (by omega)
  simp only [filesep, strsep_miss delim buf i p z h hc, hs, hb]

theorem filesep_null (fd : Script) (delim buf : List Char) :
    filesep fd buf buf.length none delim
      = ⟨(strsep (refilled buf.length []
              (readData (readFd fd (buf.length - 1)).1)) (some 0) delim).tok,
          (readFd fd (buf.length - 1)).2,
          (strsep (refilled buf.length []
              (readData (readFd fd (buf.length - 1)).1)) (some 0) delim).buf,
          (strsep (refilled buf.length []
              (readData (readFd fd (buf.length - 1)).1)) (some 0) delim).stringp⟩ := by
  have hr := readFd_length fd (buf.length - 1)
  have hb : writeAt (bzero buf 0 buf.length) 0 (readData (readFd fd (buf.length - 1)).1)
      = refilled buf.length [] (readData (readFd fd (buf.length - 1)).1) := by
    have : bzero buf 0 buf.length = List.replicate buf.length NUL := by
      simp [bzero, writeAt]
    rw [this, writeAt_zero_replicate _ _ (by omega)]
    simp [refilled]
  simp only [filesep, strsep, hb]

theorem filesep_field_some (fd : Script) (buf : List Char) (n : Nat) (cur : Option Nat)
    (delim : List Char) : ∃ i, (filesep fd buf n cur delim).field = some i := by
  have h0 : ∀ b : List Char, (strsep b (some 0) delim).tok = some 0 := by
    intro b
    unfold strsep
    simp only []
    split <;> rfl
  unfold filesep
  simp only []
  split
  · exact ⟨0, h0 _⟩
  · split
    · exact ⟨0, h0 _⟩
    · exact ⟨_, rfl⟩

theorem pull_field_some (site : Site) (s : State) : ∃ i, (pull site s).field = some i :=
  filesep_field_some _ _ _ _ _

theorem pull_pulled (site : Site) (s : State) :
    (pull site s).pulled = s.pulled ++ [(site, some (tokenOf (pull site s)))] := by
  obtain ⟨i, hi⟩ := pull_field_some site s
  have hi2 : (filesep s.sock s.buffer svcbuffersize s.bufferleft delims).field = some i := hi
  simp only [tokenOf, pull, hi2, Option.map_some', Option.getD_some]

@[simp] theorem pull_out (site : Site) (s : State) : (pull site s).out = s.out := rfl
@[simp] theorem pull_closes (site : Site) (s : State) : (pull site s).closes = s.closes := rfl
@[simp] theorem pull_fs (site : Site) (s : State) : (pull site s).fs = s.fs := rfl
@[simp] theorem pull_herror (site : Site) (s : State) : (pull site s).herror = s.herror := rfl
@[simp] theorem pull_methodtype (site : Site) (s : State) :
    (pull site s).methodtype = s.methodtype := rfl
@[simp] theorem pull_entity (site : Site) (s : State) : (pull site s).entity = s.entity := rfl
@[simp] theorem pull_segv (site : Site) (s : State) : (pull site s).segv = s.segv := rfl
@[simp] theorem pull_hung (site : Site) (s : State) : (pull site s).hung = s.hung := rfl
@[simp] theorem pull_overrun (site : Site) (s : State) : (pull site s).overrun = s.overrun := rfl
@[simp] theorem pull_filebuff (site : Site) (s : State) :
    (pull site s).filebuff = s.filebuff := rfl
@[simp] theorem pull_emptycount (site : Site) (s : State) :
    (pull site s).emptycount = s.emptycount := rfl
@[simp] theorem pull_httpver (site : Site) (s : State) : (pull site s).httpver = s.httpver := rfl
@[simp] theorem pull_hostline (site : Site) (s : State) :
    (pull site s).hostline = s.hostline := rfl

/-- The method stage, with the token it pulled made explicit. -/
theorem stageMethod_eq (env : Env) (s : State) (h0 : s.herror = 0) (hs : s.segv = false) :
    stageMethod env s =
      if tokenOf (pull Site.method s) = "GET".toList then
        { pull Site.method s with methodtype := htcommand.GET }
      else if tokenOf (pull Site.method s) = "HEAD".toList then
        { pull Site.method s with methodtype := htcommand.HEAD }
      else if tokenOf (pull Site.method s) = "POST".toList then
        { pull Site.method s with methodtype := htcommand.POST }
      else reporterror env
        { pull Site.method s with methodtype := htcommand.INVALID, herror := 405 } 405 := by
  obtain ⟨i, hi⟩ := pull_field_some Site.method s
  unfold stageMethod
  rw [if_pos ⟨h0, hs⟩]
  simp only [hi, tokenOf, Option.getD_some]

theorem stageEntity_eq (env : Env) (s : State) (h0 : s.herror = 0) (hs : s.segv = false) :
    stageEntity env s =
      if tokenOf (pull Site.target { s with entity := [] }) ≠ [] then
        { pull Site.target { s with entity := [] } with
          entity := tokenOf (pull Site.target { s with entity := [] }), emptycount := 0 }
      else
        { reporterror env { pull Site.target { s with entity := [] } with herror := 400 } 400
          with emptycount := 0 } := by
  obtain ⟨i, hi⟩ := pull_field_some Site.target { s with entity := [] }
  unfold stageEntity
  rw [if_pos ⟨h0, hs⟩]
  simp only [hi, tokenOf, Option.getD_some]
  split <;> rfl

theorem stageVersion_eq (env : Env) (s : State) (h0 : s.herror = 0) (hs : s.segv = false) :
    stageVersion env s =
      if tokenOf (pull Site.version s) = [] then
        { pull Site.version s with httpver := 10, emptycount := 1 }
      else if tokenOf (pull Site.version s) = "HTTP/1.0".toList then
        { pull Site.version s with httpver := 10 }
      else if tokenOf (pull Site.version s) = "HTTP/1.1".toList then
        { pull Site.version s with httpver := 11 }
      else reporterror env { pull Site.version s with herror := 400 } 400 := by
  obtain ⟨i, hi⟩ := pull_field_some Site.version s
  unfold stageVersion
  rw [if_pos ⟨h0, hs⟩]
  simp only [hi, tokenOf, Option.getD_some]

theorem pull_field_ne_none (site : Site) (s : State) : (pull site s).field ≠ none := by
  obtain ⟨i, hi⟩ := pull_field_some site s
  simp [hi]

theorem headerLoop_done (env : Env) (fuel : Nat) (s : State) (h : ¬ 2 > s.emptycount) :
    headerLoop env fuel s = s := by
  unfold headerLoop
  rw [if_neg h]

theorem headerLoop_zero (env : Env) (s : State) (h : 2 > s.emptycount) :
    headerLoop env 0 s = { s with hung := true } := by
  unfold headerLoop
  rw [if_pos h]

theorem headerLoop_step (env : Env) (fuel : Nat) (s : State) (h : 2 > s.emptycount) :
    headerLoop env (fuel + 1) s =
      if tokenOf (pull Site.header s) = [] then
        headerLoop env fuel
          { pull Site.header s with emptycount := (pull Site.header s).emptycount + 1 }
      else if tokenOf (pull Site.header s) = "Host:".toList then
        if tokenOf (pull Site.hostval { pull Site.header s with emptycount := 0 }) = [] then
          reporterror env
            { pull Site.hostval { pull Site.header s with emptycount := 0 } with herror := 400 }
            400
        else
          headerLoop env fuel
            { pull Site.hostval { pull Site.header s with emptycount := 0 } with
              hostline :=
                (tokenOf (pull Site.hostval { pull Site.header s with emptycount := 0 })).take
                  (svcbuffersize - 1) }
      else headerLoop env fuel { pull Site.header s with emptycount := 0 } := by
  obtain ⟨i, hi⟩ := pull_field_some Site.header s
  rw [headerLoop]
  rw [if_pos h]
  simp only [hi, tokenOf, Option.getD_some]
  split
  · rfl
  · split
    · split
      · rename_i heq
        exact absurd heq (pull_field_ne_none _ _)
      · rename_i f heq
        simp only [heq, Option.getD_some]
    · rfl

theorem stageEntity_skip (env : Env) (s : State) (h : s.herror ≠ 0) :
    stageEntity env s = { s with emptycount := 0 } := by
  unfold stageEntity
  rw [if_neg (fun hh => h hh.1)]

theorem stageVersion_skip (env : Env) (s : State) (h : s.herror ≠ 0) :
    stageVersion env s = s := by
  unfold stageVersion
  rw [if_neg (fun hh => h hh.1)]

theorem stageHeaders_skip (env : Env) (s : State) (h : s.herror ≠ 0) :
    stageHeaders env s = s := by
  unfold stageHeaders
  rw [if_neg (fun hh => h hh.1)]

theorem respond_skip (env : Env) (s : State) (h : s.herror ≠ 0) : respond env s = s := by
  unfold respond
  rw [if_neg (fun hh => h hh.1)]

theorem finish_skip (s : State) (h : s.herror ≠ 0) : finish s = s := by
  unfold finish
  rw [if_neg (fun hh => h hh.1)]

/-- Once an error is recorded nothing more happens but the reset of line 160. -/
theorem rest_skip (env : Env) (s : State) (h : s.herror ≠ 0) :
    finish (respond env (stageHeaders env (stageVersion env (stageEntity env s))))
      = { s with emptycount := 0 } := by
  have h2 : ({ s with emptycount := 0 } : State).herror ≠ 0 := h
  rw [stageEntity_skip env s h, stageVersion_skip env _ h2, stageHeaders_skip env _ h2,
    respond_skip env _ h2, finish_skip _ h2]

theorem getLoop_frame (n : Nat) (fuel : Nat) :
    ∀ (isize : Nat) (file : List Char) (s : State),
      (getLoop n fuel isize file s).herror = s.herror
      ∧ (getLoop n fuel isize file s).closes = s.closes
      ∧ (getLoop n fuel isize file s).pulled = s.pulled
      ∧ (getLoop n fuel isize file s).methodtype = s.methodtype
      ∧ (getLoop n fuel isize file s).entity = s.entity
      ∧ (getLoop n fuel isize file s).segv = s.segv
      ∧ (getLoop n fuel isize file s).fs = s.fs
      ∧ (getLoop n fuel isize file s).sock = s.sock := by
  induction fuel with
  | zero =>
    intro isize file s
    unfold getLoop
    split <;> simp
  | succ k ih =>
    intro isize file s
    unfold getLoop
    split
    · simp only []
      exact ih _ _ _
    · simp

theorem postLoop_frame (path : List Char) (fuel : Nat) :
    ∀ (s : State),
      (postLoop path fuel s).herror = s.herror
      ∧ (postLoop path fuel s).closes = s.closes
      ∧ (postLoop path fuel s).pulled = s.pulled
      ∧ (postLoop path fuel s).methodtype = s.methodtype
      ∧ (postLoop path fuel s).entity = s.entity
      ∧ (postLoop path fuel s).segv = s.segv
      ∧ (postLoop path fuel s).out = s.out := by
  induction fuel with
  | zero =>
    intro s
    unfold postLoop
    simp
  | succ k ih =>
    intro s
    unfold postLoop
    simp only []
    split
    · exact ih _
    · simp

theorem stageEntity_herror (env : Env) (s : State) :
    (stageEntity env s).herror = s.herror ∨ (stageEntity env s).herror = 400 := by
  by_cases h : s.herror = 0 ∧ s.segv = false
  · rw [stageEntity_eq env s h.1 h.2]
    split
    · left; rfl
    · right; rfl
  · unfold stageEntity
    rw [if_neg h]
    left; rfl

theorem stageVersion_herror (env : Env) (s : State) :
    (stageVersion env s).herror = s.herror ∨ (stageVersion env s).herror = 400 := by
  by_cases h : s.herror = 0 ∧ s.segv = false
  · rw [stageVersion_eq env s h.1 h.2]
    split
    · left; rfl
    · split
      · left; rfl
      · split
        · left; rfl
        · right; rfl
  · unfold stageVersion
    rw [if_neg h]
    left; rfl

theorem headerLoop_herror (env : Env) (fuel : Nat) :
    ∀ s : State, (headerLoop env fuel s).herror = s.herror
      ∨ (headerLoop env fuel s).herror = 400 := by
  induction fuel with
  | zero =>
    intro s
    by_cases h : 2 > s.emptycount
    · rw [headerLoop_zero env s h]; left; rfl
    · rw [headerLoop_done env 0 s h]; left; rfl
  | succ k ih =>
    intro s
    by_cases h : 2 > s.emptycount
    · rw [headerLoop_step env k s h]
      split
      · exact ih _
      · split
        · split
          · right; rfl
          · exact ih _
        · exact ih _
    · rw [headerLoop_done env _ s h]; left; rfl

theorem stageHeaders_herror (env : Env) (s : State) :
    (stageHeaders env s).herror = s.herror ∨ (stageHeaders env s).herror = 400 := by
  unfold stageHeaders
  split
  · exact headerLoop_herror env _ s
  · left; rfl

@[simp] theorem sockWrite_herror (s : State) (bs : List Char) :
    (sockWrite s bs).herror = s.herror := rfl
@[simp] theorem sockWrite_methodtype (s : State) (bs : List Char) :
    (sockWrite s bs).methodtype = s.methodtype := rfl
@[simp] theorem sockWrite_entity (s : State) (bs : List Char) :
    (sockWrite s bs).entity = s.entity := rfl
@[simp] theorem sockWrite_out (s : State) (bs : List Char) :
    (sockWrite s bs).out = s.out ++ bs := rfl

theorem sendHeaders_eq (env : Env) (filestat : FileNode) (s : State) :
    sendHeaders env filestat s
      = { s with out := s.out ++ headerBytes env filestat s.methodtype s.entity } := by
  have e1 : "HTTP/1.0 200 OK\r\n".toList.take 17 = "HTTP/1.0 200 OK\r\n".toList := by decide
  have e2 : "Server: myhttpd/0.5 (Unix)\r\n".toList.take 28
      = "Server: myhttpd/0.5 (Unix)\r\n".toList := by decide
  have e3 : "\r\n".toList.take 2 = "\r\n".toList := by decide
  unfold sendHeaders headerBytes
  rw [e1, e2, e3]
  simp only [sockWrite_methodtype, sockWrite_entity]
  by_cases hm : s.methodtype = htcommand.GET ∨ s.methodtype = htcommand.HEAD
  · by_cases hj : isJpeg s.entity = true
    · simp only [hm, hj, if_true, sockWrite, List.append_assoc]
    · have hj2 : isJpeg s.entity = false := Bool.eq_false_iff.2 hj
      simp only [hm, hj2, Bool.false_eq_true, if_true, if_false, sockWrite, List.append_assoc,
        List.append_nil, List.nil_append]
  · simp only [hm, if_false, sockWrite, List.append_assoc, List.append_nil, List.nil_append]

theorem transfer_frame (filestat : FileNode) (s : State) :
    (transfer filestat s).herror = s.herror
    ∧ (transfer filestat s).closes = s.closes
    ∧ (transfer filestat s).pulled = s.pulled
    ∧ (transfer filestat s).methodtype = s.methodtype
    ∧ (transfer filestat s).entity = s.entity
    ∧ (transfer filestat s).segv = s.segv := by
  unfold transfer
  simp only []
  by_cases hg : s.methodtype = htcommand.GET
  · have hp : ¬ (getLoop filestat.content.length filestat.content.length 0 filestat.content
        { s with filebuff := bzero s.filebuff 0 svcbuffersize }).methodtype = htcommand.POST := by
      rw [(getLoop_frame _ _ _ _ _).2.2.2.1]
      simp [hg]
    rw [if_pos hg, if_neg hp]
    have h := getLoop_frame filestat.content.length filestat.content.length 0 filestat.content
      { s with filebuff := bzero s.filebuff 0 svcbuffersize }
    exact ⟨h.1, h.2.1, h.2.2.1, h.2.2.2.1, h.2.2.2.2.1, h.2.2.2.2.2.1⟩
  · rw [if_neg hg]
    split
    · have h := postLoop_frame s.entity (scriptSize s.sock + 1) s
      exact ⟨h.1, h.2.1, h.2.2.1, h.2.2.2.1, h.2.2.2.2.1, h.2.2.2.2.2.1⟩
    · simp

theorem respond_herror (env : Env) (s : State) :
    (respond env s).herror = s.herror ∨ (respond env s).herror = 404 := by
  unfold respond
  split
  · simp only []
    split
    · right; rfl
    · left
      rw [(transfer_frame _ _).1, sendHeaders_eq]
  · left; rfl

theorem finish_herror (s : State) : (finish s).herror = s.herror := by
  unfold finish
  split <;> rfl

theorem prime_frame (s : State) :
    (prime s).segv = s.segv ∧ (prime s).pulled = s.pulled ∧ (prime s).out = s.out
    ∧ (prime s).fs = s.fs ∧ (prime s).hung = s.hung := by
  unfold prime
  simp only []
  split <;> simp

theorem prime_eof (sock : Script) (fs : Files)
    (h : readLen (readFd sock (svcbuffersize - 1)).1 = 0) :
    (prime (initState sock fs)).herror = -1 ∧ (prime (initState sock fs)).closes = 1 := by
  unfold prime
  simp only [initState]
  rw [if_pos (by omega)]
  exact ⟨rfl, rfl⟩

theorem prime_ok (sock : Script) (fs : Files)
    (h : readLen (readFd sock (svcbuffersize - 1)).1 ≠ 0) :
    (prime (initState sock fs)).herror = 0 ∧ (prime (initState sock fs)).closes = 0 := by
  unfold prime
  simp only [initState]
  rw [if_neg (by omega)]
  exact ⟨rfl, rfl⟩

/-- What the stages after the method stage can leave in `herror`. -/
theorem later_herror (env : Env) (s : State) :
    (finish (respond env (stageHeaders env (stageVersion env (stageEntity env s))))).herror
        = s.herror
    ∨ (finish (respond env (stageHeaders env (stageVersion env (stageEntity env s))))).herror
        = 400
    ∨ (finish (respond env (stageHeaders env (stageVersion env (stageEntity env s))))).herror
        = 404 := by
  rw [finish_herror]
  rcases respond_herror env (stageHeaders env (stageVersion env (stageEntity env s)))
    with h4 | h4
  · rcases stageHeaders_herror env (stageVersion env (stageEntity env s)) with h3 | h3
    · rcases stageVersion_herror env (stageEntity env s) with h2 | h2
      · rcases stageEntity_herror env s with h1 | h1
        · left; rw [h4, h3, h2, h1]
        · right; left; rw [h4, h3, h2, h1]
      · right; left; rw [h4, h3, h2]
    · right; left; rw [h4, h3]
  · right; right; exact h4

theorem hostErrIn_cons (a : Pull) (l : List Pull) (h : a ≠ hostTok) :
    hostErrIn (a :: l) = hostErrIn l := by
  cases l with
  | nil => rfl
  | cons b rest =>
    cases rest with
    | nil => simp [hostErrIn, h]
    | cons c rest2 => simp [hostErrIn, h]

theorem hostErrIn_cons_cons (a b : Pull) (l : List Pull) (h : b ≠ emptyVal)
    (h2 : b ≠ hostTok) : hostErrIn (a :: b :: l) = hostErrIn l := by
  have : hostErrIn (a :: b :: l) = hostErrIn (b :: l) := by
    simp [hostErrIn, h]
  rw [this, hostErrIn_cons b l h2]

theorem hostErrIn_iff (l : List Pull) :
    hostErrIn l = true ↔ ∃ pre post, l = pre ++ hostTok :: emptyVal :: post := by
  induction l with
  | nil => simp [hostErrIn]
  | cons a l ih =>
    cases l with
    | nil =>
      simp only [hostErrIn, Bool.false_eq_true, false_iff]
      rintro ⟨pre, post, h⟩
      have := congrArg List.length h
      simp at this
      omega
    | cons b rest =>
      simp only [hostErrIn, Bool.or_eq_true, Bool.and_eq_true, beq_iff_eq]
      constructor
      · rintro (⟨h1, h2⟩ | h)
        · exact ⟨[], rest, by rw [h1, h2]; rfl⟩
        · obtain ⟨pre, post, hp⟩ := ih.1 h
          exact ⟨a :: pre, post, by rw [hp]; rfl⟩
      · rintro ⟨pre, post, h⟩
        cases pre with
        | nil =>
          simp only [List.nil_append, List.cons.injEq] at h
          exact Or.inl ⟨h.1, h.2.1⟩
        | cons x pre2 =>
          simp only [List.cons_append, List.cons.injEq] at h
          exact Or.inr (ih.2 ⟨pre2, post, h.2⟩)

theorem hostErrIn_end (pre : List Pull) : hostErrIn (pre ++ [hostTok, emptyVal]) = true :=
  (hostErrIn_iff _).2 ⟨pre, [], rfl⟩

/-- What the header loop adds to the trace, and how it ends: with status 400
right after a `Host:` token and its empty value, or without error and without
such a pair. -/
theorem headerLoop_trace (env : Env) (fuel : Nat) :
    ∀ s : State, s.herror = 0 →
      ∃ ext : List Pull,
        (headerLoop env fuel s).pulled = s.pulled ++ ext
        ∧ (∀ e, ext.head? = some e → e.1 = Site.header)
        ∧ (((headerLoop env fuel s).herror = 400
              ∧ (∃ pre, ext = pre ++ [hostTok, emptyVal])
              ∧ (headerLoop env fuel s).out = s.out ++ line400
              ∧ (headerLoop env fuel s).closes = s.closes + 1)
            ∨ ((headerLoop env fuel s).herror = 0
              ∧ hostErrIn ext = false
              ∧ (headerLoop env fuel s).out = s.out
              ∧ (headerLoop env fuel s).closes = s.closes)) := by
  induction fuel with
  | zero =>
    intro s h0
    refine ⟨[], ?_, by simp, Or.inr ?_⟩
    · by_cases h : 2 > s.emptycount
      · rw [headerLoop_zero env s h]; simp
      · rw [headerLoop_done env 0 s h]; simp
    · by_cases h : 2 > s.emptycount
      · rw [headerLoop_zero env s h]; exact ⟨h0, rfl, rfl, rfl⟩
      · rw [headerLoop_done env 0 s h]; exact ⟨h0, rfl, rfl, rfl⟩
  | succ k ih =>
    intro s h0
    by_cases h : 2 > s.emptycount
    · rw [headerLoop_step env k s h]
      have hp1 := pull_pulled Site.header s
      by_cases he : tokenOf (pull Site.header s) = []
      · rw [if_pos he]
        obtain ⟨ext, h1, h2, h3⟩ := ih
          { pull Site.header s with emptycount := (pull Site.header s).emptycount + 1 } h0
        refine ⟨(Site.header, some []) :: ext, ?_, by simp, ?_⟩
        · rw [h1]
          show (pull Site.header s).pulled ++ ext = _
          rw [hp1, he]; simp
        · rcases h3 with ⟨a, ⟨pre, b⟩, c, d⟩ | ⟨a, b, c, d⟩
          · exact Or.inl ⟨a, ⟨(Site.header, some []) :: pre, by rw [b]; rfl⟩, c, d⟩
          · refine Or.inr ⟨a, ?_, c, d⟩
            rw [hostErrIn_cons _ _ (by decide)]
            exact b
      · rw [if_neg he]
        by_cases hh : tokenOf (pull Site.header s) = "Host:".toList
        · rw [if_pos hh]
          have hp2 := pull_pulled Site.hostval { pull Site.header s with emptycount := 0 }
          by_cases hv : tokenOf (pull Site.hostval { pull Site.header s with emptycount := 0 })
              = []
          · rw [if_pos hv]
            refine ⟨[hostTok, emptyVal], ?_, by simp, Or.inl ⟨rfl, ⟨[], rfl⟩, rfl, rfl⟩⟩
            show (pull Site.hostval { pull Site.header s with emptycount := 0 }).pulled = _
            rw [hp2, hv]
            show (pull Site.header s).pulled ++ _ = _
            rw [hp1, hh]; simp
          · rw [if_neg hv]
            obtain ⟨ext, h1, h2, h3⟩ := ih
              { pull Site.hostval { pull Site.header s with emptycount := 0 } with
                hostline :=
                  (tokenOf (pull Site.hostval { pull Site.header s with emptycount := 0 })).take
                    (svcbuffersize - 1) } h0
            refine ⟨hostTok :: (Site.hostval, some (tokenOf (pull Site.hostval
                { pull Site.header s with emptycount := 0 }))) :: ext, ?_, by simp, ?_⟩
            · rw [h1]
              show (pull Site.hostval { pull Site.header s with emptycount := 0 }).pulled ++ ext
                = _
              rw [hp2]
              show ((pull Site.header s).pulled ++ _) ++ ext = _
              rw [hp1, hh]; simp
            · rcases h3 with ⟨a, ⟨pre, b⟩, c, d⟩ | ⟨a, b, c, d⟩
              · exact Or.inl ⟨a, ⟨hostTok :: (Site.hostval, some (tokenOf (pull Site.hostval
                  { pull Site.header s with emptycount := 0 }))) :: pre, by rw [b]; rfl⟩, c, d⟩
              · refine Or.inr ⟨a, ?_, c, d⟩
                rw [hostErrIn_cons_cons _ _ _ (by simpa using hv) (by simp)]
                exact b
        · rw [if_neg hh]
          obtain ⟨ext, h1, h2, h3⟩ := ih { pull Site.header s with emptycount := 0 } h0
          refine ⟨(Site.header, some (tokenOf (pull Site.header s))) :: ext, ?_, by simp, ?_⟩
          · rw [h1]
            show (pull Site.header s).pulled ++ ext = _
            rw [hp1]; simp
          · rcases h3 with ⟨a, ⟨pre, b⟩, c, d⟩ | ⟨a, b, c, d⟩
            · exact Or.inl ⟨a, ⟨(Site.header, some (tokenOf (pull Site.header s))) :: pre,
                by rw [b]; rfl⟩, c, d⟩
            · refine Or.inr ⟨a, ?_, c, d⟩
              rw [hostErrIn_cons _ _ (by simpa using hh)]
              exact b
    · rw [headerLoop_done env _ s h]
      exact ⟨[], by simp, by simp, Or.inr ⟨h0, rfl, rfl, rfl⟩⟩

theorem headerLoop_frame (env : Env) (fuel : Nat) :
    ∀ s : State,
      (headerLoop env fuel s).entity = s.entity
      ∧ (headerLoop env fuel s).methodtype = s.methodtype
      ∧ (headerLoop env fuel s).fs = s.fs
      ∧ (headerLoop env fuel s).segv = s.segv
      ∧ (headerLoop env fuel s).filebuff = s.filebuff
      ∧ (headerLoop env fuel s).overrun = s.overrun
      ∧ (headerLoop env fuel s).httpver = s.httpver := by
  induction fuel with
  | zero =>
    intro s
    by_cases h : 2 > s.emptycount
    · rw [headerLoop_zero env s h]; simp
    · rw [headerLoop_done env 0 s h]; simp
  | succ k ih =>
    intro s
    by_cases h : 2 > s.emptycount
    · rw [headerLoop_step env k s h]
      split
      · exact ih _
      · split
        · split
          · exact ⟨rfl, rfl, rfl, rfl, rfl, rfl, rfl⟩
          · exact ih _
        · exact ih _
    · rw [headerLoop_done env _ s h]; simp

/-- How the header stage ends. -/
theorem stageHeaders_cases (env : Env) (s : State) (h0 : s.herror = 0) (hs : s.segv = false) :
    ∃ ext : List Pull,
      (stageHeaders env s).pulled = s.pulled ++ ext
      ∧ (∀ e, ext.head? = some e → e.1 = Site.header)
      ∧ (((stageHeaders env s).herror = 400
            ∧ (∃ pre, ext = pre ++ [hostTok, emptyVal])
            ∧ (stageHeaders env s).out = s.out ++ line400
            ∧ (stageHeaders env s).closes = s.closes + 1)
          ∨ ((stageHeaders env s).herror = 0
            ∧ hostErrIn ext = false
            ∧ (stageHeaders env s).out = s.out
            ∧ (stageHeaders env s).closes = s.closes))
      ∧ (stageHeaders env s).entity = s.entity
      ∧ (stageHeaders env s).methodtype = s.methodtype
      ∧ (stageHeaders env s).fs = s.fs
      ∧ (stageHeaders env s).segv = s.segv
      ∧ (stageHeaders env s).filebuff = s.filebuff
      ∧ (stageHeaders env s).httpver = s.httpver := by
  unfold stageHeaders
  rw [if_pos ⟨h0, hs⟩]
  obtain ⟨ext, h1, h2, h3⟩ := headerLoop_trace env (headerFuel s) s h0
  have hf := headerLoop_frame env (headerFuel s) s
  exact ⟨ext, h1, h2, h3, hf.1, hf.2.1, hf.2.2.1, hf.2.2.2.1, hf.2.2.2.2.1, hf.2.2.2.2.2.2⟩

/-- How the version and header stages end. -/
theorem version_cases (env : Env) (s : State) (h0 : s.herror = 0) (hs : s.segv = false) :
    (∃ v : List Char, ¬ goodVersion v
        ∧ (stageHeaders env (stageVersion env s)).pulled = s.pulled ++ [(Site.version, some v)]
        ∧ (stageHeaders env (stageVersion env s)).herror = 400
        ∧ (stageHeaders env (stageVersion env s)).out = s.out ++ line400
        ∧ (stageHeaders env (stageVersion env s)).closes = s.closes + 1)
    ∨ (∃ (v : List Char) (ext : List Pull), goodVersion v
        ∧ (stageHeaders env (stageVersion env s)).pulled
            = s.pulled ++ (Site.version, some v) :: ext
        ∧ (∀ e, ext.head? = some e → e.1 = Site.header)
        ∧ (((stageHeaders env (stageVersion env s)).herror = 400
              ∧ (∃ pre, ext = pre ++ [hostTok, emptyVal])
              ∧ (stageHeaders env (stageVersion env s)).out = s.out ++ line400
              ∧ (stageHeaders env (stageVersion env s)).closes = s.closes + 1)
            ∨ ((stageHeaders env (stageVersion env s)).herror = 0
              ∧ hostErrIn ext = false
              ∧ (stageHeaders env (stageVersion env s)).out = s.out
              ∧ (stageHeaders env (stageVersion env s)).closes = s.closes))
        ∧ (stageHeaders env (stageVersion env s)).entity = s.entity
        ∧ (stageHeaders env (stageVersion env s)).methodtype = s.methodtype
        ∧ (stageHeaders env (stageVersion env s)).fs = s.fs
        ∧ (stageHeaders env (stageVersion env s)).segv = s.segv
        ∧ (stageHeaders env (stageVersion env s)).filebuff = s.filebuff
        ∧ (stageHeaders env (stageVersion env s)).httpver
            = if v = "HTTP/1.1".toList then 11 else 10) := by
  have hpv := pull_pulled Site.version s
  have key : ∀ s3 : State, s3.herror = 0 → s3.segv = s.segv → s3.out = s.out →
      s3.closes = s.closes → s3.entity = s.entity → s3.methodtype = s.methodtype →
      s3.fs = s.fs → s3.filebuff = s.filebuff →
      s3.pulled = s.pulled ++ [(Site.version, some (tokenOf (pull Site.version s)))] →
      goodVersion (tokenOf (pull Site.version s)) →
      s3.httpver = (if tokenOf (pull Site.version s) = "HTTP/1.1".toList then 11 else 10) →
      ∃ (v : List Char) (ext : List Pull), goodVersion v
        ∧ (stageHeaders env s3).pulled = s.pulled ++ (Site.version, some v) :: ext
        ∧ (∀ e, ext.head? = some e → e.1 = Site.header)
        ∧ (((stageHeaders env s3).herror = 400
              ∧ (∃ pre, ext = pre ++ [hostTok, emptyVal])
              ∧ (stageHeaders env s3).out = s.out ++ line400
              ∧ (stageHeaders env s3).closes = s.closes + 1)
            ∨ ((stageHeaders env s3).herror = 0
              ∧ hostErrIn ext = false
              ∧ (stageHeaders env s3).out = s.out
              ∧ (stageHeaders env s3).closes = s.closes))
        ∧ (stageHeaders env s3).entity = s.entity
        ∧ (stageHeaders env s3).methodtype = s.methodtype
        ∧ (stageHeaders env s3).fs = s.fs
        ∧ (stageHeaders env s3).segv = s.segv
        ∧ (stageHeaders env s3).filebuff = s.filebuff
        ∧ (stageHeaders env s3).httpver = (if v = "HTTP/1.1".toList then 11 else 10) := by
    intro s3 a0 a1 a2 a3 a4 a5 a6 a7 a8 hg a9
    obtain ⟨ext, h1, h2, h3, h4, h5, h6, h7, h8, h9⟩ :=
      stageHeaders_cases env s3 a0 (by rw [a1]; exact hs)
    refine ⟨_, ext, hg, ?_, h2, ?_, by rw [h4, a4], by rw [h5, a5], by rw [h6, a6],
      by rw [h7, a1], by rw [h8, a7], by rw [h9, a9]⟩
    · rw [h1, a8]; simp
    · rw [a2, a3] at h3; exact h3
  rw [stageVersion_eq env s h0 hs]
  by_cases hv1 : tokenOf (pull Site.version s) = []
  · rw [if_pos hv1]
    right
    exact key _ h0 rfl rfl rfl rfl rfl rfl rfl hpv (Or.inl hv1) (by rw [hv1]; rfl)
  · rw [if_neg hv1]
    by_cases hv2 : tokenOf (pull Site.version s) = "HTTP/1.0".toList
    · rw [if_pos hv2]
      right
      exact key _ h0 rfl rfl rfl rfl rfl rfl rfl hpv (Or.inr (Or.inl hv2)) (by rw [hv2]; rfl)
    · rw [if_neg hv2]
      by_cases hv3 : tokenOf (pull Site.version s) = "HTTP/1.1".toList
      · rw [if_pos hv3]
        right
        exact key _ h0 rfl rfl rfl rfl rfl rfl rfl hpv (Or.inr (Or.inr hv3))
          (by rw [if_pos hv3])
      · rw [if_neg hv3]
        left
        have hne : (reporterror env { pull Site.version s with herror := 400 } 400).herror
            ≠ 0 := by
          show (400 : Int) ≠ 0
          decide
        rw [stageHeaders_skip env _ hne]
        refine ⟨tokenOf (pull Site.version s), ?_, hpv, rfl, rfl, rfl⟩
        rintro (h | h | h)
        · exact hv1 h
        · exact hv2 h
        · exact hv3 h

/-- The four ways the target, version and header stages can end. -/
theorem parse_tail_cases (env : Env) (s : State) (h0 : s.herror = 0) (hs : s.segv = false) :
    ((stageHeaders env (stageVersion env (stageEntity env s))).pulled
          = s.pulled ++ [(Site.target, some [])]
        ∧ (stageHeaders env (stageVersion env (stageEntity env s))).herror = 400
        ∧ (stageHeaders env (stageVersion env (stageEntity env s))).out = s.out ++ line400
        ∧ (stageHeaders env (stageVersion env (stageEntity env s))).closes = s.closes + 1)
    ∨ (∃ t v : List Char, t ≠ [] ∧ ¬ goodVersion v
        ∧ (stageHeaders env (stageVersion env (stageEntity env s))).pulled
          = s.pulled ++ [(Site.target, some t), (Site.version, some v)]
        ∧ (stageHeaders env (stageVersion env (stageEntity env s))).herror = 400
        ∧ (stageHeaders env (stageVersion env (stageEntity env s))).out = s.out ++ line400
        ∧ (stageHeaders env (stageVersion env (stageEntity env s))).closes = s.closes + 1)
    ∨ (∃ (t v : List Char) (pre : List Pull), t ≠ [] ∧ goodVersion v
        ∧ (stageHeaders env (stageVersion env (stageEntity env s))).pulled
          = s.pulled ++ (Site.target, some t) :: (Site.version, some v)
              :: (pre ++ [hostTok, emptyVal])
        ∧ (stageHeaders env (stageVersion env (stageEntity env s))).httpver
            = (if v = "HTTP/1.1".toList then 11 else 10)
        ∧ (stageHeaders env (stageVersion env (stageEntity env s))).herror = 400
        ∧ (stageHeaders env (stageVersion env (stageEntity env s))).out = s.out ++ line400
        ∧ (stageHeaders env (stageVersion env (stageEntity env s))).closes = s.closes + 1)
    ∨ (∃ (t v : List Char) (ext : List Pull), t ≠ [] ∧ goodVersion v
        ∧ (stageHeaders env (stageVersion env (stageEntity env s))).pulled
          = s.pulled ++ (Site.target, some t) :: (Site.version, some v) :: ext
        ∧ hostErrIn ext = false
        ∧ (∀ e, ext.head? = some e → e.1 = Site.header)
        ∧ (stageHeaders env (stageVersion env (stageEntity env s))).herror = 0
        ∧ (stageHeaders env (stageVersion env (stageEntity env s))).out = s.out
        ∧ (stageHeaders env (stageVersion env (stageEntity env s))).closes = s.closes
        ∧ (stageHeaders env (stageVersion env (stageEntity env s))).entity = t
        ∧ (stageHeaders env (stageVersion env (stageEntity env s))).methodtype = s.methodtype
        ∧ (stageHeaders env (stageVersion env (stageEntity env s))).fs = s.fs
        ∧ (stageHeaders env (stageVersion env (stageEntity env s))).segv = false
        ∧ (stageHeaders env (stageVersion env (stageEntity env s))).filebuff = s.filebuff
        ∧ (stageHeaders env (stageVersion env (stageEntity env s))).httpver
            = (if v = "HTTP/1.1".toList then 11 else 10)) := by
  have hpt := pull_pulled Site.target { s with entity := [] }
  rw [stageEntity_eq env s h0 hs]
  by_cases ht : tokenOf (pull Site.target { s with entity := [] }) = []
  · -- empty target
    rw [if_neg (by simpa using ht)]
    left
    have hne : ({ reporterror env { pull Site.target { s with entity := [] } with herror := 400 }
        400 with emptycount := 0 } : State).herror ≠ 0 := by
      show (400 : Int) ≠ 0
      decide
    rw [stageVersion_skip env _ hne, stageHeaders_skip env _ hne]
    refine ⟨?_, rfl, rfl, rfl⟩
    show (pull Site.target { s with entity := [] }).pulled = _
    rw [hpt, ht]
  · rw [if_pos (by simpa using ht)]
    right
    have hpt2 : ({ pull Site.target { s with entity := [] } with
          entity := tokenOf (pull Site.target { s with entity := [] }),
          emptycount := 0 } : State).pulled
        = s.pulled ++ [(Site.target, some (tokenOf (pull Site.target { s with entity := [] })))] :=
      hpt
    rcases version_cases env
        { pull Site.target { s with entity := [] } with
          entity := tokenOf (pull Site.target { s with entity := [] }), emptycount := 0 }
        h0 hs with
      ⟨v, hb, h1, h2, h3, h4⟩ | ⟨v, ext, hg, h1, h2, h3, h4, h5, h6, h7, h8, h9⟩
    · left
      refine ⟨_, v, ht, hb, ?_, h2, h3, h4⟩
      rw [h1, hpt2]; simp
    · right
      rcases h3 with ⟨a, ⟨pre, b⟩, c, d⟩ | ⟨a, b, c, d⟩
      · left
        refine ⟨_, v, pre, ht, hg, ?_, h9, a, c, d⟩
        rw [h1, hpt2, b]; simp
      · right
        refine ⟨_, v, ext, ht, hg, ?_, b, h2, a, c, d, h4, h5, h6, ?_, h8, h9⟩
        · rw [h1, hpt2]; simp
        · rw [h7]; exact hs

theorem getLoop_httpver (n : Nat) (fuel : Nat) :
    ∀ (isize : Nat) (file : List Char) (s : State),
      (getLoop n fuel isize file s).httpver = s.httpver := by
  induction fuel with
  | zero =>
    intro isize file s
    unfold getLoop
    split <;> simp
  | succ k ih =>
    intro isize file s
    unfold getLoop
    split
    · simp only []
      exact ih _ _ _
    · simp

theorem postLoop_httpver (path : List Char) (fuel : Nat) :
    ∀ (s : State), (postLoop path fuel s).httpver = s.httpver := by
  induction fuel with
  | zero =>
    intro s
    unfold postLoop
    simp
  | succ k ih =>
    intro s
    unfold postLoop
    simp only []
    split
    · exact ih _
    · simp

theorem transfer_get (filestat : FileNode) (s : State) (h : s.methodtype = htcommand.GET) :
    transfer filestat s
      = getLoop filestat.content.length filestat.content.length 0 filestat.content
          { s with filebuff := bzero s.filebuff 0 svcbuffersize } := by
  have hp : ¬ (getLoop filestat.content.length filestat.content.length 0 filestat.content
      { s with filebuff := bzero s.filebuff 0 svcbuffersize }).methodtype = htcommand.POST := by
    rw [(getLoop_frame _ _ _ _ _).2.2.2.1]
    simp [h]
  unfold transfer
  simp only []
  rw [if_pos h, if_neg hp]

theorem transfer_post (filestat : FileNode) (s : State) (h : s.methodtype = htcommand.POST) :
    transfer filestat s = postLoop s.entity (scriptSize s.sock + 1) s := by
  have hg : ¬ s.methodtype = htcommand.GET := by simp [h]
  unfold transfer
  simp only []
  rw [if_neg hg, if_pos h]

theorem transfer_other (filestat : FileNode) (s : State) (hg : s.methodtype ≠ htcommand.GET)
    (hp : s.methodtype ≠ htcommand.POST) : transfer filestat s = s := by
  unfold transfer
  simp only []
  rw [if_neg hg, if_neg hp]

theorem transfer_httpver (filestat : FileNode) (s : State) :
    (transfer filestat s).httpver = s.httpver := by
  by_cases hg : s.methodtype = htcommand.GET
  · rw [transfer_get filestat s hg, getLoop_httpver]
  · by_cases hp : s.methodtype = htcommand.POST
    · rw [transfer_post filestat s hp, postLoop_httpver]
    · rw [transfer_other filestat s hg hp]

theorem respond_frame (env : Env) (s : State) :
    (respond env s).pulled = s.pulled ∧ (respond env s).httpver = s.httpver
    ∧ (respond env s).methodtype = s.methodtype ∧ (respond env s).segv = s.segv := by
  unfold respond
  split
  · simp only []
    split
    · exact ⟨rfl, rfl, rfl, rfl⟩
    · have h := transfer_frame ‹FileNode› (sendHeaders env ‹FileNode› { s with entity := '.' :: s.entity })
      rw [h.2.2.1, h.2.2.2.1, h.2.2.2.2.2, transfer_httpver, sendHeaders_eq]
      exact ⟨rfl, rfl, rfl, rfl⟩
  · exact ⟨rfl, rfl, rfl, rfl⟩

theorem finish_frame (s : State) :
    (finish s).pulled = s.pulled ∧ (finish s).httpver = s.httpver ∧ (finish s).out = s.out
    ∧ (finish s).methodtype = s.methodtype ∧ (finish s).fs = s.fs
    ∧ (finish s).entity = s.entity := by
  unfold finish
  split <;> exact ⟨rfl, rfl, rfl, rfl, rfl, rfl⟩

/-- The state the method stage leaves when it raises no error. -/
theorem method_ok_state (env : Env) (sock : Script) (fs : Files)
    (hm : (stageMethod env (prime (initState sock fs))).herror = 0) :
    ∃ m : List Char,
      ((m = "GET".toList
          ∧ (stageMethod env (prime (initState sock fs))).methodtype = htcommand.GET)
        ∨ (m = "HEAD".toList
          ∧ (stageMethod env (prime (initState sock fs))).methodtype = htcommand.HEAD)
        ∨ (m = "POST".toList
          ∧ (stageMethod env (prime (initState sock fs))).methodtype = htcommand.POST))
      ∧ (stageMethod env (prime (initState sock fs))).pulled = [(Site.method, some m)]
      ∧ (stageMethod env (prime (initState sock fs))).out = []
      ∧ (stageMethod env (prime (initState sock fs))).closes = 0
      ∧ (stageMethod env (prime (initState sock fs))).segv = false
      ∧ (stageMethod env (prime (initState sock fs))).fs = fs
      ∧ (stageMethod env (prime (initState sock fs))).hung = false := by
  have hfr := prime_frame (initState sock fs)
  have hseg : (prime (initState sock fs)).segv = false := hfr.1
  have hpul : (prime (initState sock fs)).pulled = [] := hfr.2.1
  have hout : (prime (initState sock fs)).out = [] := hfr.2.2.1
  have hfs : (prime (initState sock fs)).fs = fs := hfr.2.2.2.1
  have hhu : (prime (initState sock fs)).hung = false := hfr.2.2.2.2
  by_cases hr : readLen (readFd sock (svcbuffersize - 1)).1 = 0
  · have h1 := prime_eof sock fs hr
    have hne : (prime (initState sock fs)).herror ≠ 0 := by rw [h1.1]; decide
    have e : stageMethod env (prime (initState sock fs)) = prime (initState sock fs) := by
      unfold stageMethod
      rw [if_neg (fun hh => hne hh.1)]
    rw [e] at hm
    exact absurd hm hne
  · have h1 := prime_ok sock fs hr
    have hpp := pull_pulled Site.method (prime (initState sock fs))
    rw [hpul, List.nil_append] at hpp
    refine ⟨tokenOf (pull Site.method (prime (initState sock fs))), ?_⟩
    rw [stageMethod_eq env _ h1.1 hseg] at hm ⊢
    by_cases hG : tokenOf (pull Site.method (prime (initState sock fs))) = "GET".toList
    · rw [if_pos hG]
      exact ⟨Or.inl ⟨hG, rfl⟩, hpp, hout, h1.2, hseg, hfs, hhu⟩
    · rw [if_neg hG] at hm ⊢
      by_cases hH : tokenOf (pull Site.method (prime (initState sock fs))) = "HEAD".toList
      · rw [if_pos hH]
        exact ⟨Or.inr (Or.inl ⟨hH, rfl⟩), hpp, hout, h1.2, hseg, hfs, hhu⟩
      · rw [if_neg hH] at hm ⊢
        by_cases hP : tokenOf (pull Site.method (prime (initState sock fs))) = "POST".toList
        · rw [if_pos hP]
          exact ⟨Or.inr (Or.inr ⟨hP, rfl⟩), hpp, hout, h1.2, hseg, hfs, hhu⟩
        · rw [if_neg hP] at hm
          exact absurd hm (by show (405 : Int) ≠ 0; decide)

theorem writeAt_zero_take (buf chunk : List Char) (h : chunk.length ≤ buf.length) :
    (writeAt buf 0 chunk).take chunk.length = chunk := by
  simp [writeAt, List.take_of_length_le h]

/-- The GET loop sends the whole file and ends, when `st_size` is the length
of what is left to send plus what has been sent. -/
theorem getLoop_complete (n : Nat) (fuel : Nat) :
    ∀ (isize : Nat) (file : List Char) (s : State),
      s.filebuff.length = svcbuffersize → isize + file.length = n → file.length ≤ fuel →
      (getLoop n fuel isize file s).out = s.out ++ file
      ∧ (getLoop n fuel isize file s).hung = s.hung := by
  induction fuel with
  | zero =>
    intro isize file s _ hn hf
    have hnil : file = [] := List.length_eq_zero.1 (by omega)
    subst hnil
    unfold getLoop
    rw [if_neg (by simp at hn; omega)]
    simp
  | succ k ih =>
    intro isize file s hb hn hf
    unfold getLoop
    by_cases hlt : isize < n
    · rw [if_pos hlt]
      simp only []
      have e255 : svcbuffersize - 1 = 255 := rfl
      have e256 : svcbuffersize = 256 := rfl
      have hc : (file.take (svcbuffersize - 1)).length ≤ s.filebuff.length := by
        rw [hb, List.length_take, e255, e256]; omega
      have hpos : 0 < file.length := by omega
      have hd : (file.drop (svcbuffersize - 1)).length ≤ k := by
        rw [List.length_drop, e255]; omega
      have hn2 : isize + (file.take (svcbuffersize - 1)).length
          + (file.drop (svcbuffersize - 1)).length = n := by
        rw [List.length_take, List.length_drop, e255]; omega
      have := ih (isize + (file.take (svcbuffersize - 1)).length)
        (file.drop (svcbuffersize - 1))
        { s with
          filebuff := writeAt s.filebuff 0 (file.take (svcbuffersize - 1)),
          out := s.out ++ (writeAt s.filebuff 0 (file.take (svcbuffersize - 1))).take
            (file.take (svcbuffersize - 1)).length }
        (by simp [writeAt_length, hb]) hn2 hd
      rw [this.1, this.2]
      refine ⟨?_, rfl⟩
      show (s.out ++ _) ++ _ = _
      rw [writeAt_zero_take _ _ hc, List.append_assoc, List.take_append_drop]
    · rw [if_neg hlt]
      have hnil : file = [] := List.length_eq_zero.1 (by omega)
      subst hnil
      simp

theorem getLoop_out (n : Nat) (fuel : Nat) :
    ∀ (isize : Nat) (file : List Char) (s : State),
      ∃ body, (getLoop n fuel isize file s).out = s.out ++ body := by
  induction fuel with
  | zero =>
    intro isize file s
    refine ⟨[], ?_⟩
    unfold getLoop
    split <;> simp
  | succ k ih =>
    intro isize file s
    unfold getLoop
    split
    · simp only []
      obtain ⟨b, hb⟩ := ih (isize + (file.take (svcbuffersize - 1)).length)
        (file.drop (svcbuffersize - 1))
        { s with
          filebuff := writeAt s.filebuff 0 (file.take (svcbuffersize - 1)),
          out := s.out ++ (writeAt s.filebuff 0 (file.take (svcbuffersize - 1))).take
            (file.take (svcbuffersize - 1)).length }
      exact ⟨_, by rw [hb]; exact List.append_assoc _ _ _⟩
    · exact ⟨[], by simp⟩

theorem transfer_out (filestat : FileNode) (s : State) :
    ∃ body, (transfer filestat s).out = s.out ++ body := by
  by_cases hg : s.methodtype = htcommand.GET
  · rw [transfer_get filestat s hg]
    exact getLoop_out _ _ _ _ _
  · by_cases hp : s.methodtype = htcommand.POST
    · rw [transfer_post filestat s hp, (postLoop_frame _ _ _).2.2.2.2.2.2]
      exact ⟨[], by simp⟩
    · rw [transfer_other filestat s hg hp]
      exact ⟨[], by simp⟩

theorem respond_found (env : Env) (s : State) (filestat : FileNode)
    (h0 : s.herror = 0) (hs : s.segv = false) (hh : s.hung = false)
    (hl : s.fs.lookup ('.' :: s.entity) = some filestat) :
    respond env s
      = transfer filestat
          { s with
            entity := '.' :: s.entity,
            out := s.out ++ headerBytes env filestat s.methodtype ('.' :: s.entity) } := by
  unfold respond
  rw [if_pos ⟨h0, hs, hh⟩]
  simp only [hl, sendHeaders_eq]

theorem respond_missing (env : Env) (s : State)
    (h0 : s.herror = 0) (hs : s.segv = false) (hh : s.hung = false)
    (hl : s.fs.lookup ('.' :: s.entity) = none) :
    respond env s
      = reporterror env { s with entity := '.' :: s.entity, herror := 404 } 404 := by
  unfold respond
  rw [if_pos ⟨h0, hs, hh⟩]
  simp only [hl]

theorem findDelim_none_inv (delim : List Char) :
    ∀ l : List Char, findDelim delim l = none → NUL ∈ l →
      ∃ p z, l = p ++ NUL :: z ∧ Clean delim p := by
  intro l
  induction l with
  | nil => intro _ h; simp at h
  | cons c cs ih =>
    intro hf hn
    by_cases hc : c = NUL
    · exact ⟨[], cs, by rw [hc]; rfl, fun x hx => by simp at hx⟩
    · by_cases hd : c ∈ delim
      · simp [findDelim, hc, hd] at hf
      · have hf2 : findDelim delim cs = none := by
          simpa [findDelim, hc, hd] using hf
        have hn2 : NUL ∈ cs := by
          rcases List.mem_cons.1 hn with h | h
          · exact absurd h.symm hc
          · exact h
        obtain ⟨p, z, h1, h2⟩ := ih hf2 hn2
        refine ⟨c :: p, z, by rw [h1]; rfl, ?_⟩
        intro x hx
        rcases List.mem_cons.1 hx with h | h
        · rw [h]; exact ⟨hc, hd⟩
        · exact h2 x h

theorem findDelim_some_inv (delim : List Char) :
    ∀ (l : List Char) (k : Nat), findDelim delim l = some k →
      ∃ tok d rest, l = tok ++ d :: rest ∧ Clean delim tok ∧ d ∈ delim ∧ d ≠ NUL
        ∧ k = tok.length := by
  intro l
  induction l with
  | nil => intro k h; simp [findDelim] at h
  | cons c cs ih =>
    intro k hf
    by_cases hc : c = NUL
    · simp [findDelim, hc] at hf
    · by_cases hd : c ∈ delim
      · have : k = 0 := by simpa [findDelim, hc, hd] using hf.symm
        exact ⟨[], c, cs, rfl, fun x hx => by simp at hx, hd, hc, by rw [this]; rfl⟩
      · have hf2 : ∃ k2, findDelim delim cs = some k2 ∧ k2 + 1 = k := by
          simpa [findDelim, hc, hd] using hf
        obtain ⟨k2, h1, h2⟩ := hf2
        obtain ⟨tok, d, rest, e1, e2, e3, e4, e5⟩ := ih k2 h1
        refine ⟨c :: tok, d, rest, by rw [e1]; rfl, ?_, e3, e4, by rw [← h2, e5]; rfl⟩
        intro x hx
        rcases List.mem_cons.1 hx with h | h
        · rw [h]; exact ⟨hc, hd⟩
        · exact e2 x h

theorem scriptSize_cons (r : Option (List Char)) (fd : Script) :
    scriptSize (r :: fd) = (readData r).length + 1 + scriptSize fd := by
  simp [scriptSize]

theorem readFd_size_le (fd : Script) (n : Nat) : scriptSize (readFd fd n).2 ≤ scriptSize fd := by
  unfold readFd
  split
  · exact Nat.le_refl _
  · split
    · exact Nat.le_refl _
    · simp only [scriptSize_cons]; omega
    · split
      · simp only [scriptSize_cons]; omega
      · rw [scriptSize_cons, scriptSize_cons]
        simp [readData]

theorem readFd_size_lt (fd : Script) (n : Nat) (hn : n ≠ 0) (hf : fd ≠ []) :
    scriptSize (readFd fd n).2 < scriptSize fd := by
  unfold readFd
  rw [if_neg hn]
  split
  · exact absurd rfl hf
  · simp only [scriptSize_cons]; omega
  · split
    · simp only [scriptSize_cons]; omega
    · rw [scriptSize_cons, scriptSize_cons]
      simp [readData]
      omega

theorem readFd_idle (fd : Script) (n : Nat) (h : n = 0 ∨ fd = []) :
    readFd fd n = (some [], fd) := by
  unfold readFd
  rcases h with h | h
  · rw [if_pos h]
  · subst h
    split <;> rfl

theorem set_ends_nul (b : List Char) (k : Nat) :
    ∃ b2, (b ++ [NUL]).set k NUL = b2 ++ [NUL] := by
  by_cases h : k < b.length
  · exact ⟨b.set k NUL, by rw [List.set_append_left _ _ h]⟩
  · refine ⟨b, ?_⟩
    rw [List.set_append_right _ _ (by omega)]
    cases hk : k - b.length with
    | zero => rfl
    | succ m => rfl

theorem mem_drop_of_ends_nul (b : List Char) (i : Nat) (h : i < (b ++ [NUL]).length) :
    NUL ∈ (b ++ [NUL]).drop i := by
  have hi : i ≤ b.length := by simp at h; omega
  rw [List.drop_append_of_le_length hi]
  simp

theorem strsep_ok (delim buf : List Char) (n i : Nat) (h : BufOK n buf (some i)) :
    BufOK n (strsep buf (some i) delim).buf (strsep buf (some i) delim).stringp
    ∧ (strsep buf (some i) delim).tok = some i
    ∧ (∀ j, (strsep buf (some i) delim).stringp = some j → i < j) := by
  obtain ⟨hl, ⟨b, hb⟩, hc⟩ := h
  have hi := hc i rfl
  unfold strsep
  simp only []
  cases hf : findDelim delim (buf.drop i) with
  | none =>
    simp only []
    exact ⟨⟨hl, ⟨b, hb⟩, fun j hj => by cases hj⟩, trivial, fun j hj => by cases hj⟩
  | some k =>
    simp only []
    obtain ⟨tok, d, rest, e1, e2, e3, e4, e5⟩ := findDelim_some_inv delim _ k hf
    have hlen : i + (tok.length + (rest.length + 1)) = buf.length := by
      have := congrArg List.length e1
      simp at this
      omega
    have hrest : rest ≠ [] := by
      intro hr
      subst hr
      have h1 : buf.drop i = (b ++ [NUL]).drop i := by rw [hb]
      have hib : i ≤ b.length := by
        have := congrArg List.length hb
        simp at this
        omega
      rw [List.drop_append_of_le_length hib, e1] at h1
      have h2 := congrArg List.getLast? h1
      simp at h2
      exact e4 h2
    have hrl : 0 < rest.length := List.length_pos.2 hrest
    refine ⟨⟨by simp [hl], ?_, ?_⟩, trivial, ?_⟩
    · rw [hb]; exact set_ends_nul b _
    · intro j hj
      simp at hj
      omega
    · intro j hj
      simp at hj
      omega

theorem refilled_ok (n : Nat) (p data : List Char) (h : p.length + data.length ≤ n - 1)
    (hn : 1 ≤ n) : BufOK n (refilled n p data) (some 0) := by
  refine ⟨?_, ?_, ?_⟩
  · simp [refilled]; omega
  · obtain ⟨m, hm⟩ : ∃ m, n - p.length - data.length = m + 1 := ⟨n - p.length - data.length - 1, by omega⟩
    refine ⟨p ++ data ++ List.replicate m NUL, ?_⟩
    rw [refilled, hm, List.replicate_succ', ← List.append_assoc]
  · intro i hi
    cases hi
    omega

theorem cstrAt_zeros (n : Nat) : cstrAt (List.replicate n NUL) 0 = [] := by
  cases n with
  | zero => rfl
  | succ m => simp [cstrAt, List.replicate_succ]

theorem measure_consumed (n s s2 : Nat) (cur cur2 : Option Nat) (h : s2 < s)
    (hc : ∀ j, cur2 = some j → 0 < j) :
    s2 * (n + 2) + cursorRoom n cur2 < s * (n + 2) + cursorRoom n cur := by
  have h1 : (s2 + 1) * (n + 2) ≤ s * (n + 2) := Nat.mul_le_mul_right _ h
  rw [Nat.add_mul, Nat.one_mul] at h1
  have h2 : cursorRoom n cur2 ≤ n + 1 := by
    cases cur2 with
    | none => simp [cursorRoom]
    | some j => simp [cursorRoom]
  omega

/-- What one `filesep` call does to a well-formed array: the array stays well
formed, the measure does not grow, and it shrinks whenever the token
returned is not empty. -/
theorem filesep_step (fd : Script) (delim buf : List Char) (n : Nat) (cur : Option Nat)
    (h : BufOK n buf cur) :
    BufOK n (filesep fd buf n cur delim).buffer (filesep fd buf n cur delim).bufferleft
    ∧ readerMeasure n (filesep fd buf n cur delim).filedesc
          (filesep fd buf n cur delim).bufferleft
        ≤ readerMeasure n fd cur
    ∧ (∀ i, (filesep fd buf n cur delim).field = some i →
        cstrAt (filesep fd buf n cur delim).buffer i ≠ [] →
        readerMeasure n (filesep fd buf n cur delim).filedesc
            (filesep fd buf n cur delim).bufferleft
          < readerMeasure n fd cur) := by
  obtain ⟨hl, ⟨b, hb⟩, hc⟩ := h
  have hn : 1 ≤ n := by
    have := congrArg List.length hb
    simp at this
    omega
  subst hl
  -- what a refill leaves, for any pending text `p`
  have refill : ∀ (p : List Char) (len : Nat), p.length ≤ buf.length - 1 →
      len = buf.length - 1 - p.length → Clean delim p →
      BufOK buf.length
        (strsep (refilled buf.length p (readData (readFd fd len).1)) (some 0) delim).buf
        (strsep (refilled buf.length p (readData (readFd fd len).1)) (some 0) delim).stringp
      ∧ (strsep (refilled buf.length p (readData (readFd fd len).1)) (some 0) delim).tok
          = some 0
      ∧ (∀ j, (strsep (refilled buf.length p (readData (readFd fd len).1))
            (some 0) delim).stringp = some j → 0 < j)
      ∧ ((len = 0 ∨ fd = []) →
          (strsep (refilled buf.length p (readData (readFd fd len).1)) (some 0) delim).stringp
            = none
          ∧ cstrAt (strsep (refilled buf.length p (readData (readFd fd len).1))
              (some 0) delim).buf 0 = p) := by
    intro p len hp hlen hcp
    have hr := readFd_length fd len
    have hok := refilled_ok buf.length p (readData (readFd fd len).1) (by omega) hn
    have := strsep_ok delim _ _ 0 hok
    refine ⟨this.1, this.2.1, this.2.2, ?_⟩
    intro hidle
    rw [readFd_idle fd len hidle]
    have hz : refilled buf.length p (readData (some [], fd).1)
        = p ++ NUL :: List.replicate (buf.length - p.length - 1) NUL := by
      obtain ⟨m, hm⟩ : ∃ m, buf.length - p.length = m + 1 :=
        ⟨buf.length - p.length - 1, by omega⟩
      simp [refilled, readData, hm, List.replicate_succ]
    rw [hz, strsep_miss delim _ 0 p (List.replicate (buf.length - p.length - 1) NUL) rfl hcp]
    exact ⟨rfl, cstrAt_of_drop delim _ 0 p (List.replicate (buf.length - p.length - 1) NUL)
      hcp rfl⟩
  cases cur with
  | none =>
    rw [filesep_null]
    obtain ⟨r1, r2, r3, r4⟩ := refill [] (buf.length - 1) (by simp) (by simp)
      (fun x hx => by simp at hx)
    simp only [readerMeasure]
    by_cases hidle : buf.length - 1 = 0 ∨ fd = []
    · obtain ⟨i1, i2⟩ := r4 hidle
      refine ⟨r1, ?_, ?_⟩
      · rw [i1, readFd_idle fd _ hidle]
      · intro i hi hne
        rw [r2] at hi
        cases hi
        exact absurd i2 hne
    · have hlt := readFd_size_lt fd (buf.length - 1) (fun h => hidle (Or.inl h))
        (fun h => hidle (Or.inr h))
      have := measure_consumed buf.length _ _ none _ hlt r3
      exact ⟨r1, Nat.le_of_lt this, fun _ _ _ => this⟩
  | some i =>
    have hi := hc i rfl
    cases hf : findDelim delim (buf.drop i) with
    | some k =>
      obtain ⟨tok, d, rest, e1, e2, e3, e4, e5⟩ := findDelim_some_inv delim _ k hf
      have hs := strsep_ok delim buf buf.length i ⟨rfl, ⟨b, hb⟩, hc⟩
      rw [strsep_hit delim buf i tok d rest e1 e2 e3 e4] at hs
      rw [filesep_hit fd delim buf buf.length i tok d rest e1 e2 e3 e4]
      have hj := hs.2.2 _ rfl
      have hj2 := hs.1.2.2 _ rfl
      have hm : readerMeasure buf.length fd (some (i + tok.length + 1))
          < readerMeasure buf.length fd (some i) := by
        simp only [readerMeasure, cursorRoom]
        omega
      exact ⟨hs.1, Nat.le_of_lt hm, fun _ _ _ => hm⟩
    | none =>
      have hmem : NUL ∈ buf.drop i := by
        rw [hb]
        exact mem_drop_of_ends_nul b i (by rw [← hb]; exact hi)
      obtain ⟨p, z, e1, e2⟩ := findDelim_none_inv delim _ hf hmem
      have hlen : i + (p.length + (z.length + 1)) = buf.length := by
        have := congrArg List.length e1
        simp at this
        omega
      rw [filesep_pending fd delim buf i p z e1 e2]
      obtain ⟨r1, r2, r3, r4⟩ := refill p (buf.length - 1 - p.length) (by omega) rfl e2
      simp only [readerMeasure]
      by_cases hidle : buf.length - 1 - p.length = 0 ∨ fd = []
      · obtain ⟨i1, i2⟩ := r4 hidle
        have hm : scriptSize (readFd fd (buf.length - 1 - p.length)).2 * (buf.length + 2)
            + cursorRoom buf.length none
            < scriptSize fd * (buf.length + 2) + cursorRoom buf.length (some i) := by
          rw [readFd_idle fd _ hidle]
          simp only [cursorRoom]
          omega
        rw [i1]
        rw [i1] at r1
        exact ⟨r1, Nat.le_of_lt hm, fun _ _ _ => hm⟩
      · have hlt := readFd_size_lt fd (buf.length - 1 - p.length) (fun h => hidle (Or.inl h))
          (fun h => hidle (Or.inr h))
        have := measure_consumed buf.length _ _ (some i) _ hlt r3
        exact ⟨r1, Nat.le_of_lt this, fun _ _ _ => this⟩

theorem pull_step (site : Site) (s : State) (h : StateOK s) :
    StateOK (pull site s)
    ∧ stateMeasure (pull site s) ≤ stateMeasure s
    ∧ (tokenOf (pull site s) ≠ [] → stateMeasure (pull site s) < stateMeasure s) := by
  have hf := filesep_step s.sock delims s.buffer svcbuffersize s.bufferleft h
  obtain ⟨i, hi⟩ := pull_field_some site s
  refine ⟨hf.1, hf.2.1, ?_⟩
  intro hne
  refine hf.2.2 i hi ?_
  rw [tokenOf, hi] at hne
  exact hne

theorem cursorRoom_le (n : Nat) (cur : Option Nat) : cursorRoom n cur ≤ n + 1 := by
  cases cur with
  | none => simp [cursorRoom]
  | some j => simp [cursorRoom]

/-- With fuel above three times the measure the header loop ends by itself,
and it leaves the buffer well formed. -/
theorem headerLoop_ends (env : Env) (fuel : Nat) :
    ∀ s : State, StateOK s → s.hung = false →
      3 * stateMeasure s + (2 - s.emptycount) ≤ fuel →
      (headerLoop env fuel s).hung = false ∧ StateOK (headerLoop env fuel s) := by
  induction fuel with
  | zero =>
    intro s hok hh hm
    have : ¬ 2 > s.emptycount := by omega
    rw [headerLoop_done env 0 s this]
    exact ⟨hh, hok⟩
  | succ k ih =>
    intro s hok hh hm
    by_cases h : 2 > s.emptycount
    · rw [headerLoop_step env k s h]
      obtain ⟨p1, p2, p3⟩ := pull_step Site.header s hok
      by_cases he : tokenOf (pull Site.header s) = []
      · rw [if_pos he]
        refine ih _ p1 hh ?_
        show 3 * stateMeasure (pull Site.header s) + (2 - (s.emptycount + 1)) ≤ k
        omega
      · rw [if_neg he]
        have p4 := p3 he
        by_cases hq : tokenOf (pull Site.header s) = "Host:".toList
        · rw [if_pos hq]
          obtain ⟨q1, q2, -⟩ := pull_step Site.hostval
            { pull Site.header s with emptycount := 0 } p1
          have q3 : stateMeasure (pull Site.hostval { pull Site.header s with emptycount := 0 })
              ≤ stateMeasure (pull Site.header s) := q2
          split
          · exact ⟨hh, q1⟩
          · refine ih _ q1 hh ?_
            show 3 * stateMeasure (pull Site.hostval { pull Site.header s with emptycount := 0 })
              + (2 - 0) ≤ k
            omega
        · rw [if_neg hq]
          refine ih _ p1 hh ?_
          show 3 * stateMeasure (pull Site.header s) + (2 - 0) ≤ k
          omega
    · rw [headerLoop_done env _ s h]
      exact ⟨hh, hok⟩

theorem headerFuel_enough (s : State) (h : StateOK s) :
    3 * stateMeasure s + (2 - s.emptycount) ≤ headerFuel s := by
  have hl : s.buffer.length = 256 := h.1
  have hr : cursorRoom 256 s.bufferleft ≤ 256 + 1 := cursorRoom_le 256 s.bufferleft
  show 3 * (scriptSize s.sock * (256 + 2) + cursorRoom 256 s.bufferleft) + (2 - s.emptycount)
    ≤ 3 * (scriptSize s.sock * (s.buffer.length + 2) + s.buffer.length + 2)
  rw [hl]
  omega

theorem stageHeaders_ends (env : Env) (s : State) (hok : StateOK s) (hh : s.hung = false) :
    (stageHeaders env s).hung = false ∧ StateOK (stageHeaders env s) := by
  unfold stageHeaders
  split
  · exact headerLoop_ends env _ s hok hh (headerFuel_enough s hok)
  · exact ⟨hh, hok⟩

theorem prime_ok_state (sock : Script) (fs : Files) :
    StateOK (prime (initState sock fs)) ∧ (prime (initState sock fs)).hung = false := by
  have hr := readFd_length sock (svcbuffersize - 1)
  have hb : writeAt (List.replicate svcbuffersize NUL) 0
      (readData (readFd sock (svcbuffersize - 1)).1)
      = refilled svcbuffersize [] (readData (readFd sock (svcbuffersize - 1)).1) := by
    rw [writeAt_zero_replicate _ _ (by omega)]
    simp [refilled]
  have hok := refilled_ok svcbuffersize [] (readData (readFd sock (svcbuffersize - 1)).1)
    (by simpa using hr) (by decide)
  rw [← hb] at hok
  unfold prime
  simp only [initState]
  split
  · exact ⟨hok, rfl⟩
  · exact ⟨hok, rfl⟩

theorem stageMethod_ok (env : Env) (s : State) (hok : StateOK s) (hh : s.hung = false) :
    StateOK (stageMethod env s) ∧ (stageMethod env s).hung = false := by
  by_cases hg : s.herror = 0 ∧ s.segv = false
  · have hp := (pull_step Site.method s hok).1
    rw [stageMethod_eq env s hg.1 hg.2]
    split
    · exact ⟨hp, hh⟩
    · split
      · exact ⟨hp, hh⟩
      · split
        · exact ⟨hp, hh⟩
        · exact ⟨hp, hh⟩
  · unfold stageMethod
    rw [if_neg hg]
    exact ⟨hok, hh⟩

theorem stageEntity_ok (env : Env) (s : State) (hok : StateOK s) (hh : s.hung = false) :
    StateOK (stageEntity env s) ∧ (stageEntity env s).hung = false := by
  by_cases hg : s.herror = 0 ∧ s.segv = false
  · have hp := (pull_step Site.target { s with entity := [] } hok).1
    rw [stageEntity_eq env s hg.1 hg.2]
    split
    · exact ⟨hp, hh⟩
    · exact ⟨hp, hh⟩
  · unfold stageEntity
    rw [if_neg hg]
    exact ⟨hok, hh⟩

theorem stageVersion_ok (env : Env) (s : State) (hok : StateOK s) (hh : s.hung = false) :
    StateOK (stageVersion env s) ∧ (stageVersion env s).hung = false := by
  by_cases hg : s.herror = 0 ∧ s.segv = false
  · have hp := (pull_step Site.version s hok).1
    rw [stageVersion_eq env s hg.1 hg.2]
    split
    · exact ⟨hp, hh⟩
    · split
      · exact ⟨hp, hh⟩
      · split
        · exact ⟨hp, hh⟩
        · exact ⟨hp, hh⟩
  · unfold stageVersion
    rw [if_neg hg]
    exact ⟨hok, hh⟩

/-- The request parser always comes to an end, with a well-formed buffer. -/
theorem parseRequest_ends (env : Env) (sock : Script) (fs : Files) :
    (parseRequest env sock fs).hung = false ∧ StateOK (parseRequest env sock fs) := by
  obtain ⟨a1, a2⟩ := prime_ok_state sock fs
  obtain ⟨b1, b2⟩ := stageMethod_ok env _ a1 a2
  obtain ⟨c1, c2⟩ := stageEntity_ok env _ b1 b2
  obtain ⟨d1, d2⟩ := stageVersion_ok env _ c1 c2
  exact stageHeaders_ends env _ d1 d2

theorem parse_ok_method (env : Env) (sock : Script) (fs : Files)
    (h0 : (parseRequest env sock fs).herror = 0) :
    (stageMethod env (prime (initState sock fs))).herror = 0 := by
  by_contra hne
  have h1 : stageEntity env (stageMethod env (prime (initState sock fs)))
      = { stageMethod env (prime (initState sock fs)) with emptycount := 0 } :=
    stageEntity_skip env _ hne
  have h2 : ({ stageMethod env (prime (initState sock fs)) with emptycount := 0 } : State).herror
      ≠ 0 := hne
  unfold parseRequest at h0
  rw [h1, stageVersion_skip env _ h2, stageHeaders_skip env _ h2] at h0
  exact hne h0

theorem parse_filebuff (env : Env) (sock : Script) (fs : Files) :
    (parseRequest env sock fs).filebuff = List.replicate svcbuffersize NUL := by
  have h1 : (prime (initState sock fs)).filebuff = List.replicate svcbuffersize NUL := by
    unfold prime
    simp only [initState]
    split <;> rfl
  have h2 : ∀ s : State, (stageMethod env s).filebuff = s.filebuff := by
    intro s
    by_cases hg : s.herror = 0 ∧ s.segv = false
    · rw [stageMethod_eq env s hg.1 hg.2]
      split
      · rfl
      · split
        · rfl
        · split <;> rfl
    · unfold stageMethod
      rw [if_neg hg]
  have h3 : ∀ s : State, (stageEntity env s).filebuff = s.filebuff := by
    intro s
    by_cases hg : s.herror = 0 ∧ s.segv = false
    · rw [stageEntity_eq env s hg.1 hg.2]
      split <;> rfl
    · unfold stageEntity
      rw [if_neg hg]
  have h4 : ∀ s : State, (stageVersion env s).filebuff = s.filebuff := by
    intro s
    by_cases hg : s.herror = 0 ∧ s.segv = false
    · rw [stageVersion_eq env s hg.1 hg.2]
      split
      · rfl
      · split
        · rfl
        · split <;> rfl
    · unfold stageVersion
      rw [if_neg hg]
  have h5 : ∀ s : State, (stageHeaders env s).filebuff = s.filebuff := by
    intro s
    unfold stageHeaders
    split
    · exact (headerLoop_frame env _ s).2.2.2.2.1
    · rfl
  unfold parseRequest
  rw [h5, h4, h3, h2, h1]

/-- What a successful parse leaves behind. -/
theorem parse_ok_summary (env : Env) (sock : Script) (fs : Files)
    (h0 : (parseRequest env sock fs).herror = 0) :
    (parseRequest env sock fs).out = []
    ∧ (parseRequest env sock fs).closes = 0
    ∧ (parseRequest env sock fs).fs = fs
    ∧ (parseRequest env sock fs).segv = false
    ∧ (parseRequest env sock fs).hung = false
    ∧ (parseRequest env sock fs).filebuff.length = svcbuffersize
    ∧ (parseRequest env sock fs).entity ≠ []
    ∧ (parseRequest env sock fs).methodtype ≠ htcommand.INVALID
    ∧ ∃ (m v : List Char) (ext : List Pull),
        (parseRequest env sock fs).pulled
          = (Site.method, some m) :: (Site.target, some (parseRequest env sock fs).entity)
              :: (Site.version, some v) :: ext
        ∧ ((m = "GET".toList ∧ (parseRequest env sock fs).methodtype = htcommand.GET)
          ∨ (m = "HEAD".toList ∧ (parseRequest env sock fs).methodtype = htcommand.HEAD)
          ∨ (m = "POST".toList ∧ (parseRequest env sock fs).methodtype = htcommand.POST))
        ∧ goodVersion v
        ∧ hostErrIn ext = false := by
  have hm := parse_ok_method env sock fs h0
  obtain ⟨m, hmm, hpul, hout, hcl, hseg, hfs, -⟩ := method_ok_state env sock fs hm
  have hends := parseRequest_ends env sock fs
  have hp : parseRequest env sock fs
      = stageHeaders env (stageVersion env (stageEntity env
          (stageMethod env (prime (initState sock fs))))) := rfl
  rcases parse_tail_cases env _ hm hseg with
    ⟨-, h2, -⟩ | ⟨t, v, -, -, -, h2, -⟩ | ⟨t, v, pre, -, -, -, -, h2, -⟩
      | ⟨t, v, ext, ht, hv, h1, hE, hH, h2, h3, h4, h5, h6, h7, h8, h9, -⟩
  · rw [← hp, h0] at h2; exact absurd h2 (by decide)
  · rw [← hp, h0] at h2; exact absurd h2 (by decide)
  · rw [← hp, h0] at h2; exact absurd h2 (by decide)
  · rw [← hp] at h1 h3 h4 h5 h6 h7 h8
    refine ⟨by rw [h3, hout], by rw [h4, hcl], by rw [h7, hfs], h8, hends.1, ?_,
      by rw [h5]; exact ht, ?_, m, v, ext, ?_, ?_, hv, hE⟩
    · rw [parse_filebuff]; simp
    · rw [h6]
      rcases hmm with h | h | h <;> rw [h.2] <;> decide
    · rw [h1, hpul, h5]; rfl
    · rw [h6]; exact hmm

theorem isJpeg_iff (e : List Char) :
    isJpeg e = true ↔ (".jpeg".toList <:+ e ∨ ".jpg".toList <:+ e) := by
  have key : ∀ x : List Char, (x.length ≤ e.length ∧ e.drop (e.length - x.length) = x)
      ↔ x <:+ e := by
    intro x
    constructor
    · rintro ⟨_, h⟩
      exact List.suffix_iff_eq_drop.2 h.symm
    · intro h
      exact ⟨h.length_le, (List.suffix_iff_eq_drop.1 h).symm⟩
  have k5 := key ".jpeg".toList
  have k4 := key ".jpg".toList
  simp only [isJpeg, Bool.or_eq_true, Bool.and_eq_true, decide_eq_true_eq, beq_iff_eq]
  exact or_congr k5 k4

theorem isJpeg_path_iff (t : List Char) :
    isJpeg ('.' :: t) = true ↔
      (".jpg".toList <:+ t ∨ ".jpeg".toList <:+ t ∨ t = "jpg".toList ∨ t = "jpeg".toList) := by
  rw [isJpeg_iff]
  rw [List.suffix_cons_iff, List.suffix_cons_iff]
  have e1 : (".jpeg".toList = '.' :: t) ↔ t = "jpeg".toList := by
    constructor
    · intro h
      have := List.tail_eq_of_cons_eq h
      exact this.symm
    · intro h; rw [h]; rfl
  have e2 : (".jpg".toList = '.' :: t) ↔ t = "jpg".toList := by
    constructor
    · intro h
      have := List.tail_eq_of_cons_eq h
      exact this.symm
    · intro h; rw [h]; rfl
  rw [e1, e2]
  tauto

theorem respond_found2 (env : Env) (s : State) (filestat : FileNode)
    (h0 : s.herror = 0) (hs : s.segv = false) (hh : s.hung = false)
    (hl : s.fs.lookup ('.' :: s.entity) = some filestat) :
    respond env s = transfer filestat (headersSent env filestat s) :=
  respond_found env s filestat h0 hs hh hl

/-- The bytes of a successful response: the header block, then the file for
`GET` and nothing for the other methods. -/
theorem success_out (env : Env) (sock : Script) (fs : Files) (filestat : FileNode)
    (h0 : (parseRequest env sock fs).herror = 0)
    (hl : fs.lookup ('.' :: (parseRequest env sock fs).entity) = some filestat) :
    (svcthread env sock fs).out
      = headerBytes env filestat (parseRequest env sock fs).methodtype
          ('.' :: (parseRequest env sock fs).entity)
        ++ (if (parseRequest env sock fs).methodtype = htcommand.GET then filestat.content
            else [])
    ∧ (svcthread env sock fs).herror = 0 := by
  obtain ⟨hout, -, hfs, hseg, hhung, hfb, -, -, -⟩ := parse_ok_summary env sock fs h0
  have hl2 : (parseRequest env sock fs).fs.lookup ('.' :: (parseRequest env sock fs).entity)
      = some filestat := by rw [hfs]; exact hl
  have hr := respond_found2 env _ filestat h0 hseg hhung hl2
  have hsv : svcthread env sock fs = finish (respond env (parseRequest env sock fs)) := rfl
  have hso : (headersSent env filestat (parseRequest env sock fs)).out
      = headerBytes env filestat (parseRequest env sock fs).methodtype
          ('.' :: (parseRequest env sock fs).entity) := by
    show (parseRequest env sock fs).out ++ _ = _
    rw [hout]
    rfl
  rw [hsv, (finish_frame _).2.2.1, finish_herror, hr, (transfer_frame _ _).1]
  refine ⟨?_, h0⟩
  by_cases hg : (parseRequest env sock fs).methodtype = htcommand.GET
  · rw [if_pos hg, transfer_get filestat (headersSent env filestat (parseRequest env sock fs)) hg]
    have := getLoop_complete filestat.content.length filestat.content.length 0 filestat.content
      { headersSent env filestat (parseRequest env sock fs) with
        filebuff := bzero (headersSent env filestat (parseRequest env sock fs)).filebuff 0
          svcbuffersize }
      (by
        show (bzero (parseRequest env sock fs).filebuff 0 svcbuffersize).length = svcbuffersize
        simp [bzero, writeAt_length, hfb])
      (by simp) (Nat.le_refl _)
    rw [this.1]
    show (headersSent env filestat (parseRequest env sock fs)).out ++ _ = _
    rw [hso]
  · rw [if_neg hg, List.append_nil]
    by_cases hp : (parseRequest env sock fs).methodtype = htcommand.POST
    · rw [transfer_post filestat (headersSent env filestat (parseRequest env sock fs)) hp,
        (postLoop_frame _ _ _).2.2.2.2.2.2, hso]
    · rw [transfer_other filestat (headersSent env filestat (parseRequest env sock fs)) hg hp,
        hso]

theorem delims_ne_nul (d : Char) (h : d ∈ delims) : d ≠ NUL := by
  intro hd
  subst hd
  exact absurd h (by decide)

theorem pull_view (site : Site) (s : State) (tok : List Char) (d : Char) (rest : List Char)
    (hv : View s (tok ++ d :: rest)) (hc : Clean delims tok) (hd : d ∈ delims) :
    View (pull site s) rest ∧ tokenOf (pull site s) = tok
    ∧ (pull site s).sock = s.sock := by
  obtain ⟨i, h1, h2⟩ := hv
  have hf := filesep_hit s.sock delims s.buffer svcbuffersize i tok d rest h2 hc hd
    (delims_ne_nul d hd)
  have hb : (pull site s).buffer = s.buffer.set (i + tok.length) NUL := by
    show (filesep s.sock s.buffer svcbuffersize s.bufferleft delims).buffer = _
    rw [h1, hf]
  have hcur : (pull site s).bufferleft = some (i + tok.length + 1) := by
    show (filesep s.sock s.buffer svcbuffersize s.bufferleft delims).bufferleft = _
    rw [h1, hf]
  have hfld : (pull site s).field = some i := by
    show (filesep s.sock s.buffer svcbuffersize s.bufferleft delims).field = _
    rw [h1, hf]
  have hsock : (pull site s).sock = s.sock := by
    show (filesep s.sock s.buffer svcbuffersize s.bufferleft delims).filedesc = _
    rw [h1, hf]
  refine ⟨⟨_, hcur, ?_⟩, ?_, hsock⟩
  · rw [hb]; exact drop_set_after _ i tok d rest h2
  · rw [tokenOf, hfld, hb]
    exact cstrAt_of_drop delims _ i tok rest hc (drop_set_of_drop _ i tok d rest h2)

theorem stageMethod_view (env : Env) (s : State) (rest : List Char) (d : Char)
    (h0 : s.herror = 0) (hs : s.segv = false) (hd : d ∈ delims)
    (hv : View s ("GET".toList ++ d :: rest)) :
    (stageMethod env s).herror = 0 ∧ (stageMethod env s).segv = false
    ∧ (stageMethod env s).methodtype = htcommand.GET ∧ View (stageMethod env s) rest := by
  obtain ⟨v1, v2, -⟩ := pull_view Site.method s _ d rest hv (by decide) hd
  rw [stageMethod_eq env s h0 hs, if_pos v2]
  exact ⟨h0, hs, rfl, v1⟩

theorem stageEntity_view (env : Env) (s : State) (t rest : List Char) (d : Char)
    (h0 : s.herror = 0) (hs : s.segv = false) (hd : d ∈ delims) (hc : Clean delims t)
    (hne : t ≠ []) (hv : View s (t ++ d :: rest)) :
    (stageEntity env s).herror = 0 ∧ (stageEntity env s).segv = false
    ∧ (stageEntity env s).methodtype = s.methodtype ∧ (stageEntity env s).entity = t
    ∧ (stageEntity env s).emptycount = 0 ∧ View (stageEntity env s) rest := by
  obtain ⟨v1, v2, -⟩ := pull_view Site.target { s with entity := [] } t d rest hv hc hd
  rw [stageEntity_eq env s h0 hs, if_pos (by rw [v2]; exact hne)]
  exact ⟨h0, hs, rfl, v2, rfl, v1⟩

theorem stageVersion_view (env : Env) (s : State) (rest : List Char) (d : Char)
    (h0 : s.herror = 0) (hs : s.segv = false) (hd : d ∈ delims)
    (hv : View s ("HTTP/1.0".toList ++ d :: rest)) :
    (stageVersion env s).herror = 0 ∧ (stageVersion env s).segv = false
    ∧ (stageVersion env s).methodtype = s.methodtype ∧ (stageVersion env s).entity = s.entity
    ∧ (stageVersion env s).emptycount = s.emptycount ∧ View (stageVersion env s) rest := by
  obtain ⟨v1, v2, -⟩ := pull_view Site.version s _ d rest hv (by decide) hd
  rw [stageVersion_eq env s h0 hs, if_neg (by rw [v2]; decide), if_pos v2]
  exact ⟨h0, hs, rfl, rfl, rfl, v1⟩

theorem headerFuel_pos (s : State) : ∃ k, headerFuel s = k + 2 :=
  ⟨headerFuel s - 2, by unfold headerFuel; omega⟩

theorem stageHeaders_blank (env : Env) (s : State) (rest : List Char) (d1 d2 : Char)
    (h0 : s.herror = 0) (hs : s.segv = false) (he : s.emptycount = 0)
    (hd1 : d1 ∈ delims) (hd2 : d2 ∈ delims) (hv : View s (d1 :: d2 :: rest)) :
    (stageHeaders env s).herror = 0 ∧ (stageHeaders env s).methodtype = s.methodtype
    ∧ (stageHeaders env s).entity = s.entity := by
  obtain ⟨v1, v2, -⟩ := pull_view Site.header s [] d1 (d2 :: rest) hv
    (fun x hx => by simp at hx) hd1
  have v1b : View { pull Site.header s with emptycount := (pull Site.header s).emptycount + 1 }
      (d2 :: rest) := v1
  obtain ⟨w1, w2, -⟩ := pull_view Site.header
    { pull Site.header s with emptycount := (pull Site.header s).emptycount + 1 } [] d2 rest v1b
    (fun x hx => by simp at hx) hd2
  obtain ⟨k, hk⟩ := headerFuel_pos s
  unfold stageHeaders
  rw [if_pos ⟨h0, hs⟩, hk, headerLoop_step env (k + 1) s (by omega), if_pos v2,
    headerLoop_step env k _ (by show 2 > s.emptycount + 1; omega), if_pos w2,
    headerLoop_done env k _ (by show ¬ 2 > s.emptycount + 1 + 1; omega)]
  exact ⟨h0, rfl, rfl⟩

theorem prime_single (req : List Char) (fs : Files) (h0 : req ≠ [])
    (hl : req.length ≤ svcbuffersize - 1) :
    (prime (initState [some req] fs)).herror = 0
    ∧ (prime (initState [some req] fs)).segv = false
    ∧ View (prime (initState [some req] fs))
        (req ++ List.replicate (svcbuffersize - req.length) NUL) := by
  have hr : readFd [some req] (svcbuffersize - 1) = (some req, []) := readFd_fits req [] _ h0 hl
  have hpos : 0 < req.length := List.length_pos.2 h0
  have e255 : svcbuffersize - 1 = 255 := rfl
  have hlen : ¬ readLen (some req) ≤ 0 := by
    show ¬ req.length % 2 ^ 64 ≤ 0
    rw [e255] at hl
    omega
  unfold prime
  simp only [initState, hr]
  rw [if_neg hlen]
  refine ⟨rfl, rfl, 0, rfl, ?_⟩
  show (writeAt (List.replicate svcbuffersize NUL) 0 req).drop 0 = _
  rw [writeAt_zero_replicate _ _ (by rw [e255] at hl; show req.length ≤ 256; omega)]
  rfl

theorem unsplit_fieldsD (delim : List Char) (s : List Char) :
    unsplit (fieldsD delim s) = s := by
  induction s with
  | nil => rfl
  | cons c cs ih =>
    unfold fieldsD
    split
    · simp [unsplit, ih]
    · cases hf : fieldsD delim cs with
      | nil => rw [hf] at ih; simp [unsplit] at ih ⊢; exact ih
      | cons p r =>
        obtain ⟨t, d⟩ := p
        rw [hf] at ih
        cases d with
        | none => simp only [unsplit] at ih ⊢; rw [List.cons_append, ih]
        | some d => simp only [unsplit] at ih ⊢; rw [List.cons_append, ih]

theorem fieldsD_sound (delim : List Char) (s : List Char) :
    ∀ p ∈ fieldsD delim s, (∀ c ∈ p.1, c ∉ delim) ∧ (∀ d, p.2 = some d → d ∈ delim) := by
  induction s with
  | nil =>
    intro p hp
    simp [fieldsD] at hp
    subst hp
    simp
  | cons c cs ih =>
    intro p hp
    unfold fieldsD at hp
    split at hp
    · rename_i hc
      rcases List.mem_cons.1 hp with h | h
      · subst h
        exact ⟨by simp, fun d hd => by cases hd; exact hc⟩
      · exact ih p h
    · rename_i hc
      cases hf : fieldsD delim cs with
      | nil =>
        rw [hf] at hp
        simp at hp
        subst hp
        exact ⟨by simpa using hc, by simp⟩
      | cons q r =>
        obtain ⟨t, d⟩ := q
        rw [hf] at hp ih
        rcases List.mem_cons.1 hp with h | h
        · subst h
          have := ih (t, d) (by simp)
          refine ⟨?_, this.2⟩
          intro x hx
          rcases List.mem_cons.1 hx with h2 | h2
          · rw [h2]; exact hc
          · exact this.1 x h2
        · exact ih p (List.mem_cons_of_mem _ h)

theorem fieldsD_hit (delim tok : List Char) (d : Char) (rest : List Char)
    (hc : Clean delim tok) (hd : d ∈ delim) :
    fieldsD delim (tok ++ d :: rest) = (tok, some d) :: fieldsD delim rest := by
  induction tok with
  | nil => simp [fieldsD, hd]
  | cons c cs ih =>
    have h1 := hc c (by simp)
    rw [List.cons_append, fieldsD, if_neg h1.2, ih hc.tail]

theorem countDelims_hit (delim tok : List Char) (d : Char) (rest : List Char)
    (hc : Clean delim tok) (hd : d ∈ delim) :
    countDelims delim (tok ++ d :: rest) = countDelims delim rest + 1 := by
  induction tok with
  | nil => simp [countDelims, hd]
  | cons c cs ih =>
    have h1 := hc c (by simp)
    have := ih hc.tail
    simp only [countDelims, List.cons_append] at this ⊢
    rw [List.filter_cons_of_neg (by simpa using h1.2)]
    exact this

theorem countDelims_clean (delim u : List Char) (hc : Clean delim u) :
    countDelims delim u = 0 := by
  induction u with
  | nil => rfl
  | cons c cs ih =>
    have h1 := hc c (by simp)
    have := ih hc.tail
    simp only [countDelims] at this ⊢
    rw [List.filter_cons_of_neg (by simpa using h1.2)]
    exact this

theorem split_first (delim u : List Char) (hn : NUL ∉ u) :
    Clean delim u ∨ ∃ tok d rest, u = tok ++ d :: rest ∧ Clean delim tok ∧ d ∈ delim := by
  induction u with
  | nil => exact Or.inl (fun x hx => by simp at hx)
  | cons c cs ih =>
    have hc0 : c ≠ NUL := fun h => hn (by rw [h]; simp)
    have hn2 : NUL ∉ cs := fun h => hn (List.mem_cons_of_mem _ h)
    by_cases hd : c ∈ delim
    · exact Or.inr ⟨[], c, cs, rfl, fun x hx => by simp at hx, hd⟩
    · rcases ih hn2 with h | ⟨tok, d, rest, e1, e2, e3⟩
      · left
        intro x hx
        rcases List.mem_cons.1 hx with h2 | h2
        · rw [h2]; exact ⟨hc0, hd⟩
        · exact h x h2
      · right
        refine ⟨c :: tok, d, rest, by rw [e1]; rfl, ?_, e3⟩
        intro x hx
        rcases List.mem_cons.1 hx with h2 | h2
        · rw [h2]; exact ⟨hc0, hd⟩
        · exact e2 x h2

theorem pend_foldl_clean (delim u acc : List Char) (hc : Clean delim u) :
    u.foldl (fun acc c => if c ∈ delim then [] else acc ++ [c]) acc = acc ++ u := by
  induction u generalizing acc with
  | nil => simp
  | cons c cs ih =>
    have h1 := hc c (by simp)
    rw [List.foldl_cons, if_neg h1.2, ih _ hc.tail]
    simp

theorem pend_clean (delim u : List Char) (hc : Clean delim u) : pend delim u = u := by
  rw [pend, pend_foldl_clean delim u [] hc]
  rfl

theorem pend_hit (delim tok : List Char) (d : Char) (rest : List Char) (hd : d ∈ delim) :
    pend delim (tok ++ d :: rest) = pend delim rest := by
  simp only [pend, List.foldl_append, List.foldl_cons, if_pos hd]

theorem Fits_congr (n : Nat) (delim u u2 : List Char) (chunks : List (List Char))
    (h : pend delim u = pend delim u2) (hf : Fits n delim u chunks) :
    Fits n delim u2 chunks := by
  cases chunks with
  | nil => trivial
  | cons c cs =>
    obtain ⟨a, b, c1, d⟩ := hf
    exact ⟨a, b, by rw [← h]; exact c1, d⟩

theorem fileseps_succ (k : Nat) (fd : Script) (buf : List Char) (n : Nat) (cur : Option Nat)
    (delim : List Char) (i : Nat) (h : (filesep fd buf n cur delim).field = some i) :
    fileseps (k + 1) fd buf n cur delim
      = cstrAt (filesep fd buf n cur delim).buffer i
        :: fileseps k (filesep fd buf n cur delim).filedesc (filesep fd buf n cur delim).buffer n
            (filesep fd buf n cur delim).bufferleft delim := by
  rw [fileseps]
  simp only [h]

/-- The tokens of successive calls are the fields of what lies unconsumed in
the array followed by what the reads deliver. -/
theorem fileseps_fields (delim : List Char) (k : Nat) :
    ∀ (u : List Char) (chunks : List (List Char)) (buf : List Char) (i : Nat) (z : List Char),
      buf.drop i = u ++ NUL :: z → NUL ∉ u → Fits buf.length delim u chunks →
      k ≤ countDelims delim (u ++ chunks.flatten) →
      fileseps k (chunks.map some) buf buf.length (some i) delim
        = ((fieldsD delim (u ++ chunks.flatten)).take k).map Prod.fst := by
  induction k with
  | zero => intro u chunks buf i z _ _ _ _; rfl
  | succ k ih =>
    intro u chunks buf i z hb hu hf hk
    rcases split_first delim u hu with hcl | ⟨tok, d, rest, e1, e2, e3⟩
    · -- nothing but a partial token is left: the call reads
      cases chunks with
      | nil =>
        rw [List.flatten_nil, List.append_nil, countDelims_clean delim u hcl] at hk
        exact absurd hk (by omega)
      | cons c cs =>
        obtain ⟨f1, ⟨d0, f2, f3⟩, f4, f5⟩ := hf
        rw [pend_clean delim u hcl] at f4
        have hc0 : c ≠ [] := by
          intro h
          rw [h] at f2
          simp at f2
        rcases split_first delim c f1 with hcc | ⟨r, d, c2, g1, g2, g3⟩
        · exact absurd f3 (hcc d0 f2).2
        · have hlen : i + (u.length + (z.length + 1)) = buf.length := by
            have := congrArg List.length hb
            simp at this
            omega
          have hrd : readFd ((c :: cs).map some) (buf.length - 1 - u.length)
              = (some c, cs.map some) := by
            rw [List.map_cons]
            exact readFd_fits c _ _ hc0 (by omega)
          have hclean : Clean delim (u ++ r) := by
            intro x hx
            rcases List.mem_append.1 hx with h | h
            · exact hcl x h
            · exact g2 x h
          have hnul : d ≠ NUL := by
            intro h
            apply f1
            rw [g1, h]
            simp
          obtain ⟨m, hm⟩ : ∃ m, buf.length - u.length - c.length = m + 1 :=
            ⟨buf.length - u.length - c.length - 1, by omega⟩
          have hm2 : buf.length - u.length - (r.length + (c2.length + 1)) = m + 1 := by
            have := congrArg List.length g1
            simp at this
            omega
          have hview : (refilled buf.length u c).drop 0
              = (u ++ r) ++ d :: (c2 ++ NUL :: List.replicate m NUL) := by
            simp [refilled, g1, hm2, List.replicate_succ]
          have hfs := filesep_pending ((c :: cs).map some) delim buf i u z hb hcl
          rw [hrd] at hfs
          simp only [readData, Option.getD_some] at hfs
          rw [strsep_hit delim _ 0 (u ++ r) d _ hview hclean g3 hnul] at hfs
          have hfld : (filesep ((c :: cs).map some) buf buf.length (some i) delim).field
              = some 0 := by rw [hfs]
          rw [fileseps_succ k _ _ _ _ _ 0 hfld, hfs]
          simp only []
          have h1 := drop_set_of_drop _ 0 (u ++ r) d _ hview
          have h2 := drop_set_after _ 0 (u ++ r) d _ hview
          have hbl : ((refilled buf.length u c).set (0 + (u ++ r).length) NUL).length
              = buf.length := by
            simp [refilled]
            omega
          have hstream : u ++ (c :: cs).flatten = (u ++ r) ++ d :: (c2 ++ cs.flatten) := by
            simp [g1]
          rw [hstream, fieldsD_hit delim _ d _ hclean g3]
          rw [hstream, countDelims_hit delim _ d _ hclean g3] at hk
          have hn2 : NUL ∉ c2 := by
            intro h
            apply f1
            rw [g1]
            simp [h]
          have hfit : Fits ((refilled buf.length u c).set (0 + (u ++ r).length) NUL).length
              delim c2 cs := by
            rw [hbl]
            exact Fits_congr _ delim c c2 cs (by rw [g1, pend_hit delim r d c2 g3]) f5
          have := ih c2 cs _ _ _ h2 hn2 hfit (by omega)
          rw [hbl] at this
          rw [this, cstrAt_of_drop delim _ 0 (u ++ r) _ hclean h1]
          rfl
    · -- a complete token is left in the array
      have hview : buf.drop i = tok ++ d :: (rest ++ NUL :: z) := by
        rw [hb, e1]
        simp
      have hnul : d ≠ NUL := by
        intro h
        apply hu
        rw [e1, h]
        simp
      have hfs := filesep_hit (chunks.map some) delim buf buf.length i tok d _ hview e2 e3 hnul
      have hfld : (filesep (chunks.map some) buf buf.length (some i) delim).field = some i := by
        rw [hfs]
      rw [fileseps_succ k _ _ _ _ _ i hfld, hfs]
      simp only []
      have h1 := drop_set_of_drop _ i tok d _ hview
      have h2 := drop_set_after _ i tok d _ hview
      have hbl : (buf.set (i + tok.length) NUL).length = buf.length := by simp
      have hstream : u ++ chunks.flatten = tok ++ d :: (rest ++ chunks.flatten) := by
        rw [e1]
        simp
      rw [hstream, fieldsD_hit delim _ d _ e2 e3]
      rw [hstream, countDelims_hit delim _ d _ e2 e3] at hk
      have hn2 : NUL ∉ rest := by
        intro h
        apply hu
        rw [e1]
        simp [h]
      have hfit : Fits (buf.set (i + tok.length) NUL).length delim rest chunks := by
        rw [hbl]
        exact Fits_congr _ delim u rest chunks (by rw [e1, pend_hit delim tok d rest e3]) hf
      have := ih rest chunks _ _ _ h2 hn2 hfit (by omega)
      rw [hbl] at this
      rw [this, cstrAt_of_drop delim _ i tok _ e2 h1]
      rfl

theorem Consumed.weaken {req : List Char} {s : State} {m : Nat} (h : Consumed req s (m + 1)) :
    Consumed req s 1 := by
  obtain ⟨h1, h2, h3⟩ := h
  refine ⟨h1, h2, ?_⟩
  intro k hk
  obtain ⟨a, pre, ds, b, c, d⟩ := h3 k hk
  refine ⟨a, pre ++ ds.take m, ds.drop m, ?_, ?_, ?_⟩
  · rw [List.append_assoc, List.take_append_drop, b]
  · rw [List.length_drop, c]; omega
  · intro x hx
    exact d x (List.mem_of_mem_drop hx)

theorem parse_httpver (env : Env) (sock : Script) (fs : Files)
    (h0 : (parseRequest env sock fs).herror = 0) :
    (parseRequest env sock fs).httpver = 10 ∨ (parseRequest env sock fs).httpver = 11 := by
  have hm := parse_ok_method env sock fs h0
  obtain ⟨m, -, -, -, -, hseg, -, -⟩ := method_ok_state env sock fs hm
  have hp : parseRequest env sock fs
      = stageHeaders env (stageVersion env (stageEntity env
          (stageMethod env (prime (initState sock fs))))) := rfl
  rcases parse_tail_cases env _ hm hseg with
    ⟨-, h2, -⟩ | ⟨t, v, -, -, -, h2, -⟩ | ⟨t, v, pre, -, -, -, -, h2, -⟩
      | ⟨t, v, ext, -, -, -, -, -, -, -, -, -, -, -, -, -, h9⟩
  · rw [← hp, h0] at h2; exact absurd h2 (by decide)
  · rw [← hp, h0] at h2; exact absurd h2 (by decide)
  · rw [← hp, h0] at h2; exact absurd h2 (by decide)
  · rw [← hp] at h9
    rw [h9]
    by_cases hv : v = "HTTP/1.1".toList
    · rw [if_pos hv]; exact Or.inr rfl
    · rw [if_neg hv]; exact Or.inl rfl

theorem pull_keeps (P : Script → List Char → Option Nat → Prop) (hP : Kept P) (site : Site)
    (s : State) (h : P s.sock s.buffer s.bufferleft) :
    P (pull site s).sock (pull site s).buffer (pull site s).bufferleft :=
  hP _ _ _ h

theorem stageMethod_keeps (P : Script → List Char → Option Nat → Prop) (hP : Kept P)
    (env : Env) (s : State) (h : P s.sock s.buffer s.bufferleft) :
    P (stageMethod env s).sock (stageMethod env s).buffer (stageMethod env s).bufferleft := by
  by_cases hg : s.herror = 0 ∧ s.segv = false
  · have hp := pull_keeps P hP Site.method s h
    rw [stageMethod_eq env s hg.1 hg.2]
    split
    · exact hp
    · split
      · exact hp
      · split
        · exact hp
        · exact hp
  · unfold stageMethod
    rw [if_neg hg]
    exact h

theorem stageEntity_keeps (P : Script → List Char → Option Nat → Prop) (hP : Kept P)
    (env : Env) (s : State) (h : P s.sock s.buffer s.bufferleft) :
    P (stageEntity env s).sock (stageEntity env s).buffer (stageEntity env s).bufferleft := by
  by_cases hg : s.herror = 0 ∧ s.segv = false
  · have hp := pull_keeps P hP Site.target { s with entity := [] } h
    rw [stageEntity_eq env s hg.1 hg.2]
    split
    · exact hp
    · exact hp
  · unfold stageEntity
    rw [if_neg hg]
    exact h

theorem stageVersion_keeps (P : Script → List Char → Option Nat → Prop) (hP : Kept P)
    (env : Env) (s : State) (h : P s.sock s.buffer s.bufferleft) :
    P (stageVersion env s).sock (stageVersion env s).buffer (stageVersion env s).bufferleft := by
  by_cases hg : s.herror = 0 ∧ s.segv = false
  · have hp := pull_keeps P hP Site.version s h
    rw [stageVersion_eq env s hg.1 hg.2]
    split
    · exact hp
    · split
      · exact hp
      · split
        · exact hp
        · exact hp
  · unfold stageVersion
    rw [if_neg hg]
    exact h

theorem headerLoop_keeps (P : Script → List Char → Option Nat → Prop) (hP : Kept P)
    (env : Env) (fuel : Nat) :
    ∀ s : State, P s.sock s.buffer s.bufferleft →
      P (headerLoop env fuel s).sock (headerLoop env fuel s).buffer
        (headerLoop env fuel s).bufferleft := by
  induction fuel with
  | zero =>
    intro s h
    by_cases hc : 2 > s.emptycount
    · rw [headerLoop_zero env s hc]
      exact h
    · rw [headerLoop_done env 0 s hc]
      exact h
  | succ k ih =>
    intro s h
    by_cases hc : 2 > s.emptycount
    · rw [headerLoop_step env k s hc]
      have p1 := pull_keeps P hP Site.header s h
      by_cases he : tokenOf (pull Site.header s) = []
      · rw [if_pos he]
        exact ih _ p1
      · rw [if_neg he]
        by_cases hq : tokenOf (pull Site.header s) = "Host:".toList
        · rw [if_pos hq]
          have q1 := pull_keeps P hP Site.hostval { pull Site.header s with emptycount := 0 } p1
          split
          · exact q1
          · exact ih _ q1
        · rw [if_neg hq]
          exact ih _ p1
    · rw [headerLoop_done env _ s hc]
      exact h

theorem stageHeaders_keeps (P : Script → List Char → Option Nat → Prop) (hP : Kept P)
    (env : Env) (s : State) (h : P s.sock s.buffer s.bufferleft) :
    P (stageHeaders env s).sock (stageHeaders env s).buffer (stageHeaders env s).bufferleft := by
  unfold stageHeaders
  split
  · exact headerLoop_keeps P hP env _ s h
  · exact h

/-- The reader's variables after the priming read. -/
theorem prime_reader (sock : Script) (fs : Files) :
    (prime (initState sock fs)).sock = (readFd sock (svcbuffersize - 1)).2
    ∧ (prime (initState sock fs)).buffer
        = writeAt (List.replicate svcbuffersize NUL) 0
            (readData (readFd sock (svcbuffersize - 1)).1)
    ∧ (prime (initState sock fs)).bufferleft = some 0 := by
  unfold prime
  simp only [initState]
  split
  · exact ⟨rfl, rfl, rfl⟩
  · exact ⟨rfl, rfl, rfl⟩

/-- What every `filesep` call keeps, and holds after the priming read, holds
when the parser ends. -/
theorem parse_keeps (P : Script → List Char → Option Nat → Prop) (hP : Kept P)
    (env : Env) (sock : Script) (fs : Files)
    (h : P (readFd sock (svcbuffersize - 1)).2
      (writeAt (List.replicate svcbuffersize NUL) 0
        (readData (readFd sock (svcbuffersize - 1)).1)) (some 0)) :
    P (parseRequest env sock fs).sock (parseRequest env sock fs).buffer
      (parseRequest env sock fs).bufferleft := by
  obtain ⟨a1, a2, a3⟩ := prime_reader sock fs
  have a : P (prime (initState sock fs)).sock (prime (initState sock fs)).buffer
      (prime (initState sock fs)).bufferleft := by
    rw [a1, a2, a3]; exact h
  exact stageHeaders_keeps P hP env _ (stageVersion_keeps P hP env _
    (stageEntity_keeps P hP env _ (stageMethod_keeps P hP env _ a)))

theorem filesep_fd_nil (buf : List Char) (n : Nat) (cur : Option Nat) (delim : List Char) :
    (filesep [] buf n cur delim).filedesc = [] := by
  have hr : ∀ m, (readFd [] m).2 = [] := fun m => by rw [readFd_idle [] m (Or.inr rfl)]
  unfold filesep
  simp only []
  split
  · exact hr _
  · split
    · exact hr _
    · rfl

theorem parse_sock_nil (env : Env) (sock : Script) (fs : Files)
    (h : (readFd sock (svcbuffersize - 1)).2 = []) : (parseRequest env sock fs).sock = [] :=
  parse_keeps (fun fd _ _ => fd = [])
    (fun fd buf cur hfd => by
      show (filesep fd buf svcbuffersize cur delims).filedesc = []
      rw [show fd = [] from hfd]; exact filesep_fd_nil _ _ _ _)
    env sock fs h

theorem fileWrite_zero (buf : List Char) : fileWrite buf 0 = [] := by
  simp [fileWrite]

theorem fsAppend_nil (fs : Files) (path : List Char) : fsAppend fs path [] = fs := by
  induction fs with
  | nil => rfl
  | cons a rest ih =>
    obtain ⟨p, node⟩ := a
    unfold fsAppend
    split
    · simp
    · rw [ih]

/-- At end-of-stream the transfer loop of `POST` ends with its first read and
leaves the files as they are. -/
theorem postLoop_eof (path : List Char) (fuel : Nat) (s : State) (h : s.sock = []) :
    (postLoop path (fuel + 1) s).fs = s.fs ∧ (postLoop path (fuel + 1) s).hung = s.hung
    ∧ (postLoop path (fuel + 1) s).sock = [] := by
  have hr : readFd s.sock svcbuffersize = (some [], []) := by
    rw [h]; rfl
  unfold postLoop
  simp only [hr, readLen, readData, List.length_nil, Nat.zero_mod, gt_iff_lt, Nat.lt_irrefl,
    if_false, fileWrite_zero, fsAppend_nil]
  trivial

theorem stageMethod_post_view (env : Env) (s : State) (rest : List Char) (d : Char)
    (h0 : s.herror = 0) (hs : s.segv = false) (hd : d ∈ delims)
    (hv : View s ("POST".toList ++ d :: rest)) :
    (stageMethod env s).herror = 0 ∧ (stageMethod env s).segv = false
    ∧ (stageMethod env s).methodtype = htcommand.POST ∧ View (stageMethod env s) rest := by
  obtain ⟨v1, v2, -⟩ := pull_view Site.method s _ d rest hv (by decide) hd
  rw [stageMethod_eq env s h0 hs, if_neg (by rw [v2]; decide), if_neg (by rw [v2]; decide),
    if_pos v2]
  exact ⟨h0, hs, rfl, v1⟩

/-- A `POST` request for `/t` that comes whole with the priming read, whatever
follows its blank line in that read, parses without error. -/
theorem parse_post_single (env : Env) (fs : Files) (body : List Char)
    (hlen : body.length ≤ 235) :
    (parseRequest env [some ("POST /t HTTP/1.0\r\n\r\n".toList ++ body)] fs).herror = 0
    ∧ (parseRequest env [some ("POST /t HTTP/1.0\r\n\r\n".toList ++ body)] fs).methodtype
        = htcommand.POST
    ∧ (parseRequest env [some ("POST /t HTTP/1.0\r\n\r\n".toList ++ body)] fs).entity
        = "/t".toList
    ∧ (parseRequest env [some ("POST /t HTTP/1.0\r\n\r\n".toList ++ body)] fs).sock = [] := by
  have hreq : ("POST /t HTTP/1.0\r\n\r\n".toList ++ body).length ≤ svcbuffersize - 1 := by
    show _ ≤ 255
    simp only [List.length_append]
    have e1 : "POST /t HTTP/1.0\r\n\r\n".toList.length = 20 := rfl
    omega
  have hne : "POST /t HTTP/1.0\r\n\r\n".toList ++ body ≠ [] := by simp
  obtain ⟨a1, a2, a3⟩ := prime_single _ fs hne hreq
  have hshape : ∀ z : List Char,
      ("POST /t HTTP/1.0\r\n\r\n".toList ++ body) ++ z
        = "POST".toList ++ ' ' :: ("/t".toList ++ ' ' :: ("HTTP/1.0".toList
            ++ '\r' :: ('\n' :: '\r' :: ('\n' :: (body ++ z))))) := by
    intro z
    simp
  rw [hshape] at a3
  obtain ⟨b1, b2, b3, b4⟩ := stageMethod_post_view env _ _ ' ' a1 a2 (by decide) a3
  obtain ⟨c1, c2, c3, c4, c5, c6⟩ := stageEntity_view env _ "/t".toList _ ' ' b1 b2 (by decide)
    (by decide) (by decide) b4
  obtain ⟨d1, d2, d3, d4, d5, d6⟩ := stageVersion_view env _ _ '\r' c1 c2 (by decide) c6
  obtain ⟨e1, e2, e3⟩ := stageHeaders_blank env _ _ '\n' '\r' d1 d2 (by rw [d5, c5])
    (by decide) (by decide) d6
  have hp : parseRequest env [some ("POST /t HTTP/1.0\r\n\r\n".toList ++ body)] fs
      = stageHeaders env (stageVersion env (stageEntity env (stageMethod env
          (prime (initState [some ("POST /t HTTP/1.0\r\n\r\n".toList ++ body)] fs))))) := rfl
  refine ⟨by rw [hp]; exact e1, by rw [hp, e2, d3, c3, b3], by rw [hp, e3, d4, c4], ?_⟩
  apply parse_sock_nil
  rw [readFd_fits _ [] _ hne hreq]

/-- The transfer loop of `POST` comes to an end: every round but the last
takes something from the socket. -/
theorem postLoop_ends (path : List Char) (fuel : Nat) :
    ∀ s : State, scriptSize s.sock < fuel → (postLoop path fuel s).hung = s.hung := by
  induction fuel with
  | zero =>
    intro s h
    exact absurd h (Nat.not_lt_zero _)
  | succ k ih =>
    intro s h
    by_cases hs : s.sock = []
    · exact (postLoop_eof path k s hs).2.1
    · have hlt := readFd_size_lt s.sock svcbuffersize (by decide) hs
      unfold postLoop
      simp only []
      split
      · rw [ih _ (by show scriptSize (readFd s.sock svcbuffersize).2 < k; omega)]
      · rfl

theorem transfer_hung (filestat : FileNode) (s : State)
    (hb : s.filebuff.length = svcbuffersize) : (transfer filestat s).hung = s.hung := by
  by_cases hg : s.methodtype = htcommand.GET
  · rw [transfer_get filestat s hg]
    exact (getLoop_complete filestat.content.length filestat.content.length 0 filestat.content
      { s with filebuff := bzero s.filebuff 0 svcbuffersize }
      (by
        show (bzero s.filebuff 0 svcbuffersize).length = svcbuffersize
        simp [bzero, writeAt_length, hb])
      (by simp) (Nat.le_refl _)).2
  · by_cases hp : s.methodtype = htcommand.POST
    · rw [transfer_post filestat s hp]
      exact postLoop_ends _ _ s (Nat.lt_succ_self _)
    · rw [transfer_other filestat s hg hp]

theorem stageMethod_segv (env : Env) (s : State) : (stageMethod env s).segv = s.segv := by
  by_cases hg : s.herror = 0 ∧ s.segv = false
  · rw [stageMethod_eq env s hg.1 hg.2]
    split
    · rfl
    · split
      · rfl
      · split
        · rfl
        · rfl
  · unfold stageMethod
    rw [if_neg hg]

theorem stageEntity_segv (env : Env) (s : State) : (stageEntity env s).segv = s.segv := by
  by_cases hg : s.herror = 0 ∧ s.segv = false
  · rw [stageEntity_eq env s hg.1 hg.2]
    split
    · rfl
    · rfl
  · unfold stageEntity
    rw [if_neg hg]

theorem stageVersion_segv (env : Env) (s : State) : (stageVersion env s).segv = s.segv := by
  by_cases hg : s.herror = 0 ∧ s.segv = false
  · rw [stageVersion_eq env s hg.1 hg.2]
    split
    · rfl
    · split
      · rfl
      · split
        · rfl
        · rfl
  · unfold stageVersion
    rw [if_neg hg]

theorem stageHeaders_segv (env : Env) (s : State) : (stageHeaders env s).segv = s.segv := by
  unfold stageHeaders
  split
  · exact (headerLoop_frame env _ s).2.2.2.1
  · rfl

/-- The parser never dereferences a null token. -/
theorem parse_segv (env : Env) (sock : Script) (fs : Files) :
    (parseRequest env sock fs).segv = false := by
  unfold parseRequest
  rw [stageHeaders_segv, stageVersion_segv, stageEntity_segv, stageMethod_segv,
    (prime_frame _).1]
  rfl

theorem finish_flags (s : State) : (finish s).segv = s.segv ∧ (finish s).hung = s.hung := by
  unfold finish
  split
  · exact ⟨rfl, rfl⟩
  · exact ⟨rfl, rfl⟩

theorem finish_ok (s : State) (h0 : s.herror = 0) (hs : s.segv = false) (hh : s.hung = false) :
    (finish s).closes = s.closes + 1 := by
  unfold finish
  rw [if_pos ⟨h0, hs, hh⟩]

theorem respond_hung (env : Env) (s : State) (hb : s.filebuff.length = svcbuffersize) :
    (respond env s).hung = s.hung := by
  unfold respond
  split
  · simp only []
    split
    · rfl
    · rw [transfer_hung _ _ (by rw [sendHeaders_eq]; exact hb), sendHeaders_eq]
  · rfl

/-- The worker always comes to an end, and never dereferences a null token. -/
theorem svc_flags (env : Env) (sock : Script) (fs : Files) :
    (svcthread env sock fs).segv = false ∧ (svcthread env sock fs).hung = false := by
  have hsv : svcthread env sock fs = finish (respond env (parseRequest env sock fs)) := rfl
  constructor
  · rw [hsv, (finish_flags _).1, (respond_frame env _).2.2.2]
    exact parse_segv env sock fs
  · rw [hsv, (finish_flags _).2, respond_hung env _ (by rw [parse_filebuff]; simp)]
    exact (parseRequest_ends env sock fs).1

/-- The ways a run of the worker ends. -/
theorem svc_cases (env : Env) (sock : Script) (fs : Files) :
    (svcthread env sock fs).closes = 1
    ∧ (((svcthread env sock fs).herror = -1 ∧ (svcthread env sock fs).out = []
          ∧ readLen (readFd sock (svcbuffersize - 1)).1 = 0)
      ∨ ((svcthread env sock fs).herror = 405 ∧ (svcthread env sock fs).out = line405
          ∧ readLen (readFd sock (svcbuffersize - 1)).1 ≠ 0
          ∧ (stageMethod env (prime (initState sock fs))).herror = 405)
      ∨ ((svcthread env sock fs).herror = 400 ∧ (svcthread env sock fs).out = line400
          ∧ readLen (readFd sock (svcbuffersize - 1)).1 ≠ 0
          ∧ (stageMethod env (prime (initState sock fs))).herror = 0
          ∧ (parseRequest env sock fs).herror = 400)
      ∨ ((svcthread env sock fs).herror = 404 ∧ (svcthread env sock fs).out = line404
          ∧ readLen (readFd sock (svcbuffersize - 1)).1 ≠ 0
          ∧ (parseRequest env sock fs).herror = 0
          ∧ fs.lookup ('.' :: (parseRequest env sock fs).entity) = none)
      ∨ ((svcthread env sock fs).herror = 0
          ∧ readLen (readFd sock (svcbuffersize - 1)).1 ≠ 0
          ∧ (parseRequest env sock fs).herror = 0
          ∧ ∃ filestat : FileNode,
              fs.lookup ('.' :: (parseRequest env sock fs).entity) = some filestat
              ∧ (svcthread env sock fs).out
                = headerBytes env filestat (parseRequest env sock fs).methodtype
                    ('.' :: (parseRequest env sock fs).entity)
                  ++ (if (parseRequest env sock fs).methodtype = htcommand.GET
                      then filestat.content else []))) := by
  have hfr := prime_frame (initState sock fs)
  have hseg : (prime (initState sock fs)).segv = false := hfr.1
  have hout : (prime (initState sock fs)).out = [] := hfr.2.2.1
  have hsv : svcthread env sock fs
      = finish (respond env (stageHeaders env (stageVersion env (stageEntity env
          (stageMethod env (prime (initState sock fs))))))) := rfl
  have hsv2 : svcthread env sock fs = finish (respond env (parseRequest env sock fs)) := rfl
  have hp : parseRequest env sock fs
      = stageHeaders env (stageVersion env (stageEntity env
          (stageMethod env (prime (initState sock fs))))) := rfl
  by_cases hr : readLen (readFd sock (svcbuffersize - 1)).1 = 0
  · have h1 := prime_eof sock fs hr
    have hne : (prime (initState sock fs)).herror ≠ 0 := by rw [h1.1]; decide
    have hm : stageMethod env (prime (initState sock fs)) = prime (initState sock fs) := by
      unfold stageMethod
      rw [if_neg (fun hh => hne hh.1)]
    rw [hsv, hm, rest_skip env _ hne]
    exact ⟨h1.2, Or.inl ⟨h1.1, hout, hr⟩⟩
  · have h1 := prime_ok sock fs hr
    by_cases hm : (stageMethod env (prime (initState sock fs))).herror = 0
    · obtain ⟨m, -, -, mout, mcl, mseg, mfs, -⟩ := method_ok_state env sock fs hm
      rcases parse_tail_cases env _ hm mseg with
        ⟨-, h2, h3, h4⟩ | ⟨t, v, -, -, -, h2, h3, h4⟩ | ⟨t, v, pre, -, -, -, -, h2, h3, h4⟩
          | ⟨t, v, ext, -, -, -, -, -, h2, -⟩
      · rw [← hp] at h2 h3 h4
        have hne : (parseRequest env sock fs).herror ≠ 0 := by rw [h2]; decide
        rw [hsv2, respond_skip env _ hne, finish_skip _ hne, h4, mcl]
        refine ⟨rfl, Or.inr (Or.inr (Or.inl ⟨h2, ?_, hr, hm, h2⟩))⟩
        rw [h3, mout]; rfl
      · rw [← hp] at h2 h3 h4
        have hne : (parseRequest env sock fs).herror ≠ 0 := by rw [h2]; decide
        rw [hsv2, respond_skip env _ hne, finish_skip _ hne, h4, mcl]
        refine ⟨rfl, Or.inr (Or.inr (Or.inl ⟨h2, ?_, hr, hm, h2⟩))⟩
        rw [h3, mout]; rfl
      · rw [← hp] at h2 h3 h4
        have hne : (parseRequest env sock fs).herror ≠ 0 := by rw [h2]; decide
        rw [hsv2, respond_skip env _ hne, finish_skip _ hne, h4, mcl]
        refine ⟨rfl, Or.inr (Or.inr (Or.inl ⟨h2, ?_, hr, hm, h2⟩))⟩
        rw [h3, mout]; rfl
      · rw [← hp] at h2
        obtain ⟨pout, pcl, pfs, pseg, phung, pfb, -, -, -⟩ := parse_ok_summary env sock fs h2
        cases hl : fs.lookup ('.' :: (parseRequest env sock fs).entity) with
        | none =>
          have hl2 : (parseRequest env sock fs).fs.lookup
              ('.' :: (parseRequest env sock fs).entity) = none := by rw [pfs]; exact hl
          have hres := respond_missing env _ h2 pseg phung hl2
          have hne : (respond env (parseRequest env sock fs)).herror ≠ 0 := by
            rw [hres]
            show (404 : Int) ≠ 0
            decide
          rw [hsv2, finish_skip _ hne, hres]
          refine ⟨?_, Or.inr (Or.inr (Or.inr (Or.inl ⟨rfl, ?_, hr, h2, rfl⟩)))⟩
          · show (parseRequest env sock fs).closes + 1 = 1
            rw [pcl]
          · show (parseRequest env sock fs).out ++ _ = _
            rw [pout]; rfl
        | some st =>
          have hl2 : (parseRequest env sock fs).fs.lookup
              ('.' :: (parseRequest env sock fs).entity) = some st := by rw [pfs]; exact hl
          obtain ⟨s1, s2⟩ := success_out env sock fs st h2 hl
          have hres := respond_found2 env _ st h2 pseg phung hl2
          have r0 : (respond env (parseRequest env sock fs)).herror = 0 := by
            rw [hres, (transfer_frame _ _).1]; exact h2
          have r1 : (respond env (parseRequest env sock fs)).segv = false := by
            rw [(respond_frame env _).2.2.2]; exact pseg
          have r2 : (respond env (parseRequest env sock fs)).hung = false := by
            rw [respond_hung env _ pfb]; exact phung
          have r3 : (respond env (parseRequest env sock fs)).closes = 0 := by
            rw [hres, (transfer_frame _ _).2.1]; exact pcl
          refine ⟨?_, Or.inr (Or.inr (Or.inr (Or.inr ⟨s2, hr, h2, st, rfl, s1⟩)))⟩
          rw [hsv2, finish_ok _ r0 r1 r2, r3]
    · have hfin : stageMethod env (prime (initState sock fs))
          = reporterror env
              { pull Site.method (prime (initState sock fs)) with
                methodtype := htcommand.INVALID, herror := 405 } 405 := by
        have hm2 := hm
        rw [stageMethod_eq env _ h1.1 hseg] at hm2 ⊢
        split
        · rename_i hG
          rw [if_pos hG] at hm2
          exact absurd h1.1 hm2
        · rename_i hG
          rw [if_neg hG] at hm2
          split
          · rename_i hH
            rw [if_pos hH] at hm2
            exact absurd h1.1 hm2
          · rename_i hH
            rw [if_neg hH] at hm2
            split
            · rename_i hP
              rw [if_pos hP] at hm2
              exact absurd h1.1 hm2
            · rfl
      rw [hsv, rest_skip env _ hm, hfin]
      refine ⟨?_, Or.inr (Or.inl ⟨rfl, ?_, hr, rfl⟩)⟩
      · show (prime (initState sock fs)).closes + 1 = 1
        rw [h1.2]
      · show (prime (initState sock fs)).out ++ _ = _
        rw [hout]; rfl

/-- The header block starts with the status line and ends with a blank line. -/
theorem headerBytes_shape (env : Env) (filestat : FileNode) (m : htcommand)
    (entity : List Char) :
    ∃ hd : List Char,
      headerBytes env filestat m entity
        = "HTTP/1.0 200 OK\r\n".toList ++ hd ++ "\r\n\r\n".toList := by
  refine ⟨("Date: ".toList ++ env.httpdate env.now ++ " GMT\r\n".toList)
      ++ "Server: myhttpd/0.5 (Unix)\r\n".toList
      ++ "Transfer-Encoding: identity\r\n".toList
      ++ (if m = htcommand.GET ∨ m = htcommand.HEAD then
            "Connection: close\r\n".toList
              ++ ("Last-Modified: ".toList ++ env.httpdate filestat.st_mtime
                  ++ " GMT\r\n".toList)
              ++ (if isJpeg entity then "Content-Type: image/jpeg\r\n".toList else [])
              ++ ("Content-Length: ".toList ++ decimal filestat.content.length)
          else "Connection: close".toList), ?_⟩
  unfold headerBytes
  by_cases h : m = htcommand.GET ∨ m = htcommand.HEAD
  · rw [if_pos h, if_pos h]
    simp
  · rw [if_neg h, if_neg h]
    simp

/-- A parse without error has passed every stage without error. -/
theorem parse_ok_stages (env : Env) (sock : Script) (fs : Files)
    (h0 : (parseRequest env sock fs).herror = 0) :
    (stageMethod env (prime (initState sock fs))).herror = 0
    ∧ (stageEntity env (stageMethod env (prime (initState sock fs)))).herror = 0
    ∧ (stageVersion env (stageEntity env (stageMethod env (prime (initState sock fs))))).herror
        = 0 := by
  refine ⟨parse_ok_method env sock fs h0, ?_, ?_⟩
  · by_contra hne
    unfold parseRequest at h0
    rw [stageVersion_skip env _ hne, stageHeaders_skip env _ hne] at h0
    exact hne h0
  · by_contra hne
    unfold parseRequest at h0
    rw [stageHeaders_skip env _ hne] at h0
    exact hne h0

theorem LiveOK.toBufOK {n : Nat} {buf : List Char} {cur : Option Nat} {live : Nat}
    (h : LiveOK n buf cur live) : BufOK n buf cur := by
  obtain ⟨hl, hlive, hn, hz, hc⟩ := h
  refine ⟨hl, ?_, fun i hi => by have := hc i hi; omega⟩
  obtain ⟨m, hm⟩ : ∃ m, n - live = m + 1 := ⟨n - live - 1, by omega⟩
  refine ⟨buf.take live ++ List.replicate m NUL, ?_⟩
  rw [List.append_assoc, ← List.replicate_succ', ← hm, ← hz, List.take_append_drop]

theorem strsep_live (delim buf : List Char) (n i live : Nat)
    (h : LiveOK n buf (some i) live) :
    LiveOK n (strsep buf (some i) delim).buf (strsep buf (some i) delim).stringp live := by
  obtain ⟨hl, hlive, hn, hz, hc⟩ := h
  unfold strsep
  simp only []
  cases hf : findDelim delim (buf.drop i) with
  | none =>
    simp only []
    exact ⟨hl, hlive, hn, hz, fun j hj => by cases hj⟩
  | some k =>
    simp only []
    obtain ⟨tok, d, rest, e1, -, -, e4, e5⟩ := findDelim_some_inv delim _ k hf
    have hget : buf[i + k]? = some d := by
      have h1 : (buf.drop i)[k]? = some d := by
        rw [e1, e5, List.getElem?_append_right (Nat.le_refl _), Nat.sub_self]
        simp
      rw [List.getElem?_drop] at h1
      exact h1
    have hlt : i + k < live := by
      by_contra hge
      have h2 : (buf.drop live)[i + k - live]? = some d := by
        rw [List.getElem?_drop]
        rw [show live + (i + k - live) = i + k by omega]
        exact hget
      rw [hz] at h2
      rw [List.getElem?_replicate] at h2
      split at h2
      · exact e4 (Option.some.inj h2).symm
      · cases h2
    refine ⟨by simp [hl], hlive, hn, ?_, ?_⟩
    · rw [List.drop_set_of_lt _ _ hlt]
      exact hz
    · intro j hj
      simp at hj
      omega

theorem refilled_live (n : Nat) (p data : List Char) (h : p.length + data.length ≤ n - 1)
    (hn : 1 ≤ n) : LiveOK n (refilled n p data) (some 0) (p.length + data.length) := by
  refine ⟨?_, h, hn, ?_, ?_⟩
  · simp [refilled]; omega
  · unfold refilled
    rw [← List.length_append, List.drop_left, List.length_append, Nat.sub_add_eq]
  · intro i hi
    cases hi
    omega

theorem liveAfter_null (fd : Script) (buf : List Char) (n : Nat) (delim : List Char)
    (live : Nat) :
    liveAfter fd buf n none delim live = (readData (readFd fd (n - 1)).1).length := rfl

theorem liveAfter_hit (fd : Script) (delim buf : List Char) (n i : Nat) (tok : List Char)
    (d : Char) (rest : List Char) (live : Nat) (h : buf.drop i = tok ++ d :: rest)
    (hc : Clean delim tok) (hd : d ∈ delim) (hn : d ≠ NUL) :
    liveAfter fd buf n (some i) delim live = live := by
  unfold liveAfter
  rw [strsep_hit delim buf i tok d rest h hc hd hn]

theorem liveAfter_pending (fd : Script) (delim buf : List Char) (n i : Nat) (p z : List Char)
    (live : Nat) (h : buf.drop i = p ++ NUL :: z) (hc : Clean delim p) :
    liveAfter fd buf n (some i) delim live
      = p.length + (readData (readFd fd (n - 1 - p.length)).1).length := by
  unfold liveAfter
  rw [strsep_miss delim buf i p z h hc]
  simp only [strlen, cstrAt_of_drop delim buf i p z hc h]

/-- One `filesep` call keeps the array well formed with respect to the count
of data bytes, and returns a token that starts inside the data or on the
`NUL` behind them. -/
theorem filesep_live (fd : Script) (delim buf : List Char) (n : Nat) (cur : Option Nat)
    (live : Nat) (h : LiveOK n buf cur live) :
    LiveOK n (filesep fd buf n cur delim).buffer (filesep fd buf n cur delim).bufferleft
      (liveAfter fd buf n cur delim live)
    ∧ ∀ j, (filesep fd buf n cur delim).field = some j →
        j ≤ liveAfter fd buf n cur delim live := by
  have hbok := h.toBufOK
  obtain ⟨hl, hlive, hn, hz, hc⟩ := h
  subst hl
  have refill : ∀ (p : List Char) (len : Nat), p.length ≤ buf.length - 1 →
      len = buf.length - 1 - p.length →
      LiveOK buf.length
        (strsep (refilled buf.length p (readData (readFd fd len).1)) (some 0) delim).buf
        (strsep (refilled buf.length p (readData (readFd fd len).1)) (some 0) delim).stringp
        (p.length + (readData (readFd fd len).1).length)
      ∧ (strsep (refilled buf.length p (readData (readFd fd len).1)) (some 0) delim).tok
          = some 0 := by
    intro p len hp hlen
    have hr := readFd_length fd len
    have hok := refilled_live buf.length p (readData (readFd fd len).1) (by omega) hn
    exact ⟨strsep_live delim _ _ 0 _ hok, (strsep_ok delim _ _ 0 hok.toBufOK).2.1⟩
  cases cur with
  | none =>
    rw [filesep_null, liveAfter_null]
    obtain ⟨r1, r2⟩ := refill [] (buf.length - 1) (by simp) (by simp)
    simp only [List.length_nil, Nat.zero_add] at r1
    refine ⟨r1, ?_⟩
    intro j hj
    rw [r2] at hj
    cases hj
    exact Nat.zero_le _
  | some i =>
    have hi := hc i rfl
    cases hf : findDelim delim (buf.drop i) with
    | some k =>
      obtain ⟨tok, d, rest, e1, e2, e3, e4, e5⟩ := findDelim_some_inv delim _ k hf
      have hs := strsep_live delim buf buf.length i live ⟨rfl, hlive, hn, hz, hc⟩
      rw [strsep_hit delim buf i tok d rest e1 e2 e3 e4] at hs
      rw [filesep_hit fd delim buf buf.length i tok d rest e1 e2 e3 e4,
        liveAfter_hit fd delim buf buf.length i tok d rest live e1 e2 e3 e4]
      refine ⟨hs, ?_⟩
      intro j hj
      cases hj
      exact hi
    | none =>
      obtain ⟨-, ⟨b, hb⟩, hcb⟩ := hbok
      have hib := hcb i rfl
      have hmem : NUL ∈ buf.drop i := by
        rw [hb]
        exact mem_drop_of_ends_nul b i (by rw [← hb]; exact hib)
      obtain ⟨p, z, e1, e2⟩ := findDelim_none_inv delim _ hf hmem
      have hlen : i + (p.length + (z.length + 1)) = buf.length := by
        have := congrArg List.length e1
        simp at this
        omega
      rw [filesep_pending fd delim buf i p z e1 e2,
        liveAfter_pending fd delim buf buf.length i p z live e1 e2]
      obtain ⟨r1, r2⟩ := refill p (buf.length - 1 - p.length) (by omega) rfl
      refine ⟨r1, ?_⟩
      intro j hj
      rw [r2] at hj
      cases hj
      exact Nat.zero_le _

theorem primed_ok (sock : Script) : ReaderOK (primed sock) := by
  have hr := readFd_length sock (svcbuffersize - 1)
  have hb : writeAt (List.replicate svcbuffersize NUL) 0
      (readData (readFd sock (svcbuffersize - 1)).1)
      = refilled svcbuffersize [] (readData (readFd sock (svcbuffersize - 1)).1) := by
    rw [writeAt_zero_replicate _ _ (by omega)]
    simp [refilled]
  have hok := refilled_live svcbuffersize [] (readData (readFd sock (svcbuffersize - 1)).1)
    (by simpa using hr) (by decide)
  rw [← hb] at hok
  simp only [List.length_nil, Nat.zero_add] at hok
  exact ⟨hok, fun j hj => by cases hj⟩

theorem call_ok (delim : List Char) (r : Reader) (h : ReaderOK r) :
    ReaderOK (Reader.call delim r) :=
  filesep_live r.filedesc delim r.buffer svcbuffersize r.bufferleft r.live h.1

theorem calls_ok (ds : List (List Char)) :
    ∀ r : Reader, ReaderOK r → ReaderOK (Reader.calls ds r) := by
  induction ds with
  | nil => intro r h; exact h
  | cons d ds ih => intro r h; exact ih _ (call_ok d r h)

theorem calls_append (ds : List (List Char)) (d : List Char) :
    ∀ r : Reader, Reader.calls (ds ++ [d]) r = Reader.call d (Reader.calls ds r) := by
  induction ds with
  | nil => intro r; rfl
  | cons e ds ih => intro r; exact ih _

/-- The length of a C string that lies in a `NUL`-terminated array: the string
ends inside the array. -/
theorem strlen_inside (buf : List Char) (j : Nat) (hb : ∃ b, buf = b ++ [NUL])
    (hj : j < buf.length) : j + strlen buf j < buf.length := by
  obtain ⟨b, hb⟩ := hb
  have hmem : NUL ∈ buf.drop j := by
    rw [hb]
    exact mem_drop_of_ends_nul b j (by rw [← hb]; exact hj)
  obtain ⟨p, z, e1, e2⟩ := findDelim_none_inv [] (buf.drop j)
    (by
      generalize buf.drop j = l
      induction l with
      | nil => rfl
      | cons c cs ih =>
        unfold findDelim
        split
        · rfl
        · simp [ih])
    hmem
  have hlen := congrArg List.length e1
  simp at hlen
  have : cstrAt buf j = p := cstrAt_of_drop [] buf j p z e2 e1
  rw [strlen, this]
  omega

/-- The reader's variables at the end of the parse are those a sequence of
`filesep` calls, all with the worker's delimiters, leaves behind the priming
read. -/
theorem parse_reach (env : Env) (sock : Script) (fs : Files) :
    ∃ k : Nat,
      (Reader.calls (List.replicate k delims) (primed sock)).filedesc
          = (parseRequest env sock fs).sock
      ∧ (Reader.calls (List.replicate k delims) (primed sock)).buffer
          = (parseRequest env sock fs).buffer
      ∧ (Reader.calls (List.replicate k delims) (primed sock)).bufferleft
          = (parseRequest env sock fs).bufferleft := by
  refine parse_keeps
    (fun fd buf cur => ∃ k : Nat,
      (Reader.calls (List.replicate k delims) (primed sock)).filedesc = fd
      ∧ (Reader.calls (List.replicate k delims) (primed sock)).buffer = buf
      ∧ (Reader.calls (List.replicate k delims) (primed sock)).bufferleft = cur)
    ?_ env sock fs ⟨0, rfl, rfl, rfl⟩
  intro fd buf cur ⟨k, h1, h2, h3⟩
  refine ⟨k + 1, ?_⟩
  rw [List.replicate_succ', calls_append]
  unfold Reader.call
  simp only [h1, h2, h3]
  trivial

theorem stageMethod_herror (env : Env) (s : State) :
    (stageMethod env s).herror = s.herror ∨ (stageMethod env s).herror = 405 := by
  by_cases hg : s.herror = 0 ∧ s.segv = false
  · rw [stageMethod_eq env s hg.1 hg.2]
    split
    · left; rfl
    · split
      · left; rfl
      · split
        · left; rfl
        · right; rfl
  · unfold stageMethod
    rw [if_neg hg]
    left; rfl

/-- A read that meets end-of-stream or fails stores nothing. -/
theorem readFd_nothing (fd : Script) (m : Nat) (h : fd = [] ∨ ∃ rest, fd = none :: rest) :
    readData (readFd fd m).1 = [] := by
  rcases h with h | ⟨rest, h⟩
  · rw [h, readFd_idle [] m (Or.inr rfl)]
    rfl
  · rw [h]
    unfold readFd
    split
    · rfl
    · rfl

theorem refilled_nothing (n : Nat) (p : List Char) (h : p.length ≤ n - 1) (hn : 1 ≤ n) :
    refilled n p [] = p ++ NUL :: List.replicate (n - p.length - 1) NUL := by
  obtain ⟨m, hm⟩ : ∃ m, n - p.length = m + 1 := ⟨n - p.length - 1, by omega⟩
  simp [refilled, hm, List.replicate_succ]

/-- With nothing to read, `filesep` hands back what is pending: the empty
token when the cursor is unset, the partial token otherwise, and leaves the
cursor unset. -/
theorem filesep_nothing (fd : Script) (delim buf : List Char) (n : Nat) (cur : Option Nat)
    (hok : BufOK n buf cur) (hfd : fd = [] ∨ ∃ rest, fd = none :: rest) :
    (cur = none →
      (filesep fd buf n cur delim).field = some 0
      ∧ cstrAt (filesep fd buf n cur delim).buffer 0 = []
      ∧ (filesep fd buf n cur delim).bufferleft = none)
    ∧ (∀ i, cur = some i → findDelim delim (buf.drop i) = none →
      (filesep fd buf n cur delim).field = some 0
      ∧ cstrAt (filesep fd buf n cur delim).buffer 0 = cstrAt buf i
      ∧ (filesep fd buf n cur delim).bufferleft = none) := by
  obtain ⟨hl, ⟨b, hb⟩, hc⟩ := hok
  have hn : 1 ≤ n := by
    have := congrArg List.length hb
    simp at this
    omega
  subst hl
  have key : ∀ p : List Char, p.length ≤ buf.length - 1 → Clean delim p →
      strsep (refilled buf.length p []) (some 0) delim
        = ⟨some 0, refilled buf.length p [], none⟩
      ∧ cstrAt (refilled buf.length p []) 0 = p := by
    intro p hp hcp
    rw [refilled_nothing _ p hp hn]
    exact ⟨strsep_miss delim _ 0 p _ rfl hcp, cstrAt_of_drop delim _ 0 p _ hcp rfl⟩
  constructor
  · intro hcur
    subst hcur
    rw [filesep_null, readFd_nothing fd _ hfd]
    obtain ⟨k1, k2⟩ := key [] (by simp) (fun x hx => by simp at hx)
    rw [k1]
    exact ⟨rfl, k2, rfl⟩
  · intro i hcur hf
    subst hcur
    have hi := hc i rfl
    have hmem : NUL ∈ buf.drop i := by
      rw [hb]
      exact mem_drop_of_ends_nul b i (by rw [← hb]; exact hi)
    obtain ⟨p, z, e1, e2⟩ := findDelim_none_inv delim _ hf hmem
    have hlen : i + (p.length + (z.length + 1)) = buf.length := by
      have := congrArg List.length e1
      simp at this
      omega
    rw [filesep_pending fd delim buf i p z e1 e2, readFd_nothing fd _ hfd]
    obtain ⟨k1, k2⟩ := key p (by omega) e2
    rw [k1, cstrAt_of_drop delim buf i p z e2 e1]
    exact ⟨rfl, k2, rfl⟩

theorem fileseps_length (k : Nat) :
    ∀ (fd : Script) (buf : List Char) (n : Nat) (cur : Option Nat) (delim : List Char),
      (fileseps k fd buf n cur delim).length = k := by
  induction k with
  | zero => intro fd buf n cur delim; rfl
  | succ k ih =>
    intro fd buf n cur delim
    rw [fileseps, List.length_cons, ih]

/-- The tokens of `k` calls are the first `k` of the tokens of more calls. -/
theorem fileseps_take (k : Nat) :
    ∀ (m : Nat) (fd : Script) (buf : List Char) (n : Nat) (cur : Option Nat)
      (delim : List Char),
      fileseps k fd buf n cur delim = (fileseps (k + m) fd buf n cur delim).take k := by
  induction k with
  | zero => intro m fd buf n cur delim; simp [fileseps]
  | succ k ih =>
    intro m fd buf n cur delim
    rw [show k + 1 + m = (k + m) + 1 by omega, fileseps, fileseps, List.take_succ_cons,
      ← ih]

theorem fileseps_append (k m : Nat) (fd : Script) (buf : List Char) (n : Nat)
    (cur : Option Nat) (delim : List Char) :
    ∃ ext, fileseps (k + m) fd buf n cur delim = fileseps k fd buf n cur delim ++ ext := by
  refine ⟨(fileseps (k + m) fd buf n cur delim).drop k, ?_⟩
  rw [fileseps_take k m, List.take_append_drop]

theorem nextTokens_succ (site : Site) (k : Nat) (s : State) :
    nextTokens (k + 1) s = tokenOf (pull site s) :: nextTokens k (pull site s) := by
  obtain ⟨i, hi⟩ := pull_field_some site s
  have hi2 : (filesep s.sock s.buffer svcbuffersize s.bufferleft delims).field = some i := hi
  unfold nextTokens
  rw [fileseps_succ k _ _ _ _ _ i hi2]
  simp only [tokenOf, hi, Option.getD_some]
  rfl

theorem nextTokens_zero (s : State) : nextTokens 0 s = [] := rfl

theorem prime_tokens (k : Nat) (sock : Script) (fs : Files) :
    nextTokens k (prime (initState sock fs)) = requestTokens k sock := by
  obtain ⟨a1, a2, a3⟩ := prime_reader sock fs
  unfold nextTokens requestTokens
  rw [a1, a2, a3]
  rfl

theorem requestTokens_length (k : Nat) (sock : Script) : (requestTokens k sock).length = k :=
  fileseps_length k _ _ _ _ _

theorem requestTokens_append (k m : Nat) (sock : Script) :
    ∃ ext, requestTokens (k + m) sock = requestTokens k sock ++ ext :=
  fileseps_append k m _ _ _ _ _

theorem specHeaders_nil (run used : Nat) :
    specHeaders run used [] = if 2 ≤ run then Outcome.accept used else Outcome.more := by
  simp [specHeaders]

theorem specHeaders_done (run used : Nat) (ts : List (List Char)) (h : 2 ≤ run) :
    specHeaders run used ts = Outcome.accept used := by
  cases ts with
  | nil => simp [specHeaders, h]
  | cons t rest => cases rest <;> simp [specHeaders, h]

theorem specHeaders_empty (run used : Nat) (rest : List (List Char)) (h : ¬ 2 ≤ run) :
    specHeaders run used ([] :: rest) = specHeaders (run + 1) (used + 1) rest := by
  cases rest <;> simp [specHeaders, h]

theorem specHeaders_other (run used : Nat) (t : List Char) (rest : List (List Char))
    (h : ¬ 2 ≤ run) (ht : t ≠ []) (hh : t ≠ "Host:".toList) :
    specHeaders run used (t :: rest) = specHeaders 0 (used + 1) rest := by
  have hh2 : t ≠ ['H', 'o', 's', 't', ':'] := hh
  cases rest <;> simp [specHeaders, h, ht, hh2]

theorem specHeaders_host_end (run used : Nat) (h : ¬ 2 ≤ run) :
    specHeaders run used ["Host:".toList] = Outcome.more := by
  simp [specHeaders, h]

theorem specHeaders_host_bad (run used : Nat) (rest : List (List Char)) (h : ¬ 2 ≤ run) :
    specHeaders run used ("Host:".toList :: [] :: rest) = Outcome.reject (used + 2) := by
  simp [specHeaders, h]

theorem specHeaders_host_val (run used : Nat) (v : List Char) (rest : List (List Char))
    (h : ¬ 2 ≤ run) (hv : v ≠ []) :
    specHeaders run used ("Host:".toList :: v :: rest) = specHeaders 0 (used + 2) rest := by
  simp [specHeaders, h, hv]

/-- Once the header section is decided, more tokens change nothing. -/
theorem specHeaders_mono (n : Nat) :
    ∀ (ts : List (List Char)) (run used : Nat) (ext : List (List Char)), ts.length ≤ n →
      specHeaders run used ts ≠ Outcome.more →
      specHeaders run used (ts ++ ext) = specHeaders run used ts := by
  induction n with
  | zero =>
    intro ts run used ext hl h
    have hnil : ts = [] := List.length_eq_zero.1 (by omega)
    subst hnil
    by_cases hr : 2 ≤ run
    · rw [specHeaders_done _ _ _ hr, specHeaders_done _ _ _ hr]
    · rw [specHeaders_nil, if_neg hr] at h
      exact absurd rfl h
  | succ n ih =>
    intro ts run used ext hl h
    by_cases hr : 2 ≤ run
    · rw [specHeaders_done _ _ _ hr, specHeaders_done _ _ _ hr]
    · cases ts with
      | nil =>
        rw [specHeaders_nil, if_neg hr] at h
        exact absurd rfl h
      | cons t rest =>
        have hl1 : rest.length ≤ n := by simpa using hl
        by_cases ht : t = []
        · subst ht
          rw [List.cons_append, specHeaders_empty _ _ (rest ++ ext) hr,
            specHeaders_empty _ _ rest hr]
          rw [specHeaders_empty _ _ _ hr] at h
          exact ih _ _ _ _ hl1 h
        · by_cases hh : t = "Host:".toList
          · subst hh
            cases rest with
            | nil =>
              rw [specHeaders_host_end _ _ hr] at h
              exact absurd rfl h
            | cons v rest2 =>
              by_cases hv : v = []
              · subst hv
                rw [List.cons_append, List.cons_append, specHeaders_host_bad _ _ _ hr,
                  specHeaders_host_bad _ _ _ hr]
              · rw [List.cons_append, List.cons_append,
                  specHeaders_host_val _ _ _ (rest2 ++ ext) hr hv,
                  specHeaders_host_val _ _ _ rest2 hr hv]
                rw [specHeaders_host_val _ _ _ _ hr hv] at h
                exact ih _ _ _ _ (by simp at hl1; omega) h
          · rw [List.cons_append, specHeaders_other _ _ _ (rest ++ ext) hr ht hh,
              specHeaders_other _ _ _ rest hr ht hh]
            rw [specHeaders_other _ _ _ _ hr ht hh] at h
            exact ih _ _ _ _ hl1 h

theorem specRequest_cons2 (target version : List Char) (headers : List (List Char))
    (ht : target ≠ []) :
    specRequest (target :: version :: headers)
      = if version = [] then specHeaders 1 2 headers
        else if version = "HTTP/1.0".toList ∨ version = "HTTP/1.1".toList then
          specHeaders 0 2 headers
        else Outcome.reject 2 := by
  simp [specRequest, ht]

theorem specRequest_bad_target (rest : List (List Char)) :
    specRequest ([] :: rest) = Outcome.reject 1 := by
  simp [specRequest]

/-- Once the request is decided, more tokens change nothing. -/
theorem specRequest_mono (ts ext : List (List Char)) (h : specRequest ts ≠ Outcome.more) :
    specRequest (ts ++ ext) = specRequest ts := by
  cases ts with
  | nil => exact absurd (by simp [specRequest]) h
  | cons target rest =>
    by_cases ht : target = []
    · subst ht
      rw [List.cons_append, specRequest_bad_target, specRequest_bad_target]
    · cases rest with
      | nil => exact absurd (by simp [specRequest, ht]) h
      | cons version headers =>
        rw [List.cons_append, List.cons_append, specRequest_cons2 _ _ _ ht,
          specRequest_cons2 _ _ _ ht]
        rw [specRequest_cons2 _ _ _ ht] at h
        by_cases hv : version = []
        · rw [if_pos hv] at h
          rw [if_pos hv, if_pos hv]
          exact specHeaders_mono _ _ _ _ _ (Nat.le_refl _) h
        · rw [if_neg hv] at h
          rw [if_neg hv, if_neg hv]
          by_cases hg : version = "HTTP/1.0".toList ∨ version = "HTTP/1.1".toList
          · rw [if_pos hg] at h
            rw [if_pos hg, if_pos hg]
            exact specHeaders_mono _ _ _ _ _ (Nat.le_refl _) h
          · rw [if_neg hg, if_neg hg]

/-- The header loop against the specification: the tokens it pulls are the
next tokens of the reader, as many as the specification's header section
takes, and it raises 400 exactly when the specification rejects. -/
theorem headerLoop_spec (env : Env) (fuel : Nat) :
    ∀ s : State, s.herror = 0 → (headerLoop env fuel s).hung = false →
      ∃ j : Nat,
        (headerLoop env fuel s).pulled.map Prod.snd
          = s.pulled.map Prod.snd ++ (nextTokens j s).map some
        ∧ (((headerLoop env fuel s).herror = 400
              ∧ ∀ used, specHeaders s.emptycount used (nextTokens j s)
                  = Outcome.reject (used + j))
            ∨ ((headerLoop env fuel s).herror = 0
              ∧ ∀ used, specHeaders s.emptycount used (nextTokens j s)
                  = Outcome.accept (used + j))) := by
  induction fuel with
  | zero =>
    intro s h0 hh
    by_cases hc : 2 > s.emptycount
    · rw [headerLoop_zero env s hc] at hh
      exact absurd hh (by simp)
    · rw [headerLoop_done env 0 s hc]
      refine ⟨0, by simp [nextTokens_zero], Or.inr ⟨h0, fun used => ?_⟩⟩
      rw [nextTokens_zero, specHeaders_done _ _ _ (by omega)]
      rfl
  | succ k ih =>
    intro s h0 hh
    by_cases hc : 2 > s.emptycount
    · have hrun : ¬ 2 ≤ s.emptycount := by omega
      have hpp := pull_pulled Site.header s
      have htk : ∀ j, nextTokens (j + 1) s
          = tokenOf (pull Site.header s) :: nextTokens j (pull Site.header s) :=
        fun j => nextTokens_succ Site.header j s
      rw [headerLoop_step env k s hc] at hh ⊢
      by_cases he : tokenOf (pull Site.header s) = []
      · rw [if_pos he] at hh ⊢
        obtain ⟨j, h1, h2⟩ := ih
          { pull Site.header s with emptycount := (pull Site.header s).emptycount + 1 } h0 hh
        have h1b : (headerLoop env k
            { pull Site.header s with
              emptycount := (pull Site.header s).emptycount + 1 }).pulled.map Prod.snd
            = (pull Site.header s).pulled.map Prod.snd
              ++ (nextTokens j (pull Site.header s)).map some := h1
        refine ⟨j + 1, ?_, ?_⟩
        · rw [h1b, hpp, htk j]
          simp
        · have hspec : ∀ (used : Nat) (o : Outcome),
              specHeaders (s.emptycount + 1) (used + 1) (nextTokens j (pull Site.header s)) = o →
              specHeaders s.emptycount used (nextTokens (j + 1) s) = o := by
            intro used o ho
            rw [htk j, he, specHeaders_empty _ _ _ hrun]
            exact ho
          rcases h2 with ⟨e1, e2⟩ | ⟨e1, e2⟩
          · refine Or.inl ⟨e1, fun used => ?_⟩
            rw [hspec used _ (e2 (used + 1))]
            congr 1
            omega
          · refine Or.inr ⟨e1, fun used => ?_⟩
            rw [hspec used _ (e2 (used + 1))]
            congr 1
            omega
      · rw [if_neg he] at hh ⊢
        by_cases hq : tokenOf (pull Site.header s) = "Host:".toList
        · rw [if_pos hq] at hh ⊢
          have hpp2 := pull_pulled Site.hostval { pull Site.header s with emptycount := 0 }
          have htk2 : ∀ j, nextTokens (j + 1) (pull Site.header s)
              = tokenOf (pull Site.hostval { pull Site.header s with emptycount := 0 })
                :: nextTokens j (pull Site.hostval { pull Site.header s with emptycount := 0 }) :=
            fun j => nextTokens_succ Site.hostval j { pull Site.header s with emptycount := 0 }
          have hpp2b : (pull Site.hostval { pull Site.header s with emptycount := 0 }).pulled
              = (pull Site.header s).pulled
                ++ [(Site.hostval,
                    some (tokenOf (pull Site.hostval
                      { pull Site.header s with emptycount := 0 })))] := hpp2
          by_cases hv : tokenOf (pull Site.hostval { pull Site.header s with emptycount := 0 })
              = []
          · rw [if_pos hv] at hh ⊢
            refine ⟨2, ?_, Or.inl ⟨rfl, fun used => ?_⟩⟩
            · show (pull Site.hostval
                  { pull Site.header s with emptycount := 0 }).pulled.map Prod.snd = _
              rw [hpp2b, hpp, htk 1, htk2 0, nextTokens_zero]
              simp
            · rw [htk 1, htk2 0, nextTokens_zero, hq, hv, specHeaders_host_bad _ _ _ hrun]
          · rw [if_neg hv] at hh ⊢
            obtain ⟨j, h1, h2⟩ := ih
              { pull Site.hostval { pull Site.header s with emptycount := 0 } with
                hostline := (tokenOf (pull Site.hostval
                  { pull Site.header s with emptycount := 0 })).take (svcbuffersize - 1) }
              h0 hh
            have h1b : (headerLoop env k
                { pull Site.hostval { pull Site.header s with emptycount := 0 } with
                  hostline := (tokenOf (pull Site.hostval
                    { pull Site.header s with emptycount := 0 })).take
                      (svcbuffersize - 1) }).pulled.map Prod.snd
                = (pull Site.hostval
                    { pull Site.header s with emptycount := 0 }).pulled.map Prod.snd
                  ++ (nextTokens j (pull Site.hostval
                    { pull Site.header s with emptycount := 0 })).map some := h1
            refine ⟨j + 2, ?_, ?_⟩
            · rw [h1b, hpp2b, hpp, htk (j + 1), htk2 j]
              simp
            · have hspec : ∀ (used : Nat) (o : Outcome),
                  specHeaders 0 (used + 2) (nextTokens j (pull Site.hostval
                    { pull Site.header s with emptycount := 0 })) = o →
                  specHeaders s.emptycount used (nextTokens (j + 2) s) = o := by
                intro used o ho
                rw [htk (j + 1), htk2 j, hq, specHeaders_host_val _ _ _ _ hrun hv]
                exact ho
              rcases h2 with ⟨e1, e2⟩ | ⟨e1, e2⟩
              · refine Or.inl ⟨e1, fun used => ?_⟩
                rw [hspec used _ (e2 (used + 2))]
                congr 1
                omega
              · refine Or.inr ⟨e1, fun used => ?_⟩
                rw [hspec used _ (e2 (used + 2))]
                congr 1
                omega
        · rw [if_neg hq] at hh ⊢
          obtain ⟨j, h1, h2⟩ := ih { pull Site.header s with emptycount := 0 } h0 hh
          have h1b : (headerLoop env k
              { pull Site.header s with emptycount := 0 }).pulled.map Prod.snd
              = (pull Site.header s).pulled.map Prod.snd
                ++ (nextTokens j (pull Site.header s)).map some := h1
          refine ⟨j + 1, ?_, ?_⟩
          · rw [h1b, hpp, htk j]
            simp
          · have hspec : ∀ (used : Nat) (o : Outcome),
                specHeaders 0 (used + 1) (nextTokens j (pull Site.header s)) = o →
                specHeaders s.emptycount used (nextTokens (j + 1) s) = o := by
              intro used o ho
              rw [htk j, specHeaders_other _ _ _ _ hrun he hq]
              exact ho
            rcases h2 with ⟨e1, e2⟩ | ⟨e1, e2⟩
            · refine Or.inl ⟨e1, fun used => ?_⟩
              rw [hspec used _ (e2 (used + 1))]
              congr 1
              omega
            · refine Or.inr ⟨e1, fun used => ?_⟩
              rw [hspec used _ (e2 (used + 1))]
              congr 1
              omega
    · rw [headerLoop_done env _ s hc]
      refine ⟨0, by simp [nextTokens_zero], Or.inr ⟨h0, fun used => ?_⟩⟩
      rw [nextTokens_zero, specHeaders_done _ _ _ (by omega)]
      rfl

/-- The header stage against the specification. -/
theorem stageHeaders_spec (env : Env) (s : State) (h0 : s.herror = 0) (hs : s.segv = false)
    (hok : StateOK s) (hh : s.hung = false) :
    ∃ j : Nat,
      (stageHeaders env s).pulled.map Prod.snd
        = s.pulled.map Prod.snd ++ (nextTokens j s).map some
      ∧ (((stageHeaders env s).herror = 400
            ∧ ∀ used, specHeaders s.emptycount used (nextTokens j s)
                = Outcome.reject (used + j))
          ∨ ((stageHeaders env s).herror = 0
            ∧ ∀ used, specHeaders s.emptycount used (nextTokens j s)
                = Outcome.accept (used + j))) := by
  have hends := stageHeaders_ends env s hok hh
  have hsh : stageHeaders env s = headerLoop env (headerFuel s) s := by
    unfold stageHeaders
    rw [if_pos ⟨h0, hs⟩]
  rw [hsh] at hends ⊢
  exact headerLoop_spec env _ s h0 hends.1

/-- The version and header stages against the specification, behind a target
token `t` that is not empty. -/
theorem version_spec (env : Env) (s : State) (h0 : s.herror = 0) (hs : s.segv = false)
    (hok : StateOK s) (hh : s.hung = false) (he : s.emptycount = 0) (t : List Char)
    (ht : t ≠ []) :
    ∃ j : Nat,
      (stageHeaders env (stageVersion env s)).pulled.map Prod.snd
        = s.pulled.map Prod.snd ++ (nextTokens j s).map some
      ∧ (((stageHeaders env (stageVersion env s)).herror = 400
            ∧ specRequest (t :: nextTokens j s) = Outcome.reject (j + 1))
          ∨ ((stageHeaders env (stageVersion env s)).herror = 0
            ∧ specRequest (t :: nextTokens j s) = Outcome.accept (j + 1))) := by
  have hpp := pull_pulled Site.version s
  have htk : ∀ j, nextTokens (j + 1) s
      = tokenOf (pull Site.version s) :: nextTokens j (pull Site.version s) :=
    fun j => nextTokens_succ Site.version j s
  have hok2 : StateOK (pull Site.version s) := (pull_step Site.version s hok).1
  have hsp : ∀ j, specRequest (t :: nextTokens (j + 1) s)
      = if tokenOf (pull Site.version s) = [] then
          specHeaders 1 2 (nextTokens j (pull Site.version s))
        else if tokenOf (pull Site.version s) = "HTTP/1.0".toList
            ∨ tokenOf (pull Site.version s) = "HTTP/1.1".toList then
          specHeaders 0 2 (nextTokens j (pull Site.version s))
        else Outcome.reject 2 := by
    intro j
    rw [htk j, specRequest_cons2 _ _ _ ht]
  -- the header stage behind an accepted version token
  have hdr : ∀ (s3 : State) (run : Nat), s3.herror = 0 → s3.segv = false → s3.hung = false →
      StateOK s3 → s3.emptycount = run → s3.pulled = (pull Site.version s).pulled →
      (∀ j, nextTokens j s3 = nextTokens j (pull Site.version s)) →
      ∃ j : Nat,
        (stageHeaders env s3).pulled.map Prod.snd
          = s.pulled.map Prod.snd ++ (nextTokens (j + 1) s).map some
        ∧ (((stageHeaders env s3).herror = 400
              ∧ specHeaders run 2 (nextTokens j (pull Site.version s))
                  = Outcome.reject (j + 1 + 1))
            ∨ ((stageHeaders env s3).herror = 0
              ∧ specHeaders run 2 (nextTokens j (pull Site.version s))
                  = Outcome.accept (j + 1 + 1))) := by
    intro s3 run e0 es eh eok erun epul etok
    obtain ⟨j, h1, h2⟩ := stageHeaders_spec env s3 e0 es eok eh
    refine ⟨j, ?_, ?_⟩
    · rw [h1, epul, hpp, htk j, etok j]
      simp
    · rw [erun, etok j] at h2
      rcases h2 with ⟨e1, e2⟩ | ⟨e1, e2⟩
      · refine Or.inl ⟨e1, ?_⟩
        rw [e2 2]
        congr 1
        omega
      · refine Or.inr ⟨e1, ?_⟩
        rw [e2 2]
        congr 1
        omega
  rw [stageVersion_eq env s h0 hs]
  by_cases hv : tokenOf (pull Site.version s) = []
  · rw [if_pos hv]
    obtain ⟨j, h1, h2⟩ := hdr { pull Site.version s with httpver := 10, emptycount := 1 } 1
      h0 hs hh hok2 rfl rfl (fun _ => rfl)
    refine ⟨j + 1, h1, ?_⟩
    rw [hsp j, if_pos hv]
    exact h2
  · rw [if_neg hv]
    by_cases hv0 : tokenOf (pull Site.version s) = "HTTP/1.0".toList
    · rw [if_pos hv0]
      obtain ⟨j, h1, h2⟩ := hdr { pull Site.version s with httpver := 10 } 0
        h0 hs hh hok2 he rfl (fun _ => rfl)
      refine ⟨j + 1, h1, ?_⟩
      rw [hsp j, if_neg hv, if_pos (Or.inl hv0)]
      exact h2
    · rw [if_neg hv0]
      by_cases hv1 : tokenOf (pull Site.version s) = "HTTP/1.1".toList
      · rw [if_pos hv1]
        obtain ⟨j, h1, h2⟩ := hdr { pull Site.version s with httpver := 11 } 0
          h0 hs hh hok2 he rfl (fun _ => rfl)
        refine ⟨j + 1, h1, ?_⟩
        rw [hsp j, if_neg hv, if_pos (Or.inr hv1)]
        exact h2
      · rw [if_neg hv1]
        have hne : (reporterror env { pull Site.version s with herror := 400 } 400).herror
            ≠ 0 := by
          show (400 : Int) ≠ 0
          decide
        rw [stageHeaders_skip env _ hne]
        refine ⟨1, ?_, Or.inl ⟨rfl, ?_⟩⟩
        · show (pull Site.version s).pulled.map Prod.snd = _
          rw [hpp, htk 0, nextTokens_zero]
          simp
        · rw [hsp 0, if_neg hv, if_neg (by
            intro h
            rcases h with h | h
            · exact hv0 h
            · exact hv1 h)]

/-- The target, version and header stages against the specification: the
tokens pulled are the next tokens of the reader, as many as the
specification's parser takes, and 400 is raised exactly when it rejects. -/
theorem tail_spec (env : Env) (s : State) (h0 : s.herror = 0) (hs : s.segv = false)
    (hok : StateOK s) (hh : s.hung = false) :
    ∃ j : Nat,
      (stageHeaders env (stageVersion env (stageEntity env s))).pulled.map Prod.snd
        = s.pulled.map Prod.snd ++ (nextTokens j s).map some
      ∧ (((stageHeaders env (stageVersion env (stageEntity env s))).herror = 400
            ∧ specRequest (nextTokens j s) = Outcome.reject j)
          ∨ ((stageHeaders env (stageVersion env (stageEntity env s))).herror = 0
            ∧ specRequest (nextTokens j s) = Outcome.accept j)) := by
  have hpp := pull_pulled Site.target { s with entity := [] }
  have hppb : (pull Site.target { s with entity := [] }).pulled
      = s.pulled ++ [(Site.target, some (tokenOf (pull Site.target { s with entity := [] })))] :=
    hpp
  have htk : ∀ j, nextTokens (j + 1) s
      = tokenOf (pull Site.target { s with entity := [] })
        :: nextTokens j (pull Site.target { s with entity := [] }) :=
    fun j => nextTokens_succ Site.target j { s with entity := [] }
  have hok1 : StateOK (pull Site.target { s with entity := [] }) :=
    (pull_step Site.target { s with entity := [] } hok).1
  rw [stageEntity_eq env s h0 hs]
  by_cases ht : tokenOf (pull Site.target { s with entity := [] }) = []
  · rw [if_neg (by rw [ht]; simp)]
    have hne : ({ reporterror env
        { pull Site.target { s with entity := [] } with herror := 400 } 400
        with emptycount := 0 } : State).herror ≠ 0 := by
      show (400 : Int) ≠ 0
      decide
    rw [stageVersion_skip env _ hne, stageHeaders_skip env _ hne]
    refine ⟨1, ?_, Or.inl ⟨rfl, ?_⟩⟩
    · show (pull Site.target { s with entity := [] }).pulled.map Prod.snd = _
      rw [hppb, htk 0, nextTokens_zero]
      simp
    · rw [htk 0, nextTokens_zero, ht, specRequest_bad_target]
  · rw [if_pos ht]
    obtain ⟨j, h1, h2⟩ := version_spec env
      { pull Site.target { s with entity := [] } with
        entity := tokenOf (pull Site.target { s with entity := [] }), emptycount := 0 }
      h0 hs hok1 hh rfl (tokenOf (pull Site.target { s with entity := [] })) ht
    have h1b : (stageHeaders env (stageVersion env
        { pull Site.target { s with entity := [] } with
          entity := tokenOf (pull Site.target { s with entity := [] }),
          emptycount := 0 })).pulled.map Prod.snd
        = (pull Site.target { s with entity := [] }).pulled.map Prod.snd
          ++ (nextTokens j (pull Site.target { s with entity := [] })).map some := h1
    have h2b : ((stageHeaders env (stageVersion env
        { pull Site.target { s with entity := [] } with
          entity := tokenOf (pull Site.target { s with entity := [] }),
          emptycount := 0 })).herror = 400
          ∧ specRequest (tokenOf (pull Site.target { s with entity := [] })
              :: nextTokens j (pull Site.target { s with entity := [] }))
            = Outcome.reject (j + 1))
        ∨ ((stageHeaders env (stageVersion env
        { pull Site.target { s with entity := [] } with
          entity := tokenOf (pull Site.target { s with entity := [] }),
          emptycount := 0 })).herror = 0
          ∧ specRequest (tokenOf (pull Site.target { s with entity := [] })
              :: nextTokens j (pull Site.target { s with entity := [] }))
            = Outcome.accept (j + 1)) := h2
    refine ⟨j + 1, ?_, ?_⟩
    · rw [h1b, hppb, htk j]
      simp
    · rw [htk j]
      exact h2b

/-- The first token of a connection is the one the method stage pulls. -/
theorem first_token (sock : Script) (fs : Files) (k : Nat) :
    requestTokens (k + 1) sock
      = tokenOf (pull Site.method (prime (initState sock fs)))
        :: nextTokens k (pull Site.method (prime (initState sock fs))) := by
  rw [← prime_tokens (k + 1) sock fs]
  exact nextTokens_succ Site.method k _

/-- A method stage that ends without error has pulled `GET`, `HEAD` or `POST`
as the first token of the connection. -/
theorem method_tokens (env : Env) (sock : Script) (fs : Files)
    (hm : (stageMethod env (prime (initState sock fs))).herror = 0) :
    (prime (initState sock fs)).herror = 0
    ∧ ∃ m : List Char,
        (m = "GET".toList ∨ m = "HEAD".toList ∨ m = "POST".toList)
        ∧ (stageMethod env (prime (initState sock fs))).pulled = [(Site.method, some m)]
        ∧ ∀ k, requestTokens (k + 1) sock
            = m :: nextTokens k (stageMethod env (prime (initState sock fs))) := by
  have hfr := prime_frame (initState sock fs)
  have hseg : (prime (initState sock fs)).segv = false := hfr.1
  have hpul : (prime (initState sock fs)).pulled = [] := hfr.2.1
  have h0 : (prime (initState sock fs)).herror = 0 := by
    by_contra hne
    have : stageMethod env (prime (initState sock fs)) = prime (initState sock fs) := by
      unfold stageMethod
      rw [if_neg (fun hh => hne hh.1)]
    rw [this] at hm
    exact hne hm
  have hpp := pull_pulled Site.method (prime (initState sock fs))
  rw [hpul, List.nil_append] at hpp
  refine ⟨h0, tokenOf (pull Site.method (prime (initState sock fs))), ?_⟩
  rw [stageMethod_eq env _ h0 hseg] at hm ⊢
  by_cases hG : tokenOf (pull Site.method (prime (initState sock fs))) = "GET".toList
  · rw [if_pos hG]
    exact ⟨Or.inl hG, hpp, fun k => first_token sock fs k⟩
  · rw [if_neg hG] at hm ⊢
    by_cases hH : tokenOf (pull Site.method (prime (initState sock fs))) = "HEAD".toList
    · rw [if_pos hH]
      exact ⟨Or.inr (Or.inl hH), hpp, fun k => first_token sock fs k⟩
    · rw [if_neg hH] at hm ⊢
      by_cases hP : tokenOf (pull Site.method (prime (initState sock fs))) = "POST".toList
      · rw [if_pos hP]
        exact ⟨Or.inr (Or.inr hP), hpp, fun k => first_token sock fs k⟩
      · rw [if_neg hP] at hm
        exact absurd hm (by
          show (405 : Int) ≠ 0
          decide)

/-- The parser against the specification, behind a valid method token: the
tokens pulled are the first tokens the reader returns on the connection, as
many as the specification's parser takes, and the parse ends with 400 exactly
when the specification rejects, and without error when it accepts. -/
theorem parse_spec (env : Env) (sock : Script) (fs : Files)
    (hm : (stageMethod env (prime (initState sock fs))).herror = 0) :
    ∃ j : Nat,
      (parseRequest env sock fs).pulled.map Prod.snd = (requestTokens (j + 1) sock).map some
      ∧ (((parseRequest env sock fs).herror = 400
            ∧ specRequest ((requestTokens (j + 1) sock).drop 1) = Outcome.reject j)
          ∨ ((parseRequest env sock fs).herror = 0
            ∧ specRequest ((requestTokens (j + 1) sock).drop 1) = Outcome.accept j)) := by
  obtain ⟨-, m, -, hpul, htk⟩ := method_tokens env sock fs hm
  obtain ⟨a1, a2⟩ := prime_ok_state sock fs
  obtain ⟨b1, b2⟩ := stageMethod_ok env _ a1 a2
  have hseg : (stageMethod env (prime (initState sock fs))).segv = false := by
    rw [stageMethod_segv]
    exact (prime_frame _).1
  obtain ⟨j, h1, h2⟩ := tail_spec env _ hm hseg b1 b2
  have hp : parseRequest env sock fs
      = stageHeaders env (stageVersion env (stageEntity env
          (stageMethod env (prime (initState sock fs))))) := rfl
  refine ⟨j, ?_, ?_⟩
  · rw [hp, h1, hpul, htk j]
    simp
  · rw [hp, htk j, List.drop_succ_cons, List.drop_zero]
    exact h2

/-- Whatever number of the connection's tokens the specification's parser is
given, once it decides, the worker's parse has decided the same and has pulled
just the tokens the specification took. -/
theorem spec_decides (env : Env) (sock : Script) (fs : Files)
    (hm : (stageMethod env (prime (initState sock fs))).herror = 0) (n u : Nat) :
    (specRequest ((requestTokens n sock).drop 1) = Outcome.reject u →
      (parseRequest env sock fs).herror = 400
      ∧ (parseRequest env sock fs).pulled.length = u + 1)
    ∧ (specRequest ((requestTokens n sock).drop 1) = Outcome.accept u →
      (parseRequest env sock fs).herror = 0
      ∧ (parseRequest env sock fs).pulled.length = u + 1) := by
  obtain ⟨j, h1, h2⟩ := parse_spec env sock fs hm
  have hlen : (parseRequest env sock fs).pulled.length = j + 1 := by
    have := congrArg List.length h1
    simpa [requestTokens_length] using this
  -- the two token lists decide alike
  have key : ∀ o : Outcome, o ≠ Outcome.more →
      specRequest ((requestTokens n sock).drop 1) = o →
      specRequest ((requestTokens (j + 1) sock).drop 1) = o := by
    intro o ho hn
    have hdec : specRequest ((requestTokens (j + 1) sock).drop 1) ≠ Outcome.more := by
      rcases h2 with ⟨-, e⟩ | ⟨-, e⟩ <;> rw [e] <;> simp
    by_cases hle : n ≤ j + 1
    · obtain ⟨ext, hext⟩ := requestTokens_append n (j + 1 - n) sock
      rw [show n + (j + 1 - n) = j + 1 by omega] at hext
      cases n with
      | zero =>
        rw [show requestTokens 0 sock = [] from rfl] at hn
        rw [← hn] at ho
        exact absurd (by simp [specRequest]) ho
      | succ n =>
        rw [hext, List.drop_append_of_le_length (by rw [requestTokens_length]; omega),
          specRequest_mono _ _ (by rw [hn]; exact ho)]
        exact hn
    · obtain ⟨ext, hext⟩ := requestTokens_append (j + 1) (n - (j + 1)) sock
      rw [show j + 1 + (n - (j + 1)) = n by omega] at hext
      rw [hext, List.drop_append_of_le_length (by rw [requestTokens_length]; omega),
        specRequest_mono _ _ hdec] at hn
      exact hn
  constructor
  · intro hr
    have := key _ (by simp) hr
    rcases h2 with ⟨e0, e⟩ | ⟨e0, e⟩
    · rw [e] at this
      injection this with hju
      exact ⟨e0, by rw [hlen, hju]⟩
    · rw [e] at this
      cases this
  · intro hr
    have := key _ (by simp) hr
    rcases h2 with ⟨e0, e⟩ | ⟨e0, e⟩
    · rw [e] at this
      cases this
    · rw [e] at this
      injection this with hju
      exact ⟨e0, by rw [hlen, hju]⟩

/-- The worker's final code is 400 exactly when the parse ended with 400. -/
theorem svc_400_iff (env : Env) (sock : Script) (fs : Files) :
    (svcthread env sock fs).herror = 400 ↔ (parseRequest env sock fs).herror = 400 := by
  have hsv : svcthread env sock fs = finish (respond env (parseRequest env sock fs)) := rfl
  constructor
  · intro h
    rw [hsv, finish_herror] at h
    rcases respond_herror env (parseRequest env sock fs) with e | e
    · rw [← e]; exact h
    · rw [e] at h
      exact absurd h (by decide)
  · intro h
    have hne : (parseRequest env sock fs).herror ≠ 0 := by rw [h]; decide
    rw [hsv, respond_skip env _ hne, finish_skip _ hne]
    exact h

theorem svc_pulled (env : Env) (sock : Script) (fs : Files) :
    (svcthread env sock fs).pulled = (parseRequest env sock fs).pulled := by
  have hsv : svcthread env sock fs = finish (respond env (parseRequest env sock fs)) := rfl
  rw [hsv, (finish_frame _).1, (respond_frame env _).1]

/-- The number the priming read leaves in `bytesread` is 0 exactly when the
read returned 0, end-of-stream. -/
theorem readLen_zero_iff (sock : Script) :
    readLen (readFd sock (svcbuffersize - 1)).1 = 0
      ↔ (readFd sock (svcbuffersize - 1)).1 = some [] := by
  have hl := readFd_length sock (svcbuffersize - 1)
  have e255 : svcbuffersize - 1 = 255 := rfl
  rw [e255] at hl ⊢
  cases hr : (readFd sock 255).1 with
  | none => simp [readLen]
  | some bs =>
    rw [hr] at hl
    have hb : bs.length ≤ 255 := hl
    have : bs.length % 2 ^ 64 = bs.length := Nat.mod_eq_of_lt (by omega)
    simp only [readLen, sizeBits, this, Option.some.injEq]
    exact List.length_eq_zero

theorem stageMethod_pulled (env : Env) (s : State) (h0 : s.herror = 0) (hs : s.segv = false) :
    (stageMethod env s).pulled = (pull Site.method s).pulled := by
  rw [stageMethod_eq env s h0 hs]
  split
  · rfl
  · split
    · rfl
    · split
      · rfl
      · rfl

/-- The method stage, split on the number the priming read leaves in
`bytesread`. -/
theorem method_stage_by_count (env : Env) (sock : Script) (fs : Files) :
    (readLen (readFd sock (svcbuffersize - 1)).1 = 0 →
      (svcthread env sock fs).pulled = [] ∧ (svcthread env sock fs).out = []
      ∧ (svcthread env sock fs).herror = -1)
    ∧ (readLen (readFd sock (svcbuffersize - 1)).1 ≠ 0 →
      ∃ tok : List Char,
        (stageMethod env (prime (initState sock fs))).pulled = [(Site.method, some tok)]
        ∧ ((svcthread env sock fs).herror = 405
            ↔ (tok ≠ "GET".toList ∧ tok ≠ "HEAD".toList ∧ tok ≠ "POST".toList))
        ∧ ((tok ≠ "GET".toList ∧ tok ≠ "HEAD".toList ∧ tok ≠ "POST".toList) →
            (svcthread env sock fs).out = "HTTP/1.0 405 Method Not Allowed\n\n".toList
            ∧ (svcthread env sock fs).closes = 1
            ∧ (svcthread env sock fs).pulled = [(Site.method, some tok)])
        ∧ (tok = "GET".toList →
            (stageMethod env (prime (initState sock fs))).methodtype = htcommand.GET
            ∧ (stageMethod env (prime (initState sock fs))).herror = 0
            ∧ (stageMethod env (prime (initState sock fs))).out = [])
        ∧ (tok = "HEAD".toList →
            (stageMethod env (prime (initState sock fs))).methodtype = htcommand.HEAD
            ∧ (stageMethod env (prime (initState sock fs))).herror = 0
            ∧ (stageMethod env (prime (initState sock fs))).out = [])
        ∧ (tok = "POST".toList →
            (stageMethod env (prime (initState sock fs))).methodtype = htcommand.POST
            ∧ (stageMethod env (prime (initState sock fs))).herror = 0
            ∧ (stageMethod env (prime (initState sock fs))).out = [])) := by
  have hfr := prime_frame (initState sock fs)
  have hseg : (prime (initState sock fs)).segv = false := hfr.1
  have hpul : (prime (initState sock fs)).pulled = [] := hfr.2.1
  have hout : (prime (initState sock fs)).out = [] := hfr.2.2.1
  constructor
  · intro h
    have h1 := prime_eof sock fs h
    have hne : (prime (initState sock fs)).herror ≠ 0 := by rw [h1.1]; decide
    have hm : stageMethod env (prime (initState sock fs)) = prime (initState sock fs) := by
      unfold stageMethod
      rw [if_neg (fun hh => hne hh.1)]
    unfold svcthread parseRequest
    rw [hm, rest_skip env _ hne]
    exact ⟨hpul, hout, h1.1⟩
  · intro h
    have h1 := prime_ok sock fs h
    have hcl : (prime (initState sock fs)).closes = 0 := h1.2
    refine ⟨tokenOf (pull Site.method (prime (initState sock fs))), ?_⟩
    have hsv : svcthread env sock fs
        = finish (respond env (stageHeaders env (stageVersion env (stageEntity env
            (stageMethod env (prime (initState sock fs))))))) := rfl
    have hlater := later_herror env (stageMethod env (prime (initState sock fs)))
    rw [← hsv] at hlater
    have hpp := pull_pulled Site.method (prime (initState sock fs))
    rw [hpul, List.nil_append] at hpp
    rw [stageMethod_eq env _ h1.1 hseg] at hlater ⊢
    by_cases hG : tokenOf (pull Site.method (prime (initState sock fs))) = "GET".toList
    · rw [if_pos hG] at hlater ⊢
      have h0 : (svcthread env sock fs).herror ≠ 405 := by
        rcases hlater with h | h | h <;> rw [h]
        · show (prime (initState sock fs)).herror ≠ 405
          rw [h1.1]; decide
        · decide
        · decide
      refine ⟨hpp, ?_, ?_, ?_, ?_, ?_⟩
      · exact ⟨fun h => absurd h h0, fun h => absurd hG h.1⟩
      · exact fun h => absurd hG h.1
      · exact fun _ => ⟨rfl, h1.1, hout⟩
      · intro h; rw [hG] at h; exact absurd h (by decide)
      · intro h; rw [hG] at h; exact absurd h (by decide)
    · rw [if_neg hG] at hlater ⊢
      by_cases hH : tokenOf (pull Site.method (prime (initState sock fs))) = "HEAD".toList
      · rw [if_pos hH] at hlater ⊢
        have h0 : (svcthread env sock fs).herror ≠ 405 := by
          rcases hlater with h | h | h <;> rw [h]
          · show (prime (initState sock fs)).herror ≠ 405
            rw [h1.1]; decide
          · decide
          · decide
        refine ⟨hpp, ?_, ?_, ?_, ?_, ?_⟩
        · exact ⟨fun h => absurd h h0, fun h => absurd hH h.2.1⟩
        · exact fun h => absurd hH h.2.1
        · exact fun h => absurd h hG
        · exact fun _ => ⟨rfl, h1.1, hout⟩
        · intro h; rw [hH] at h; exact absurd h (by decide)
      · rw [if_neg hH] at hlater ⊢
        by_cases hP : tokenOf (pull Site.method (prime (initState sock fs))) = "POST".toList
        · rw [if_pos hP] at hlater ⊢
          have h0 : (svcthread env sock fs).herror ≠ 405 := by
            rcases hlater with h | h | h <;> rw [h]
            · show (prime (initState sock fs)).herror ≠ 405
              rw [h1.1]; decide
            · decide
            · decide
          refine ⟨hpp, ?_, ?_, ?_, ?_, ?_⟩
          · exact ⟨fun h => absurd h h0, fun h => absurd hP h.2.2⟩
          · exact fun h => absurd hP h.2.2
          · exact fun h => absurd h hG
          · exact fun h => absurd h hH
          · exact fun _ => ⟨rfl, h1.1, hout⟩
        · rw [if_neg hP] at hlater ⊢
          have hne : (reporterror env
              { pull Site.method (prime (initState sock fs)) with
                methodtype := htcommand.INVALID, herror := 405 } 405).herror ≠ 0 := by
            show (405 : Int) ≠ 0
            decide
          have hfin : svcthread env sock fs
              = { reporterror env
                    { pull Site.method (prime (initState sock fs)) with
                      methodtype := htcommand.INVALID, herror := 405 } 405
                  with emptycount := 0 } := by
            rw [hsv, stageMethod_eq env _ h1.1 hseg, if_neg hG, if_neg hH, if_neg hP,
              rest_skip env _ hne]
          refine ⟨hpp, ?_, ?_, ?_, ?_, ?_⟩
          · exact ⟨fun _ => ⟨hG, hH, hP⟩, fun _ => by rw [hfin]; rfl⟩
          · intro _
            rw [hfin]
            refine ⟨?_, ?_, hpp⟩
            · show (prime (initState sock fs)).out ++ _ = _
              rw [hout]; rfl
            · show (prime (initState sock fs)).closes + 1 = 1
              rw [hcl]
          · exact fun h => absurd h hG
          · exact fun h => absurd h hH
          · exact fun h => absurd h hP

/-- The verdict 400 read off the trace of tokens pulled. -/
theorem bad_request_trace (env : Env) (sock : Script) (fs : Files)
    (hm : (stageMethod env (prime (initState sock fs))).herror = 0) :
    ((svcthread env sock fs).herror = 400 ↔
        ((svcthread env sock fs).pulled[1]? = some (Site.target, some [])
          ∨ (∃ v : List Char, (svcthread env sock fs).pulled[2]? = some (Site.version, some v)
              ∧ v ≠ [] ∧ v ≠ "HTTP/1.0".toList ∧ v ≠ "HTTP/1.1".toList)
          ∨ (∃ pre post : List Pull,
              (svcthread env sock fs).pulled = pre ++ hostTok :: emptyVal :: post)))
    ∧ ((svcthread env sock fs).herror = 400 →
        (svcthread env sock fs).out = line400
        ∧ (svcthread env sock fs).closes = 1
        ∧ ∃ pre : List Pull,
            (svcthread env sock fs).pulled = pre ++ [(Site.target, some [])]
            ∨ (∃ v : List Char, v ≠ [] ∧ v ≠ "HTTP/1.0".toList ∧ v ≠ "HTTP/1.1".toList
                ∧ (svcthread env sock fs).pulled = pre ++ [(Site.version, some v)])
            ∨ (svcthread env sock fs).pulled = pre ++ [hostTok, emptyVal])
    ∧ ((svcthread env sock fs).pulled[2]? = some (Site.version, some []) →
        (svcthread env sock fs).httpver = 10
        ∧ ((svcthread env sock fs).herror = 400 →
            ∃ pre : List Pull, (svcthread env sock fs).pulled = pre ++ [hostTok, emptyVal])) := by
  obtain ⟨m, -, hpul, hout, hcl, hseg, -, -⟩ := method_ok_state env sock fs hm
  have hsv : svcthread env sock fs
      = finish (respond env (stageHeaders env (stageVersion env (stageEntity env
          (stageMethod env (prime (initState sock fs))))))) := rfl
  have hbad : ∀ v : List Char, ¬ goodVersion v →
      v ≠ [] ∧ v ≠ "HTTP/1.0".toList ∧ v ≠ "HTTP/1.1".toList := fun v hv =>
    ⟨fun h => hv (Or.inl h), fun h => hv (Or.inr (Or.inl h)), fun h => hv (Or.inr (Or.inr h))⟩
  have hskip : ∀ p : State, p.herror = 400 → finish (respond env p) = p := by
    intro p hp
    have hne : p.herror ≠ 0 := by rw [hp]; decide
    rw [respond_skip env p hne, finish_skip p hne]
  rcases parse_tail_cases env _ hm hseg with
    ⟨h1, h2, h3, h4⟩ | ⟨t, v, ht, hv, h1, h2, h3, h4⟩
      | ⟨t, v, pre, ht, hv, h1, h5, h2, h3, h4⟩
      | ⟨t, v, ext, ht, hv, h1, hE, hH, h2, h3, h4, -, -, -, -, -, h5⟩
  · -- empty target
    rw [hsv, hskip _ h2, h1, h2, h3, h4, hpul, hout, hcl]
    refine ⟨⟨fun _ => Or.inl rfl, fun _ => rfl⟩, fun _ => ⟨rfl, rfl, _, Or.inl rfl⟩, ?_⟩
    intro h
    simp at h
  · -- bad version
    rw [hsv, hskip _ h2, h1, h2, h3, h4, hpul, hout, hcl]
    refine ⟨⟨fun _ => Or.inr (Or.inl ⟨v, rfl, hbad v hv⟩), fun _ => rfl⟩,
      fun _ => ⟨rfl, rfl, [(Site.method, some m), (Site.target, some t)],
        Or.inr (Or.inl ⟨v, (hbad v hv).1, (hbad v hv).2.1, (hbad v hv).2.2, rfl⟩)⟩, ?_⟩
    intro h
    simp only [List.cons_append, List.nil_append, List.getElem?_cons_succ,
      List.getElem?_cons_zero, Option.some.injEq, Prod.mk.injEq, true_and] at h
    exact absurd (Or.inl h) hv
  · -- empty Host value
    rw [hsv, hskip _ h2, h1, h2, h3, h4, h5, hpul, hout, hcl]
    have hend : [(Site.method, some m)]
          ++ (Site.target, some t) :: (Site.version, some v) :: (pre ++ [hostTok, emptyVal])
        = ((Site.method, some m) :: (Site.target, some t) :: (Site.version, some v) :: pre)
          ++ [hostTok, emptyVal] := by simp
    refine ⟨⟨fun _ => Or.inr (Or.inr ⟨_, [], hend⟩), fun _ => rfl⟩,
      fun _ => ⟨rfl, rfl, _, Or.inr (Or.inr hend)⟩, ?_⟩
    intro h
    simp only [List.cons_append, List.nil_append, List.getElem?_cons_succ,
      List.getElem?_cons_zero, Option.some.injEq, Prod.mk.injEq, true_and] at h
    refine ⟨by rw [h]; rfl, fun _ => ⟨_, hend⟩⟩
  · -- no parse error
    have hfin : (svcthread env sock fs).herror ≠ 400 := by
      rw [hsv, finish_herror]
      rcases respond_herror env (stageHeaders env (stageVersion env (stageEntity env
          (stageMethod env (prime (initState sock fs)))))) with h | h
      · rw [h, h2]; decide
      · rw [h]; decide
    have hP : (svcthread env sock fs).pulled
        = (Site.method, some m) :: (Site.target, some t) :: (Site.version, some v) :: ext := by
      rw [hsv, (finish_frame _).1, (respond_frame env _).1, h1, hpul]
      rfl
    have hV : (svcthread env sock fs).httpver = if v = "HTTP/1.1".toList then 11 else 10 := by
      rw [hsv, (finish_frame _).2.1, (respond_frame env _).2.1, h5]
    rw [hP]
    refine ⟨⟨fun h => absurd h hfin, ?_⟩, fun h => absurd h hfin, ?_⟩
    · rintro (h | ⟨w, h, hw⟩ | ⟨pre, post, h⟩)
      · simp only [List.getElem?_cons_succ, List.getElem?_cons_zero, Option.some.injEq,
          Prod.mk.injEq, true_and] at h
        exact absurd h ht
      · simp only [List.getElem?_cons_succ, List.getElem?_cons_zero, Option.some.injEq,
          Prod.mk.injEq, true_and] at h
        subst h
        rcases hv with h | h | h
        · exact absurd h hw.1
        · exact absurd h hw.2.1
        · exact absurd h hw.2.2
      · have hx : hostErrIn ((Site.method, some m) :: (Site.target, some t)
            :: (Site.version, some v) :: ext) = true := (hostErrIn_iff _).2 ⟨pre, post, h⟩
        rw [hostErrIn_cons _ _ (by simp), hostErrIn_cons _ _ (by simp),
          hostErrIn_cons _ _ (by simp), hE] at hx
        exact absurd hx (by decide)
    · intro h
      simp only [List.getElem?_cons_succ, List.getElem?_cons_zero, Option.some.injEq,
        Prod.mk.injEq, true_and] at h
      refine ⟨by rw [hV, h]; rfl, fun h => absurd h hfin⟩

theorem readFd_avail (s : List Char) (m : Nat) :
    readFd (avail s) m = (some (s.take m), avail (s.drop m)) := by
  unfold avail readFd
  by_cases hm : m = 0
  · subst hm
    simp
  · rw [if_neg hm]
    by_cases hs : s = []
    · subst hs
      simp
    · rw [if_neg hs]
      simp only []
      by_cases hl : s.length ≤ m
      · rw [if_pos hl, List.take_of_length_le hl, List.drop_of_length_le hl]
        simp
      · rw [if_neg hl]
        have : s.drop m ≠ [] := by
          intro h
          have := congrArg List.length h
          simp at this
          omega
        rw [if_neg this]

/-- With all bytes available, the tokens of successive calls are the fields of
the stream, as long as every field with its delimiter fits the array. -/
theorem fileseps_avail (delim : List Char) (k : Nat) :
    ∀ (u s buf : List Char) (i : Nat) (z : List Char),
      buf.drop i = u ++ NUL :: z → NUL ∉ u → NUL ∉ s →
      (∀ p ∈ (fieldsD delim (u ++ s)).take k, p.1.length + 1 ≤ buf.length - 1) →
      k ≤ countDelims delim (u ++ s) →
      fileseps k (avail s) buf buf.length (some i) delim
        = ((fieldsD delim (u ++ s)).take k).map Prod.fst := by
  induction k with
  | zero => intro u s buf i z _ _ _ _ _; rfl
  | succ k ih =>
    intro u s buf i z hb hu hs hfl hk
    rcases split_first delim u hu with hcl | ⟨tok, d, rest, e1, e2, e3⟩
    · -- nothing but a partial token is left: the call reads
      rcases split_first delim s hs with hcs | ⟨r, d, s2, g1, g2, g3⟩
      · have hall : Clean delim (u ++ s) := by
          intro x hx
          rcases List.mem_append.1 hx with h | h
          · exact hcl x h
          · exact hcs x h
        rw [countDelims_clean delim _ hall] at hk
        exact absurd hk (by omega)
      · have hclean : Clean delim (u ++ r) := by
          intro x hx
          rcases List.mem_append.1 hx with h | h
          · exact hcl x h
          · exact g2 x h
        have hnul : d ≠ NUL := by
          intro h
          apply hs
          rw [g1, h]
          simp
        have hstream : u ++ s = (u ++ r) ++ d :: s2 := by
          rw [g1]
          simp
        rw [hstream, fieldsD_hit delim _ d _ hclean g3] at hfl ⊢
        rw [hstream, countDelims_hit delim _ d _ hclean g3] at hk
        have hfirst : (u ++ r).length + 1 ≤ buf.length - 1 :=
          hfl (u ++ r, some d) (by simp)
        rw [List.length_append] at hfirst
        have hlen : i + (u.length + (z.length + 1)) = buf.length := by
          have := congrArg List.length hb
          simp at this
          omega
        obtain ⟨e, he⟩ : ∃ e, buf.length - 1 - u.length = r.length + (e + 1) :=
          ⟨buf.length - 1 - u.length - r.length - 1, by omega⟩
        obtain ⟨c2, s3, hc2, hs3, hs2, hc2len⟩ : ∃ c2 s3 : List Char,
            s2.take e = c2 ∧ s2.drop e = s3 ∧ c2 ++ s3 = s2 ∧ c2.length ≤ e :=
          ⟨_, _, rfl, rfl, List.take_append_drop _ _, List.length_take_le _ _⟩
        have htake : s.take (buf.length - 1 - u.length) = r ++ d :: c2 := by
          rw [he, g1, List.take_append, List.take_succ_cons, hc2]
        have hdrop : s.drop (buf.length - 1 - u.length) = s3 := by
          rw [he, g1, List.drop_append, List.drop_succ_cons, hs3]
        obtain ⟨m, hm⟩ : ∃ m, buf.length - u.length - (r.length + (c2.length + 1)) = m + 1 :=
          ⟨buf.length - u.length - (r.length + (c2.length + 1)) - 1, by omega⟩
        have hview : (refilled buf.length u (r ++ d :: c2)).drop 0
            = (u ++ r) ++ d :: (c2 ++ NUL :: List.replicate m NUL) := by
          simp [refilled, hm, List.replicate_succ]
        have hfs := filesep_pending (avail s) delim buf i u z hb hcl
        rw [readFd_avail] at hfs
        simp only [readData, Option.getD_some] at hfs
        rw [htake, hdrop, strsep_hit delim _ 0 (u ++ r) d _ hview hclean g3 hnul] at hfs
        have hfld : (filesep (avail s) buf buf.length (some i) delim).field = some 0 := by
          rw [hfs]
        rw [fileseps_succ k _ _ _ _ _ 0 hfld, hfs]
        simp only []
        have h1 := drop_set_of_drop _ 0 (u ++ r) d _ hview
        have h2 := drop_set_after _ 0 (u ++ r) d _ hview
        have hbl : ((refilled buf.length u (r ++ d :: c2)).set
              (0 + (u ++ r).length) NUL).length = buf.length := by
          simp [refilled]
          omega
        have hn2 : NUL ∉ s2 := by
          intro h
          apply hs
          rw [g1]
          simp [h]
        have hnc2 : NUL ∉ c2 := by
          intro h
          apply hn2
          rw [← hs2]
          simp [h]
        have hns3 : NUL ∉ s3 := by
          intro h
          apply hn2
          rw [← hs2]
          simp [h]
        have := ih c2 s3 _ _ _ h2 hnc2 hns3
          (by
            rw [hbl, hs2]
            intro p hp
            exact hfl p (by rw [List.take_succ_cons]; exact List.mem_cons_of_mem _ hp))
          (by rw [hs2]; omega)
        rw [hbl, hs2] at this
        rw [this, cstrAt_of_drop delim _ 0 (u ++ r) _ hclean h1]
        rfl
    · -- a complete token is left in the array
      have hview : buf.drop i = tok ++ d :: (rest ++ NUL :: z) := by
        rw [hb, e1]
        simp
      have hnul : d ≠ NUL := by
        intro h
        apply hu
        rw [e1, h]
        simp
      have hfs := filesep_hit (avail s) delim buf buf.length i tok d _ hview e2 e3 hnul
      have hfld : (filesep (avail s) buf buf.length (some i) delim).field = some i := by
        rw [hfs]
      rw [fileseps_succ k _ _ _ _ _ i hfld, hfs]
      simp only []
      have h1 := drop_set_of_drop _ i tok d _ hview
      have h2 := drop_set_after _ i tok d _ hview
      have hbl : (buf.set (i + tok.length) NUL).length = buf.length := by simp
      have hstream : u ++ s = tok ++ d :: (rest ++ s) := by
        rw [e1]
        simp
      rw [hstream, fieldsD_hit delim _ d _ e2 e3] at hfl ⊢
      rw [hstream, countDelims_hit delim _ d _ e2 e3] at hk
      have hn2 : NUL ∉ rest := by
        intro h
        apply hu
        rw [e1]
        simp [h]
      have := ih rest s _ _ _ h2 hn2 hs
        (by
          rw [hbl]
          intro p hp
          exact hfl p (by rw [List.take_succ_cons]; exact List.mem_cons_of_mem _ hp))
        (by omega)
      rw [hbl] at this
      rw [this, cstrAt_of_drop delim _ i tok _ e2 h1]
      rfl

/-- A connection whose first tokens are `GET`, a target and a version and
header section the specification's parser accepts is parsed without error,
as a `GET` of that target. -/
theorem get_from_tokens (env : Env) (sock : Script) (fs : Files) (t : List Char)
    (rest : List (List Char)) (n u : Nat)
    (hr : (readFd sock (svcbuffersize - 1)).1 ≠ some [])
    (htok : requestTokens n sock = "GET".toList :: t :: rest)
    (hacc : specRequest (t :: rest) = Outcome.accept u) :
    (parseRequest env sock fs).herror = 0
    ∧ (parseRequest env sock fs).methodtype = htcommand.GET
    ∧ (parseRequest env sock fs).entity = t := by
  have hr2 : readLen (readFd sock (svcbuffersize - 1)).1 ≠ 0 :=
    fun e => hr ((readLen_zero_iff sock).1 e)
  have hn : 2 ≤ n := by
    have := congrArg List.length htok
    rw [requestTokens_length] at this
    simp at this
    omega
  obtain ⟨e2, he2⟩ := requestTokens_append 2 (n - 2) sock
  rw [show 2 + (n - 2) = n by omega, htok] at he2
  have h2 : requestTokens 2 sock = ["GET".toList, t] := by
    have hl := requestTokens_length 2 sock
    have := congrArg (List.take 2) he2
    rw [List.take_left' hl] at this
    rw [← this]
    rfl
  -- the method stage
  have hp0 := (prime_ok sock fs hr2).1
  have hseg : (prime (initState sock fs)).segv = false := (prime_frame (initState sock fs)).1
  have hft := first_token sock fs 1
  rw [h2] at hft
  have htk : tokenOf (pull Site.method (prime (initState sock fs))) = "GET".toList := by
    injection hft with a _
    exact a.symm
  have hm : (stageMethod env (prime (initState sock fs))).herror = 0 := by
    rw [stageMethod_eq env _ hp0 hseg, if_pos htk]
    exact hp0
  have hdrop : (requestTokens n sock).drop 1 = t :: rest := by rw [htok]; rfl
  have h0 := ((spec_decides env sock fs hm n u).2 (by rw [hdrop]; exact hacc)).1
  obtain ⟨j, hj, -⟩ := parse_spec env sock fs hm
  obtain ⟨-, -, -, -, -, -, -, -, m, v, ext, hpul, hmm, -, -⟩ := parse_ok_summary env sock fs h0
  have hj3 : 2 ≤ j + 1 := by
    have := congrArg List.length hj
    rw [hpul] at this
    simp [requestTokens_length] at this
    omega
  obtain ⟨e3, he3⟩ := requestTokens_append 2 (j + 1 - 2) sock
  rw [show 2 + (j + 1 - 2) = j + 1 by omega, h2] at he3
  rw [hpul, he3] at hj
  simp only [List.map_cons, List.cons_append, List.nil_append, List.cons.injEq,
    Option.some.injEq] at hj
  obtain ⟨hm1, hm2, -⟩ := hj
  refine ⟨h0, ?_, hm2⟩
  rcases hmm with ⟨-, h⟩ | ⟨a, -⟩ | ⟨a, -⟩
  · exact h
  · rw [hm1] at a
    exact absurd a (by decide)
  · rw [hm1] at a
    exact absurd a (by decide)

/-- The tokens of a connection whose reads are each returned whole, every one
after the first holding a delimiter and fitting the array. -/
theorem requestTokens_reads (k : Nat) (c1 : List Char) (cs : List (List Char))
    (h0 : c1 ≠ []) (hl : c1.length ≤ svcbuffersize - 1) (hn : NUL ∉ c1)
    (hf : Fits svcbuffersize delims c1 cs)
    (hk : k ≤ countDelims delims (c1 ++ cs.flatten)) :
    requestTokens k ((c1 :: cs).map some)
      = ((fieldsD delims (c1 ++ cs.flatten)).take k).map Prod.fst := by
  have hr : readFd ((c1 :: cs).map some) (svcbuffersize - 1) = (some c1, cs.map some) :=
    readFd_fits c1 _ _ h0 hl
  have e255 : svcbuffersize - 1 = 255 := rfl
  rw [e255] at hl
  obtain ⟨m, hm⟩ : ∃ m, svcbuffersize - c1.length = m + 1 :=
    ⟨svcbuffersize - c1.length - 1, by
      show 256 - c1.length = 256 - c1.length - 1 + 1
      omega⟩
  have hb : writeAt (List.replicate svcbuffersize NUL) 0 c1
      = c1 ++ NUL :: List.replicate m NUL := by
    rw [writeAt_zero_replicate _ _ (by show c1.length ≤ 256; omega), hm]
    rfl
  have hlen : (writeAt (List.replicate svcbuffersize NUL) 0 c1).length = svcbuffersize := by
    rw [writeAt_length]
    simp
  unfold requestTokens primed
  simp only [hr, readData, Option.getD_some]
  have := fileseps_fields delims k c1 cs (writeAt (List.replicate svcbuffersize NUL) 0 c1) 0
    (List.replicate m NUL) (by rw [List.drop_zero, hb]) hn (by rw [hlen]; exact hf) hk
  rw [hlen] at this
  exact this

/-- The tokens of a connection on which all bytes are available, as long as
every field with its delimiter fits the array. -/
theorem requestTokens_avail (k : Nat) (s : List Char) (hn : NUL ∉ s)
    (hfl : ∀ p ∈ (fieldsD delims s).take k, p.1.length + 1 ≤ svcbuffersize - 1)
    (hk : k ≤ countDelims delims s) :
    requestTokens k (avail s)
      = ((fieldsD delims s).take k).map Prod.fst := by
  have e255 : svcbuffersize - 1 = 255 := rfl
  have hl : (s.take 255).length ≤ 255 := List.length_take_le _ _
  obtain ⟨m, hm⟩ : ∃ m, svcbuffersize - (s.take 255).length = m + 1 :=
    ⟨svcbuffersize - (s.take 255).length - 1, by
      show 256 - (s.take 255).length = 256 - (s.take 255).length - 1 + 1
      omega⟩
  have hb : writeAt (List.replicate svcbuffersize NUL) 0 (s.take 255)
      = s.take 255 ++ NUL :: List.replicate m NUL := by
    rw [writeAt_zero_replicate _ _ (by show (s.take 255).length ≤ 256; omega), hm]
    rfl
  have hlen : (writeAt (List.replicate svcbuffersize NUL) 0 (s.take 255)).length
      = svcbuffersize := by
    rw [writeAt_length]
    simp
  unfold requestTokens primed
  rw [e255, readFd_avail]
  simp only [readData, Option.getD_some]
  have hs : s.take 255 ++ s.drop 255 = s := List.take_append_drop _ _
  have := fileseps_avail delims k (s.take 255) (s.drop 255)
    (writeAt (List.replicate svcbuffersize NUL) 0 (s.take 255)) 0
    (List.replicate m NUL) (by rw [List.drop_zero, hb])
    (fun h => hn (List.mem_of_mem_take h)) (fun h => hn (List.mem_of_mem_drop h))
    (by rw [hlen, hs]; exact hfl) (by rw [hs]; exact hk)
  rw [hlen, hs] at this
  exact this

/-- The request for the file `f`. -/
theorem req_shape (f : List Char) :
    "GET /".toList ++ f ++ " HTTP/1.0\r\n\r\n".toList
      = "GET".toList ++ ' ' :: (('/' :: f) ++ ' ' :: ("HTTP/1.0".toList
          ++ '\r' :: ([] ++ '\n' :: ([] ++ '\r' :: ([] ++ '\n' :: []))))) := by
  simp

theorem clean_slash (f : List Char) (hc : Clean delims f) : Clean delims ('/' :: f) := by
  intro c hcm
  rcases List.mem_cons.1 hcm with h | h
  · rw [h]; decide
  · exact hc c h

/-- The fields of the request for `f`, and the number of its delimiters. -/
theorem req_fields (f : List Char) (hc : Clean delims f) :
    fieldsD delims ("GET /".toList ++ f ++ " HTTP/1.0\r\n\r\n".toList)
      = [("GET".toList, some ' '), ('/' :: f, some ' '), ("HTTP/1.0".toList, some '\r'),
          ([], some '\n'), ([], some '\r'), ([], some '\n'), ([], none)]
    ∧ countDelims delims ("GET /".toList ++ f ++ " HTTP/1.0\r\n\r\n".toList) = 6
    ∧ NUL ∉ "GET /".toList ++ f ++ " HTTP/1.0\r\n\r\n".toList := by
  have hE : Clean delims ([] : List Char) := fun x hx => by simp at hx
  refine ⟨?_, ?_, ?_⟩
  · rw [req_shape, fieldsD_hit delims _ ' ' _ (by decide) (by decide),
      fieldsD_hit delims _ ' ' _ (clean_slash f hc) (by decide),
      fieldsD_hit delims _ '\r' _ (by decide) (by decide),
      fieldsD_hit delims _ '\n' _ hE (by decide),
      fieldsD_hit delims _ '\r' _ hE (by decide),
      fieldsD_hit delims _ '\n' _ hE (by decide)]
    rfl
  · rw [req_shape, countDelims_hit delims _ ' ' _ (by decide) (by decide),
      countDelims_hit delims _ ' ' _ (clean_slash f hc) (by decide),
      countDelims_hit delims _ '\r' _ (by decide) (by decide),
      countDelims_hit delims _ '\n' _ hE (by decide),
      countDelims_hit delims _ '\r' _ hE (by decide),
      countDelims_hit delims _ '\n' _ hE (by decide)]
    rfl
  · intro h
    rcases List.mem_append.1 h with h | h
    · rcases List.mem_append.1 h with h | h
      · revert h
        decide
      · exact (hc NUL h).1 rfl
    · revert h
      decide
theorem filesep_pending_n (fd : Script) (delim buf : List Char) (n i : Nat) (p z : List Char)
    (hn : buf.length = n) (h : buf.drop i = p ++ NUL :: z) (hc : Clean delim p) :
    filesep fd buf n (some i) delim
      = ⟨(strsep (refilled n p (readData (readFd fd (n - 1 - p.length)).1)) (some 0) delim).tok,
          (readFd fd (n - 1 - p.length)).2,
          (strsep (refilled n p (readData (readFd fd (n - 1 - p.length)).1)) (some 0) delim).buf,
          (strsep (refilled n p (readData (readFd fd (n - 1 - p.length)).1)) (some 0)
            delim).stringp⟩ := by
  subst hn
  exact filesep_pending fd delim buf i p z h hc

theorem filesep_null_n (fd : Script) (delim buf : List Char) (n : Nat) (hn : buf.length = n) :
    filesep fd buf n none delim
      = ⟨(strsep (refilled n [] (readData (readFd fd (n - 1)).1)) (some 0) delim).tok,
          (readFd fd (n - 1)).2,
          (strsep (refilled n [] (readData (readFd fd (n - 1)).1)) (some 0) delim).buf,
          (strsep (refilled n [] (readData (readFd fd (n - 1)).1)) (some 0) delim).stringp⟩ := by
  subst hn
  exact filesep_null fd delim buf

/-- With the cursor unset, the rest of the request line and the blank line
are read into the cleared array. -/
theorem tokens_after_long_name (buf : List Char) (hn : buf.length = svcbuffersize) :
    fileseps 4 [some " HTTP/1.0\r\n\r\n".toList] buf svcbuffersize none delims
      = [[], "HTTP/1.0".toList, [], []] := by
  rw [fileseps, filesep_null_n _ _ _ _ hn]
  decide

/-- The tokens of the request for a name of 254 bytes, all bytes available:
the name just fits the array, its token ends at the array's end with the
cursor unset, and the next call starts on the space before the version, so
that an empty token comes before `HTTP/1.0`. -/
theorem requestTokens_254 (f : List Char) (hc : Clean delims f) (hl : f.length = 254) :
    requestTokens 6 (avail ("GET /".toList ++ f ++ " HTTP/1.0\r\n\r\n".toList))
      = ["GET".toList, '/' :: f, [], "HTTP/1.0".toList, [], []] := by
  obtain ⟨f1, f2, hf, hl1, hl2⟩ : ∃ f1 f2 : List Char,
      f = f1 ++ f2 ∧ f1.length = 250 ∧ f2.length = 4 :=
    ⟨f.take 250, f.drop 250, (List.take_append_drop _ _).symm, by simp; omega, by simp; omega⟩
  have hc1 : Clean delims ('/' :: f1) := by
    apply clean_slash
    intro c h
    exact hc c (by rw [hf]; exact List.mem_append_left _ h)
  have hreq : "GET /".toList ++ f ++ " HTTP/1.0\r\n\r\n".toList
      = ("GET /".toList ++ f1) ++ (f2 ++ " HTTP/1.0\r\n\r\n".toList) := by
    rw [hf]
    simp
  have hpl : ("GET /".toList ++ f1).length = 255 := by
    rw [List.length_append, hl1]
    rfl
  have e255 : svcbuffersize - 1 = 255 := rfl
  have hb : writeAt (List.replicate svcbuffersize NUL) 0 ("GET /".toList ++ f1)
      = "GET".toList ++ ' ' :: (('/' :: f1) ++ NUL :: []) := by
    rw [writeAt_zero_replicate _ _ (by rw [hpl]; decide), hpl]
    have : List.replicate (svcbuffersize - 255) NUL = [NUL] := rfl
    rw [this]
    simp
  unfold requestTokens primed
  rw [e255, readFd_avail, hreq, List.take_left' hpl, List.drop_left' hpl]
  simp only [readData, Option.getD_some]
  rw [hb]
  -- first call: `GET`
  have hv0 : ("GET".toList ++ ' ' :: (('/' :: f1) ++ NUL :: [])).drop 0
      = "GET".toList ++ ' ' :: (('/' :: f1) ++ NUL :: []) := rfl
  have hfs1 := filesep_hit (avail (f2 ++ " HTTP/1.0\r\n\r\n".toList)) delims _ svcbuffersize 0
    "GET".toList ' ' _ hv0 (by decide) (by decide) (by decide)
  have hfld1 : (filesep (avail (f2 ++ " HTTP/1.0\r\n\r\n".toList))
      ("GET".toList ++ ' ' :: (('/' :: f1) ++ NUL :: [])) svcbuffersize (some 0) delims).field
        = some 0 := by rw [hfs1]
  rw [fileseps_succ 5 _ _ _ _ _ 0 hfld1, hfs1]
  simp only []
  have h1 := drop_set_of_drop _ 0 "GET".toList ' ' _ hv0
  have h2 := drop_set_after _ 0 "GET".toList ' ' _ hv0
  rw [cstrAt_of_drop delims _ 0 "GET".toList _ (by decide) h1]
  -- second call: the name, completed by a read of four bytes
  have hlen1 : (("GET".toList ++ ' ' :: (('/' :: f1) ++ NUL :: [])).set
      (0 + "GET".toList.length) NUL).length = svcbuffersize := by
    rw [List.length_set]
    simp [hl1]
  have hcnt : svcbuffersize - 1 - ('/' :: f1).length = 4 := by
    rw [List.length_cons, hl1]
    rfl
  have hfs2 := filesep_pending_n (avail (f2 ++ " HTTP/1.0\r\n\r\n".toList)) delims _
    svcbuffersize _ ('/' :: f1) [] hlen1 h2 hc1
  rw [hcnt, readFd_avail, List.take_left' hl2, List.drop_left' hl2] at hfs2
  simp only [readData, Option.getD_some] at hfs2
  have hrf : refilled svcbuffersize ('/' :: f1) f2 = ('/' :: f) ++ NUL :: [] := by
    unfold refilled
    rw [List.length_cons, hl1, hl2, hf]
    have : List.replicate (svcbuffersize - (250 + 1) - 4) NUL = [NUL] := rfl
    rw [this]
    simp
  have hv2 : (('/' :: f) ++ NUL :: []).drop 0 = ('/' :: f) ++ NUL :: [] := rfl
  rw [hrf, strsep_miss delims _ 0 ('/' :: f) [] hv2 (clean_slash f hc)] at hfs2
  have hfld2 : (filesep (avail (f2 ++ " HTTP/1.0\r\n\r\n".toList))
      (("GET".toList ++ ' ' :: (('/' :: f1) ++ NUL :: [])).set (0 + "GET".toList.length) NUL)
      svcbuffersize (some (0 + "GET".toList.length + 1)) delims).field = some 0 := by rw [hfs2]
  rw [fileseps_succ 4 _ _ _ _ _ 0 hfld2, hfs2]
  simp only []
  rw [cstrAt_of_drop delims _ 0 ('/' :: f) [] (clean_slash f hc) hv2]
  -- the remaining calls
  have hlen2 : (('/' :: f) ++ NUL :: []).length = svcbuffersize := by
    simp [hl]
  have : avail " HTTP/1.0\r\n\r\n".toList = [some " HTTP/1.0\r\n\r\n".toList] := by decide
  rw [this, tokens_after_long_name _ hlen2]

/-- A connection whose first tokens are `GET`, `/f` and a version and header
section the specification's parser accepts is answered with the header block
and the bytes of `./f`. -/
theorem served_of_tokens (env : Env) (sock : Script) (fs : Files) (f : List Char)
    (filestat : FileNode) (rest : List (List Char)) (n u : Nat)
    (hl : fs.lookup ("./".toList ++ f) = some filestat)
    (hr : (readFd sock (svcbuffersize - 1)).1 ≠ some [])
    (htok : requestTokens n sock = "GET".toList :: ('/' :: f) :: rest)
    (hacc : specRequest (('/' :: f) :: rest) = Outcome.accept u) :
    (svcthread env sock fs).out
      = headerBytes env filestat htcommand.GET ("./".toList ++ f) ++ filestat.content := by
  obtain ⟨h0, hmt, hent⟩ := get_from_tokens env sock fs ('/' :: f) rest n u hr htok hacc
  have hso := (success_out env sock fs filestat h0 (by rw [hent]; exact hl)).1
  rw [hso, hmt, hent, if_pos rfl]
  rfl

/-- The specification's parser on the tokens of the request line and the
blank line. -/
theorem spec_accepts_plain (t : List Char) (ht : t ≠ []) :
    specRequest [t, "HTTP/1.0".toList, [], []] = Outcome.accept 4 := by
  rw [specRequest_cons2 _ _ _ ht, if_neg (by decide), if_pos (Or.inl rfl),
    specHeaders_empty _ _ _ (by decide), specHeaders_empty _ _ _ (by decide), specHeaders_nil]
  rfl

theorem spec_accepts_shifted (t : List Char) (ht : t ≠ []) :
    specRequest [t, [], "HTTP/1.0".toList, [], []] = Outcome.accept 5 := by
  rw [specRequest_cons2 _ _ _ ht, if_pos rfl,
    specHeaders_other _ _ _ _ (by decide) (by decide) (by decide),
    specHeaders_empty _ _ _ (by decide), specHeaders_empty _ _ _ (by decide), specHeaders_nil]
  rfl

/-- The tokens of the request for `f` delivered in reads that each hold a
delimiter and fit. -/
theorem tokens_of_reads (f : List Char) (hc : Clean delims f) (sock : Script)
    (hd : InReads ("GET /".toList ++ f ++ " HTTP/1.0\r\n\r\n".toList) sock) :
    (readFd sock (svcbuffersize - 1)).1 ≠ some []
    ∧ requestTokens 5 sock = ["GET".toList, '/' :: f, "HTTP/1.0".toList, [], []] := by
  obtain ⟨c1, cs, hs, h0, hl, hf, hreq⟩ := hd
  obtain ⟨hfd, hcd, hnul⟩ := req_fields f hc
  subst hs
  constructor
  · rw [show readFd ((c1 :: cs).map some) (svcbuffersize - 1) = (some c1, cs.map some) from
      readFd_fits c1 _ _ h0 hl]
    intro h
    injection h with h
    exact h0 h
  · rw [requestTokens_reads 5 c1 cs h0 hl
        (fun h => hnul (by rw [← hreq]; exact List.mem_append_left _ h)) hf
        (by rw [hreq, hcd]; decide), hreq, hfd]
    rfl

/-- The tokens of the request for `f`, all bytes available, for a name of at
most 253 bytes. -/
theorem tokens_of_avail (f : List Char) (hc : Clean delims f) (hl : f.length ≤ 253) :
    requestTokens 5 (avail ("GET /".toList ++ f ++ " HTTP/1.0\r\n\r\n".toList))
      = ["GET".toList, '/' :: f, "HTTP/1.0".toList, [], []] := by
  obtain ⟨hfd, hcd, hnul⟩ := req_fields f hc
  rw [requestTokens_avail 5 _ hnul (by
      rw [hfd]
      intro p hp
      have e255 : svcbuffersize - 1 = 255 := rfl
      rw [e255]
      simp only [List.take_succ_cons, List.take_zero, List.mem_cons, List.mem_nil_iff,
        or_false] at hp
      rcases hp with h | h | h | h | h <;> (rw [h]; simp; try omega))
    (by rw [hcd]; decide), hfd]
  rfl

theorem avail_req (f : List Char) :
    avail ("GET /".toList ++ f ++ " HTTP/1.0\r\n\r\n".toList)
      = [some ("GET /".toList ++ f ++ " HTTP/1.0\r\n\r\n".toList)] := by
  unfold avail
  rw [if_neg (by simp)]

theorem readFd_req (f : List Char) :
    (readFd [some ("GET /".toList ++ f ++ " HTTP/1.0\r\n\r\n".toList)]
      (svcbuffersize - 1)).1 ≠ some [] := by
  rw [← avail_req, readFd_avail]
  simp

/-! ## The claims -/

/-- C1, as amended.  Let `f` be the name of an existing file, free of
spaces, CR, LF and NUL.  The worker's response is the header block, with
`Content-Length: N` for the file's size `N`, closed by the blank line, and
after it exactly the file's bytes and nothing more, on every connection whose
priming read does not return 0 and on which the token reader returns `GET`,
then `/f`, then a version and header section the parser of the specification
accepts.  This is so for the request `GET /f HTTP/1.0` with its blank line
whenever it is delivered in reads that are each returned whole, the first of
at most 255 bytes, every later one holding a space, CR or LF and fitting the
array behind the partial token pending when it is made; and whenever all its
bytes are available to every read and the name has at most 254 bytes. -/
theorem get_serves_file (env : Env) (fs : Files) (f : List Char) (filestat : FileNode)
    (sock : Script) (hc : Clean delims f)
    (hl : fs.lookup ("./".toList ++ f) = some filestat)
    (hd : ((readFd sock (svcbuffersize - 1)).1 ≠ some []
          ∧ ∃ (n u : Nat) (rest : List (List Char)),
              requestTokens n sock = "GET".toList :: ('/' :: f) :: rest
              ∧ specRequest (('/' :: f) :: rest) = Outcome.accept u)
        ∨ InReads ("GET /".toList ++ f ++ " HTTP/1.0\r\n\r\n".toList) sock
        ∨ (f.length ≤ 254
          ∧ sock = [some ("GET /".toList ++ f ++ " HTTP/1.0\r\n\r\n".toList)])) :
    (svcthread env sock fs).out
      = "HTTP/1.0 200 OK\r\n".toList
        ++ ("Date: ".toList ++ env.httpdate env.now ++ " GMT\r\n".toList)
        ++ "Server: myhttpd/0.5 (Unix)\r\n".toList
        ++ "Transfer-Encoding: identity\r\n".toList
        ++ "Connection: close\r\n".toList
        ++ ("Last-Modified: ".toList ++ env.httpdate filestat.st_mtime ++ " GMT\r\n".toList)
        ++ (if isJpeg ("./".toList ++ f) then "Content-Type: image/jpeg\r\n".toList else [])
        ++ ("Content-Length: ".toList ++ decimal filestat.content.length ++ "\r\n".toList)
        ++ "\r\n".toList
        ++ filestat.content := by
  have hne : '/' :: f ≠ [] := by simp
  have key : ∃ (n u : Nat) (rest : List (List Char)),
      (readFd sock (svcbuffersize - 1)).1 ≠ some []
      ∧ requestTokens n sock = "GET".toList :: ('/' :: f) :: rest
      ∧ specRequest (('/' :: f) :: rest) = Outcome.accept u := by
    rcases hd with ⟨hr, n, u, rest, h1, h2⟩ | hd | ⟨hlen, hs⟩
    · exact ⟨n, u, rest, hr, h1, h2⟩
    · obtain ⟨hr, ht⟩ := tokens_of_reads f hc sock hd
      exact ⟨5, 4, _, hr, ht, spec_accepts_plain _ hne⟩
    · subst hs
      by_cases h3 : f.length ≤ 253
      · have ht := tokens_of_avail f hc h3
        rw [avail_req] at ht
        exact ⟨5, 4, _, readFd_req f, ht, spec_accepts_plain _ hne⟩
      · have ht := requestTokens_254 f hc (by omega)
        rw [avail_req] at ht
        exact ⟨6, 5, _, readFd_req f, ht, spec_accepts_shifted _ hne⟩
  obtain ⟨n, u, rest, hr, ht, ha⟩ := key
  rw [served_of_tokens env sock fs f filestat rest n u hl hr ht ha]
  simp only [headerBytes, true_or, if_true, List.append_assoc]

/-- C1 on the file `./f` holding `hello`: the request delivered in two reads
that cut the version token, delivered in three reads of which the second
holds no delimiter, and delivered whole. -/
theorem get_serves_file_witness :
    (svcthread env0 [some "GET /f HT".toList, some "TP/1.0\r\n\r\n".toList]
        [("./f".toList, ⟨"hello".toList, 5⟩)]).out
      = "HTTP/1.0 200 OK\r\n".toList
        ++ ("Date: ".toList ++ env0.httpdate env0.now ++ " GMT\r\n".toList)
        ++ "Server: myhttpd/0.5 (Unix)\r\n".toList
        ++ "Transfer-Encoding: identity\r\n".toList
        ++ "Connection: close\r\n".toList
        ++ ("Last-Modified: ".toList ++ env0.httpdate 5 ++ " GMT\r\n".toList)
        ++ (if isJpeg ("./".toList ++ "f".toList) then "Content-Type: image/jpeg\r\n".toList
            else [])
        ++ ("Content-Length: ".toList ++ decimal "hello".toList.length ++ "\r\n".toList)
        ++ "\r\n".toList
        ++ "hello".toList
    ∧ (svcthread env0 [some "GET ".toList, some "/f".toList, some " HTTP/1.0\r\n\r\n".toList]
        [("./f".toList, ⟨"hello".toList, 5⟩)]).out
      = (svcthread env0 [some "GET /f HT".toList, some "TP/1.0\r\n\r\n".toList]
        [("./f".toList, ⟨"hello".toList, 5⟩)]).out
    ∧ (svcthread env0 [some ("GET /".toList ++ "f".toList ++ " HTTP/1.0\r\n\r\n".toList)]
        [("./f".toList, ⟨"hello".toList, 5⟩)]).out
      = (svcthread env0 [some "GET /f HT".toList, some "TP/1.0\r\n\r\n".toList]
        [("./f".toList, ⟨"hello".toList, 5⟩)]).out :=
  ⟨get_serves_file env0 [("./f".toList, ⟨"hello".toList, 5⟩)] "f".toList ⟨"hello".toList, 5⟩
      [some "GET /f HT".toList, some "TP/1.0\r\n\r\n".toList] (by decide) (by decide)
      (Or.inr (Or.inl ⟨"GET /f HT".toList, ["TP/1.0\r\n\r\n".toList], rfl, by decide, by decide,
        ⟨by decide, ⟨'\r', by decide, by decide⟩, by decide, trivial⟩, by decide⟩)),
    (get_serves_file env0 [("./f".toList, ⟨"hello".toList, 5⟩)] "f".toList ⟨"hello".toList, 5⟩
      [some "GET ".toList, some "/f".toList, some " HTTP/1.0\r\n\r\n".toList]
      (by decide) (by decide)
      (Or.inl ⟨by decide, 6, 5, [[], "HTTP/1.0".toList, [], []], by decide, by decide⟩)).trans
    (get_serves_file env0 [("./f".toList, ⟨"hello".toList, 5⟩)] "f".toList ⟨"hello".toList, 5⟩
      [some "GET /f HT".toList, some "TP/1.0\r\n\r\n".toList] (by decide) (by decide)
      (Or.inr (Or.inl ⟨"GET /f HT".toList, ["TP/1.0\r\n\r\n".toList], rfl, by decide, by decide,
        ⟨by decide, ⟨'\r', by decide, by decide⟩, by decide, trivial⟩, by decide⟩))).symm,
    (get_serves_file env0 [("./f".toList, ⟨"hello".toList, 5⟩)] "f".toList ⟨"hello".toList, 5⟩
      [some ("GET /".toList ++ "f".toList ++ " HTTP/1.0\r\n\r\n".toList)]
      (by decide) (by decide) (Or.inr (Or.inr ⟨by decide, rfl⟩))).trans
    (get_serves_file env0 [("./f".toList, ⟨"hello".toList, 5⟩)] "f".toList ⟨"hello".toList, 5⟩
      [some "GET /f HT".toList, some "TP/1.0\r\n\r\n".toList] (by decide) (by decide)
      (Or.inr (Or.inl ⟨"GET /f HT".toList, ["TP/1.0\r\n\r\n".toList], rfl, by decide, by decide,
        ⟨by decide, ⟨'\r', by decide, by decide⟩, by decide, trivial⟩, by decide⟩))).symm⟩

/-- C1 as stated fails in three ways.  For an existing file whose name holds
a space, the request `GET /a b HTTP/1.0` is cut into the target `/a` and the
version `b`, and the answer is the 400 report, not the file.  For the
existing file `./abc`, the request delivered as `GET /a`, `b` and the rest is
answered 400: the read that returns `b` holds no delimiter, the reader hands
out `/ab` as the target and `c` as the version.  For an existing file with a
name of 255 bytes, the request, all its bytes available, is answered 400:
the reader cuts the name after 254 bytes.  And on a connection whose priming
read returns 0 nothing is written, whatever the later reads would deliver. -/
theorem get_request_not_always_served :
    (([("./a b".toList, (⟨"x".toList, 7⟩ : FileNode))] : Files).lookup "./a b".toList
        = some ⟨"x".toList, 7⟩
      ∧ (svcthread env0 [some "GET /a b HTTP/1.0\r\n\r\n".toList]
          [("./a b".toList, ⟨"x".toList, 7⟩)]).out = "HTTP/1.0 400 Bad Request\n\n".toList)
    ∧ (([("./abc".toList, (⟨"x".toList, 7⟩ : FileNode))] : Files).lookup "./abc".toList
        = some ⟨"x".toList, 7⟩
      ∧ ["GET /a".toList, "b".toList, "c HTTP/1.0\r\n\r\n".toList].flatten
        = "GET /abc HTTP/1.0\r\n\r\n".toList
      ∧ (svcthread env0
          [some "GET /a".toList, some "b".toList, some "c HTTP/1.0\r\n\r\n".toList]
          [("./abc".toList, ⟨"x".toList, 7⟩)]).out = "HTTP/1.0 400 Bad Request\n\n".toList)
    ∧ (([("./".toList ++ List.replicate 255 'a', (⟨"x".toList, 7⟩ : FileNode))] : Files).lookup
          ("./".toList ++ List.replicate 255 'a') = some ⟨"x".toList, 7⟩
      ∧ (svcthread env0
          [some ("GET /".toList ++ List.replicate 255 'a' ++ " HTTP/1.0\r\n\r\n".toList)]
          [("./".toList ++ List.replicate 255 'a', ⟨"x".toList, 7⟩)]).out
        = "HTTP/1.0 400 Bad Request\n\n".toList)
    ∧ (svcthread env0 [some [], some "GET /f HTTP/1.0\r\n\r\n".toList]
        [("./f".toList, ⟨"hello".toList, 5⟩)]).out = [] := by
  refine ⟨by decide, by decide, by decide, by decide⟩

/-- C2, as amended.  Let the unconsumed region of the array hold the text `u`
and let the coming reads deliver `chunks`, the whole free of `NUL`, where
every read holds at least one delimiter and fits the array behind the partial
token pending when it is made.  Then the tokens returned by the first `k`
calls of `filesep`, for `k` up to the number of delimiters in the stream, are
the first `k` fields of the stream `u ++ chunks.flatten`: the stream cut at
every delimiter.  The fields hold no delimiter, and rejoined, each followed
by the delimiter that ended it, they give the stream back.  So the tokens
are the same for any other such division of the same stream into reads, also
where a token spans two reads. -/
theorem tokens_reproduce_stream (delim : List Char) (k : Nat) (u : List Char)
    (chunks : List (List Char)) (buf : List Char) (i : Nat) (z : List Char)
    (hb : buf.drop i = u ++ NUL :: z) (hu : NUL ∉ u) (hf : Fits buf.length delim u chunks)
    (hk : k ≤ countDelims delim (u ++ chunks.flatten)) :
    fileseps k (chunks.map some) buf buf.length (some i) delim
        = ((fieldsD delim (u ++ chunks.flatten)).take k).map Prod.fst
    ∧ unsplit (fieldsD delim (u ++ chunks.flatten)) = u ++ chunks.flatten
    ∧ (∀ p ∈ fieldsD delim (u ++ chunks.flatten),
        (∀ c ∈ p.1, c ∉ delim) ∧ (∀ d, p.2 = some d → d ∈ delim))
    ∧ (∀ chunks2 : List (List Char), Fits buf.length delim u chunks2 →
        chunks2.flatten = chunks.flatten →
        fileseps k (chunks2.map some) buf buf.length (some i) delim
          = fileseps k (chunks.map some) buf buf.length (some i) delim) := by
  have h1 := fileseps_fields delim k u chunks buf i z hb hu hf hk
  refine ⟨h1, unsplit_fieldsD delim _, fieldsD_sound delim _, ?_⟩
  intro chunks2 hf2 he
  rw [h1, fileseps_fields delim k u chunks2 buf i z hb hu hf2 (by rw [he]; exact hk), he]

/-- C2 on the stream `GET /x HTTP/1.0` with its line end, read as `GET /`
and the rest: the token `/x` spans the two reads. -/
theorem tokens_reproduce_stream_witness :
    fileseps 3 ([("GET /").toList, "x HTTP/1.0\r\n".toList].map some)
        (List.replicate 256 NUL) (List.replicate 256 NUL).length (some 0) delims
      = ((fieldsD delims ([] ++ [("GET /").toList, "x HTTP/1.0\r\n".toList].flatten)).take
          3).map Prod.fst :=
  (tokens_reproduce_stream delims 3 [] [("GET /").toList, "x HTTP/1.0\r\n".toList]
    (List.replicate 256 NUL) 0 (List.replicate 255 NUL) (by decide) (by decide)
    ⟨by decide, ⟨' ', by decide, by decide⟩, by decide,
      ⟨by decide, ⟨' ', by decide, by decide⟩, by decide, trivial⟩⟩
    (by decide)).1

/-- C2 as stated fails: the stream `abc ` delivered in one read gives the
token `abc`, delivered as `a` and `bc ` it gives the tokens `a` and `bc`: the
token sequence depends on where the read boundaries fall. -/
theorem tokens_depend_on_read_boundaries :
    ["abc ".toList].flatten = ["a".toList, "bc ".toList].flatten
    ∧ fileseps 1 [some "abc ".toList] (List.replicate 256 NUL) 256 (some 0) [' ']
        = ["abc".toList]
    ∧ fileseps 2 [some "a".toList, some "bc ".toList] (List.replicate 256 NUL) 256 (some 0)
        [' '] = ["a".toList, "bc".toList] := by
  decide

/-- C3: when the unconsumed region of the array holds a partial token `p` with
no delimiter, and the next read supplies the rest `r` of the token followed by
a delimiter `d` (and possibly more), all of it fitting in the array behind
`p`, one call of `filesep` returns the complete token `p ++ r`, leaves the
cursor just past the delimiter, and has taken that read from the socket: the
partial text is not returned as a token of its own. -/
theorem filesep_completes_partial_token (fd : Script) (delim buf : List Char) (i : Nat)
    (p z r rest : List Char) (d : Char)
    (hbuf : buf.drop i = p ++ NUL :: z)
    (hcp : Clean delim p) (hcr : Clean delim r) (hd : d ∈ delim) (hn : d ≠ NUL)
    (hfit : p.length + (r ++ d :: rest).length ≤ buf.length - 1) :
    (filesep (some (r ++ d :: rest) :: fd) buf buf.length (some i) delim).field = some 0
    ∧ cstrAt (filesep (some (r ++ d :: rest) :: fd) buf buf.length (some i) delim).buffer 0
        = p ++ r
    ∧ (filesep (some (r ++ d :: rest) :: fd) buf buf.length (some i) delim).bufferleft
        = some (p.length + r.length + 1)
    ∧ (filesep (some (r ++ d :: rest) :: fd) buf buf.length (some i) delim).buffer.drop
          (p.length + r.length + 1)
        = rest ++ List.replicate (buf.length - p.length - (r ++ d :: rest).length) NUL
    ∧ (filesep (some (r ++ d :: rest) :: fd) buf buf.length (some i) delim).filedesc = fd := by
  have hrd : readFd (some (r ++ d :: rest) :: fd) (buf.length - 1 - p.length)
      = (some (r ++ d :: rest), fd) :=
    readFd_fits _ _ _ (by simp) (by omega)
  have hclean : Clean delim (p ++ r) := by
    intro c hc
    rcases List.mem_append.1 hc with h | h
    · exact hcp c h
    · exact hcr c h
  have hview : (refilled buf.length p (r ++ d :: rest)).drop 0
      = (p ++ r) ++ d :: (rest ++ List.replicate (buf.length - p.length - (r ++ d :: rest).length) NUL) := by
    simp [refilled]
  rw [filesep_pending _ delim buf i p z hbuf hcp]
  simp only [hrd, readData, Option.getD_some]
  rw [strsep_hit delim _ 0 (p ++ r) d _ hview hclean hd hn]
  have h1 := drop_set_of_drop _ 0 (p ++ r) d _ hview
  have h2 := drop_set_after _ 0 (p ++ r) d _ hview
  refine ⟨rfl, ?_, ?_, ?_, trivial⟩
  · exact cstrAt_of_drop delim _ 0 (p ++ r) _ hclean h1
  · simp [Nat.add_assoc]
  · simpa [Nat.add_assoc] using h2

/-- C3 on the token `GET` split as `GE` + `T`. -/
theorem filesep_completes_partial_token_witness :
    cstrAt (filesep [some "T /x HTTP/1.0\r\n\r\n".toList]
        ("GE".toList ++ List.replicate 254 NUL) 256 (some 0) delims).buffer 0 = "GET".toList
    ∧ (filesep [some "T /x HTTP/1.0\r\n\r\n".toList]
        ("GE".toList ++ List.replicate 254 NUL) 256 (some 0) delims).bufferleft = some 4 :=
  have h := filesep_completes_partial_token [] delims ("GE".toList ++ List.replicate 254 NUL) 0
    "GE".toList (List.replicate 253 NUL) "T".toList "/x HTTP/1.0\r\n\r\n".toList ' '
    (by decide) (by decide) (by decide) (by decide) (by decide) (by decide)
  ⟨h.2.1, h.2.2.1⟩

/-- C4 (the code departs from the claim): for the codes 400, 404 and 405 the
error reporter writes the status line `HTTP/1.0 <code> <reason>` followed by
two bare line feeds, `\n\n`, and closes the socket once; it does not write
the `\r\n\r\n` of the claim.  A request for a target that does not exist is
answered with `HTTP/1.0 404 Not Found\n\n`. -/
theorem reporterror_bare_linefeeds (env : Env) (s : State) :
    (reporterror env s 400).out = s.out ++ "HTTP/1.0 400 Bad Request\n\n".toList
    ∧ (reporterror env s 404).out = s.out ++ "HTTP/1.0 404 Not Found\n\n".toList
    ∧ (reporterror env s 405).out = s.out ++ "HTTP/1.0 405 Method Not Allowed\n\n".toList
    ∧ (reporterror env s 400).closes = s.closes + 1
    ∧ (reporterror env s 404).closes = s.closes + 1
    ∧ (reporterror env s 405).closes = s.closes + 1
    ∧ (svcthread env0 [some "GET /nothing HTTP/1.0\r\n\r\n".toList] []).out
        = "HTTP/1.0 404 Not Found\n\n".toList
    ∧ (svcthread env0 [some "GET /nothing HTTP/1.0\r\n\r\n".toList] []).out
        ≠ "HTTP/1.0 404 Not Found\r\n\r\n".toList :=
  ⟨rfl, rfl, rfl, rfl, rfl, rfl, by decide, by decide⟩

/-- C5, as amended.  When the priming read returns 0, end-of-stream, there is
no first token: nothing is pulled, nothing is written, and the run ends with
the local code -1.  In every other case (the priming read delivers bytes, or
it returns -1, which `bytesread`, a `size_t`, does not show as a failure) the
token reader returns a first token `tok`, the first token of the connection,
and the worker ends with status 405 exactly when `tok` is none of `GET`,
`HEAD`, `POST` (the empty token included); it has then written the 405 report
and nothing else, closed the socket once and pulled no further token.  For
the three method names the matching method is selected and no error is raised
at this stage. -/
theorem method_stage_verdict (env : Env) (sock : Script) (fs : Files) :
    ((readFd sock (svcbuffersize - 1)).1 = some [] →
      (svcthread env sock fs).pulled = [] ∧ (svcthread env sock fs).out = []
      ∧ (svcthread env sock fs).herror = -1)
    ∧ ((readFd sock (svcbuffersize - 1)).1 ≠ some [] →
      ∃ tok : List Char,
        requestTokens 1 sock = [tok]
        ∧ (stageMethod env (prime (initState sock fs))).pulled = [(Site.method, some tok)]
        ∧ ((svcthread env sock fs).herror = 405
            ↔ (tok ≠ "GET".toList ∧ tok ≠ "HEAD".toList ∧ tok ≠ "POST".toList))
        ∧ ((tok ≠ "GET".toList ∧ tok ≠ "HEAD".toList ∧ tok ≠ "POST".toList) →
            (svcthread env sock fs).out = "HTTP/1.0 405 Method Not Allowed\n\n".toList
            ∧ (svcthread env sock fs).closes = 1
            ∧ (svcthread env sock fs).pulled = [(Site.method, some tok)])
        ∧ (tok = "GET".toList →
            (stageMethod env (prime (initState sock fs))).methodtype = htcommand.GET
            ∧ (stageMethod env (prime (initState sock fs))).herror = 0
            ∧ (stageMethod env (prime (initState sock fs))).out = [])
        ∧ (tok = "HEAD".toList →
            (stageMethod env (prime (initState sock fs))).methodtype = htcommand.HEAD
            ∧ (stageMethod env (prime (initState sock fs))).herror = 0
            ∧ (stageMethod env (prime (initState sock fs))).out = [])
        ∧ (tok = "POST".toList →
            (stageMethod env (prime (initState sock fs))).methodtype = htcommand.POST
            ∧ (stageMethod env (prime (initState sock fs))).herror = 0
            ∧ (stageMethod env (prime (initState sock fs))).out = [])) := by
  obtain ⟨h1, h2⟩ := method_stage_by_count env sock fs
  refine ⟨fun h => h1 ((readLen_zero_iff sock).2 h), fun h => ?_⟩
  have hr : readLen (readFd sock (svcbuffersize - 1)).1 ≠ 0 :=
    fun e => h ((readLen_zero_iff sock).1 e)
  obtain ⟨tok, a, b⟩ := h2 hr
  refine ⟨tok, ?_, a, b⟩
  have e1 := stageMethod_pulled env _ (prime_ok sock fs hr).1 (prime_frame (initState sock fs)).1
  have e2 : (pull Site.method (prime (initState sock fs))).pulled
      = [(Site.method, some (tokenOf (pull Site.method (prime (initState sock fs)))))] := by
    have hpul : (prime (initState sock fs)).pulled = [] := (prime_frame (initState sock fs)).2.1
    rw [pull_pulled, hpul, List.nil_append]
  rw [e1, e2] at a
  have e3 : tokenOf (pull Site.method (prime (initState sock fs))) = tok := by
    simpa using a
  rw [first_token sock fs 0, e3]
  rfl

/-- C5 on the request `PUT /x HTTP/1.0`, and on a connection closed at once. -/
theorem method_stage_verdict_witness :
    (∃ tok : List Char,
      requestTokens 1 [some "PUT /x HTTP/1.0\r\n\r\n".toList] = [tok]
      ∧ ((svcthread env0 [some "PUT /x HTTP/1.0\r\n\r\n".toList] []).herror = 405
          ↔ (tok ≠ "GET".toList ∧ tok ≠ "HEAD".toList ∧ tok ≠ "POST".toList)))
    ∧ (svcthread env0 [] []).pulled = [] :=
  ⟨(((method_stage_verdict env0 [some "PUT /x HTTP/1.0\r\n\r\n".toList] []).2 (by decide)).imp
      (fun _ h => ⟨h.1, h.2.2.1⟩)),
   ((method_stage_verdict env0 [] []).1 (by decide)).1⟩

/-- C5 as stated fails when the first token is absent: on a connection that
delivers nothing no token is pulled, and no 405 is reported (nothing is
written at all). -/
theorem method_absent_no_405 :
    (svcthread env0 [] []).pulled = []
    ∧ (svcthread env0 [] []).herror ≠ 405
    ∧ (svcthread env0 [] []).out = [] := by
  decide

/-- C6: given a valid method token (the method stage raised no error), the
verdict is the one the parser of the specification reaches on the tokens the
token reader returns on the connection, whatever number of them it is given:
when it rejects, because the target token is empty, or the version token is
neither empty nor `HTTP/1.0` nor `HTTP/1.1`, or a header token `Host:` is
immediately followed by an empty token, the worker ends with status 400, has
written the report `HTTP/1.0 400 Bad Request` and nothing else, has closed the
socket once and has pulled just the tokens up to the offending one; when it
accepts, after an empty or proper version token and a header section whose
other tokens are discarded, the parse ends without error.  One of the two
happens, and the tokens the worker pulled are the first tokens of the
connection, as many as the specification's parser took.  On the worker's
trace of pulls: status 400 is raised exactly when the target token is empty,
or the version token is bad, or a header token `Host:` is immediately followed
by an empty value token, and the offending token is the last one pulled; an
empty version token is accepted as version 1.0. -/
theorem bad_request_verdict (env : Env) (sock : Script) (fs : Files)
    (hm : (stageMethod env (prime (initState sock fs))).herror = 0) :
    (∀ n u : Nat, specRequest ((requestTokens n sock).drop 1) = Outcome.reject u →
        (svcthread env sock fs).herror = 400
        ∧ (svcthread env sock fs).pulled.length = u + 1
        ∧ (svcthread env sock fs).out = line400
        ∧ (svcthread env sock fs).closes = 1)
    ∧ (∀ n u : Nat, specRequest ((requestTokens n sock).drop 1) = Outcome.accept u →
        (svcthread env sock fs).herror ≠ 400
        ∧ (parseRequest env sock fs).herror = 0
        ∧ (svcthread env sock fs).pulled.length = u + 1)
    ∧ (∃ j : Nat,
        (svcthread env sock fs).pulled.map Prod.snd = (requestTokens (j + 1) sock).map some
        ∧ (specRequest ((requestTokens (j + 1) sock).drop 1) = Outcome.reject j
          ∨ specRequest ((requestTokens (j + 1) sock).drop 1) = Outcome.accept j))
    ∧ (∀ m : List Char, requestTokens 2 sock = [m, []] →
        (svcthread env sock fs).herror = 400)
    ∧ (∀ m t v : List Char, requestTokens 3 sock = [m, t, v] → t ≠ [] → v ≠ [] →
        v ≠ "HTTP/1.0".toList → v ≠ "HTTP/1.1".toList →
        (svcthread env sock fs).herror = 400)
    ∧ ((svcthread env sock fs).herror = 400 ↔
        ((svcthread env sock fs).pulled[1]? = some (Site.target, some [])
          ∨ (∃ v : List Char, (svcthread env sock fs).pulled[2]? = some (Site.version, some v)
              ∧ v ≠ [] ∧ v ≠ "HTTP/1.0".toList ∧ v ≠ "HTTP/1.1".toList)
          ∨ (∃ pre post : List Pull,
              (svcthread env sock fs).pulled = pre ++ hostTok :: emptyVal :: post)))
    ∧ ((svcthread env sock fs).herror = 400 →
        (svcthread env sock fs).out = line400
        ∧ (svcthread env sock fs).closes = 1
        ∧ ∃ pre : List Pull,
            (svcthread env sock fs).pulled = pre ++ [(Site.target, some [])]
            ∨ (∃ v : List Char, v ≠ [] ∧ v ≠ "HTTP/1.0".toList ∧ v ≠ "HTTP/1.1".toList
                ∧ (svcthread env sock fs).pulled = pre ++ [(Site.version, some v)])
            ∨ (svcthread env sock fs).pulled = pre ++ [hostTok, emptyVal])
    ∧ ((svcthread env sock fs).pulled[2]? = some (Site.version, some []) →
        (svcthread env sock fs).httpver = 10
        ∧ ((svcthread env sock fs).herror = 400 →
            ∃ pre : List Pull, (svcthread env sock fs).pulled = pre ++ [hostTok, emptyVal])) := by
  obtain ⟨t1, t2, t3⟩ := bad_request_trace env sock fs hm
  have hrej : ∀ n u : Nat, specRequest ((requestTokens n sock).drop 1) = Outcome.reject u →
      (svcthread env sock fs).herror = 400
      ∧ (svcthread env sock fs).pulled.length = u + 1
      ∧ (svcthread env sock fs).out = line400
      ∧ (svcthread env sock fs).closes = 1 := by
    intro n u h
    obtain ⟨e1, e2⟩ := (spec_decides env sock fs hm n u).1 h
    have e3 := (svc_400_iff env sock fs).2 e1
    exact ⟨e3, by rw [svc_pulled]; exact e2, (t2 e3).1, (t2 e3).2.1⟩
  refine ⟨hrej, ?_, ?_, ?_, ?_, t1, t2, t3⟩
  · intro n u h
    obtain ⟨e1, e2⟩ := (spec_decides env sock fs hm n u).2 h
    refine ⟨?_, e1, by rw [svc_pulled]; exact e2⟩
    intro h4
    rw [(svc_400_iff env sock fs).1 h4] at e1
    exact absurd e1 (by decide)
  · obtain ⟨j, h1, h2⟩ := parse_spec env sock fs hm
    refine ⟨j, by rw [svc_pulled]; exact h1, ?_⟩
    rcases h2 with ⟨-, e⟩ | ⟨-, e⟩
    · exact Or.inl e
    · exact Or.inr e
  · intro m h
    refine (hrej 2 1 ?_).1
    rw [h]
    rfl
  · intro m t v h ht hv h0 h1
    refine (hrej 3 2 ?_).1
    rw [h, List.drop_succ_cons, List.drop_zero, specRequest_cons2 _ _ _ ht, if_neg hv,
      if_neg (by
        intro hh
        rcases hh with hh | hh
        · exact h0 hh
        · exact h1 hh)]

/-- C6 on the request `GET  HTTP/1.0` (two spaces, an empty target), on a
request with the version `FTP/9.9`, and on a request whose `Host:` header has
an empty value. -/
theorem bad_request_verdict_witness :
    specRequest ((requestTokens 2 [some "GET  HTTP/1.0\r\n\r\n".toList]).drop 1)
      = Outcome.reject 1
    ∧ (svcthread env0 [some "GET  HTTP/1.0\r\n\r\n".toList] []).herror = 400
    ∧ (svcthread env0 [some "GET  HTTP/1.0\r\n\r\n".toList] []).out = line400
    ∧ (svcthread env0 [some "GET  HTTP/1.0\r\n\r\n".toList] []).closes = 1
    ∧ requestTokens 3 [some "GET /f FTP/9.9\r\n\r\n".toList]
      = ["GET".toList, "/f".toList, "FTP/9.9".toList]
    ∧ (svcthread env0 [some "GET /f FTP/9.9\r\n\r\n".toList]
        [("./f".toList, ⟨"hello".toList, 5⟩)]).herror = 400
    ∧ (svcthread env0 [some "GET /f FTP/9.9\r\n\r\n".toList]
        [("./f".toList, ⟨"hello".toList, 5⟩)]).out = line400
    ∧ requestTokens 6 [some "GET /f HTTP/1.0\r\nHost: \r\n\r\n".toList]
      = ["GET".toList, "/f".toList, "HTTP/1.0".toList, [], "Host:".toList, []]
    ∧ (svcthread env0 [some "GET /f HTTP/1.0\r\nHost: \r\n\r\n".toList]
        [("./f".toList, ⟨"hello".toList, 5⟩)]).herror = 400
    ∧ (svcthread env0 [some "GET /f HTTP/1.0\r\nHost: \r\n\r\n".toList]
        [("./f".toList, ⟨"hello".toList, 5⟩)]).pulled.length = 6 :=
  have h := (bad_request_verdict env0 [some "GET  HTTP/1.0\r\n\r\n".toList] []
    (by decide)).1 2 1 (by decide)
  have h2 := (bad_request_verdict env0 [some "GET /f FTP/9.9\r\n\r\n".toList]
    [("./f".toList, ⟨"hello".toList, 5⟩)] (by decide)).1 3 2 (by decide)
  have h3 := (bad_request_verdict env0 [some "GET /f HTTP/1.0\r\nHost: \r\n\r\n".toList]
    [("./f".toList, ⟨"hello".toList, 5⟩)] (by decide)).1 6 5 (by decide)
  ⟨by decide, h.1, h.2.2.1, h.2.2.2, by decide, h2.1, h2.2.2.1, by decide, h3.1, h3.2.1⟩

/-- C7: after a request has parsed successfully, with target token `t`, the
path the worker looks up is `'.'` followed by `t`, byte for byte; the worker
ends with status 404 exactly when that path is not in the file system, and
then the 404 report is all it has written and the socket is closed once; when
the path exists no error is raised and the output begins with the header
block of the 200 response.  The method (`GET`, `HEAD` or `POST`) plays no
part in this. -/
theorem lookup_verdict (env : Env) (sock : Script) (fs : Files)
    (h0 : (parseRequest env sock fs).herror = 0) :
    ∃ (m t : List Char) (rest : List Pull),
      (svcthread env sock fs).pulled = (Site.method, some m) :: (Site.target, some t) :: rest
      ∧ (m = "GET".toList ∨ m = "HEAD".toList ∨ m = "POST".toList)
      ∧ t ≠ []
      ∧ (svcthread env sock fs).entity = '.' :: t
      ∧ ((svcthread env sock fs).herror = 404 ↔ fs.lookup ('.' :: t) = none)
      ∧ (fs.lookup ('.' :: t) = none →
          (svcthread env sock fs).out = line404 ∧ (svcthread env sock fs).closes = 1)
      ∧ (∀ filestat, fs.lookup ('.' :: t) = some filestat →
          (svcthread env sock fs).herror = 0
          ∧ ∃ body, (svcthread env sock fs).out
              = headerBytes env filestat (svcthread env sock fs).methodtype ('.' :: t)
                ++ body) := by
  have hm := parse_ok_method env sock fs h0
  obtain ⟨m, hmm, hpul, hout, hcl, hseg, hfs, -⟩ := method_ok_state env sock fs hm
  have hends := parseRequest_ends env sock fs
  have hp : parseRequest env sock fs
      = stageHeaders env (stageVersion env (stageEntity env
          (stageMethod env (prime (initState sock fs))))) := rfl
  have hsv : svcthread env sock fs = finish (respond env (parseRequest env sock fs)) := rfl
  rcases parse_tail_cases env _ hm hseg with
    ⟨-, h2, -⟩ | ⟨t, v, -, -, -, h2, -⟩ | ⟨t, v, pre, -, -, -, -, h2, -⟩
      | ⟨t, v, ext, ht, hv, h1, hE, hH, h2, h3, h4, h5, h6, h7, h8, h9, -⟩
  · rw [← hp, h0] at h2; exact absurd h2 (by decide)
  · rw [← hp, h0] at h2; exact absurd h2 (by decide)
  · rw [← hp, h0] at h2; exact absurd h2 (by decide)
  · rw [← hp] at h1 h3 h4 h5 h6 h7 h8
    rw [hout] at h3
    rw [hcl] at h4
    rw [hfs] at h7
    refine ⟨m, t, (Site.version, some v) :: ext, ?_, ?_, ht, ?_⟩
    · rw [hsv, (finish_frame _).1, (respond_frame env _).1, h1, hpul]
      rfl
    · rcases hmm with h | h | h
      · exact Or.inl h.1
      · exact Or.inr (Or.inl h.1)
      · exact Or.inr (Or.inr h.1)
    · cases hl : fs.lookup ('.' :: t) with
      | none =>
        have hl2 : (parseRequest env sock fs).fs.lookup ('.' :: (parseRequest env sock fs).entity)
            = none := by rw [h7, h5]; exact hl
        have hr := respond_missing env _ h0 h8 hends.1 hl2
        have hne : (respond env (parseRequest env sock fs)).herror ≠ 0 := by
          rw [hr]
          show (404 : Int) ≠ 0
          decide
        rw [hsv, finish_skip _ hne, hr]
        refine ⟨?_, ⟨fun _ => rfl, fun _ => rfl⟩, fun _ => ⟨?_, ?_⟩, ?_⟩
        · show '.' :: (parseRequest env sock fs).entity = _
          rw [h5]
        · show (parseRequest env sock fs).out ++ _ = _
          rw [h3]; rfl
        · show (parseRequest env sock fs).closes + 1 = 1
          rw [h4]
        · intro st hst
          exact absurd hst (by simp)
      | some st =>
        have hl2 : (parseRequest env sock fs).fs.lookup ('.' :: (parseRequest env sock fs).entity)
            = some st := by rw [h7, h5]; exact hl
        have hr := respond_found env _ st h0 h8 hends.1 hl2
        have hfr := transfer_frame st
          { parseRequest env sock fs with
            entity := '.' :: (parseRequest env sock fs).entity,
            out := (parseRequest env sock fs).out
              ++ headerBytes env st (parseRequest env sock fs).methodtype
                  ('.' :: (parseRequest env sock fs).entity) }
        obtain ⟨body, hbody⟩ := transfer_out st
          { parseRequest env sock fs with
            entity := '.' :: (parseRequest env sock fs).entity,
            out := (parseRequest env sock fs).out
              ++ headerBytes env st (parseRequest env sock fs).methodtype
                  ('.' :: (parseRequest env sock fs).entity) }
        have he : (svcthread env sock fs).herror = 0 := by
          rw [hsv, finish_herror, hr, hfr.1]
          exact h0
        have hmt : (svcthread env sock fs).methodtype = (parseRequest env sock fs).methodtype := by
          rw [hsv, (finish_frame _).2.2.2.1, hr, hfr.2.2.2.1]
        refine ⟨?_, ?_, ?_, ?_⟩
        · rw [hsv, (finish_frame _).2.2.2.2.2, hr, hfr.2.2.2.2.1]
          show '.' :: (parseRequest env sock fs).entity = _
          rw [h5]
        · constructor
          · intro h
            rw [he] at h
            exact absurd h (by decide)
          · intro h
            exact absurd h (by simp)
        · intro h
          exact absurd h (by simp)
        · intro st2 hst2
          cases hst2
          refine ⟨he, body, ?_⟩
          rw [hmt, hsv, (finish_frame _).2.2.1, hr, hbody]
          show ((parseRequest env sock fs).out ++ _) ++ body = _
          rw [h3, h5]
          rfl

/-- C7 on `GET /nothing` against an empty file system. -/
theorem lookup_verdict_witness :
    ∃ (m t : List Char) (rest : List Pull),
      (svcthread env0 [some "GET /nothing HTTP/1.0\r\n\r\n".toList] []).pulled
        = (Site.method, some m) :: (Site.target, some t) :: rest
      ∧ (svcthread env0 [some "GET /nothing HTTP/1.0\r\n\r\n".toList] []).entity = '.' :: t
      ∧ ((svcthread env0 [some "GET /nothing HTTP/1.0\r\n\r\n".toList] []).herror = 404
          ↔ ([] : Files).lookup ('.' :: t) = none) :=
  (lookup_verdict env0 [some "GET /nothing HTTP/1.0\r\n\r\n".toList] [] (by decide)).imp
    (fun _ h => h.imp (fun _ h => h.imp (fun _ h => ⟨h.1, h.2.2.2.1, h.2.2.2.2.1⟩)))

/-- C9: take any `GET` request and any `HEAD` request that parse successfully
with the same target, over the same file system and clock, the target being
an existing file.  The bytes written for `HEAD` are the header block, from
the status line to the blank line, with `Last-Modified`, `Content-Type` when
the path has a JPEG extension, and `Content-Length`; the bytes written for
`GET` are the same header block followed by the file.  So the headers are
identical and `HEAD` writes nothing after the blank line. -/
theorem head_matches_get (env : Env) (fs : Files) (sockG sockH : Script) (filestat : FileNode)
    (hG : (parseRequest env sockG fs).herror = 0)
    (hH : (parseRequest env sockH fs).herror = 0)
    (mG : (parseRequest env sockG fs).methodtype = htcommand.GET)
    (mH : (parseRequest env sockH fs).methodtype = htcommand.HEAD)
    (ht : (parseRequest env sockH fs).entity = (parseRequest env sockG fs).entity)
    (hl : fs.lookup ('.' :: (parseRequest env sockG fs).entity) = some filestat) :
    (svcthread env sockH fs).out
      = "HTTP/1.0 200 OK\r\n".toList
        ++ ("Date: ".toList ++ env.httpdate env.now ++ " GMT\r\n".toList)
        ++ "Server: myhttpd/0.5 (Unix)\r\n".toList
        ++ "Transfer-Encoding: identity\r\n".toList
        ++ "Connection: close\r\n".toList
        ++ ("Last-Modified: ".toList ++ env.httpdate filestat.st_mtime ++ " GMT\r\n".toList)
        ++ (if isJpeg ('.' :: (parseRequest env sockG fs).entity)
            then "Content-Type: image/jpeg\r\n".toList else [])
        ++ ("Content-Length: ".toList ++ decimal filestat.content.length ++ "\r\n".toList)
        ++ "\r\n".toList
    ∧ (svcthread env sockG fs).out = (svcthread env sockH fs).out ++ filestat.content := by
  have h1 := (success_out env sockG fs filestat hG hl).1
  have h2 := (success_out env sockH fs filestat hH (by rw [ht]; exact hl)).1
  rw [mG, if_pos rfl] at h1
  rw [mH, if_neg (by decide), List.append_nil, ht] at h2
  have e : headerBytes env filestat htcommand.HEAD ('.' :: (parseRequest env sockG fs).entity)
      = headerBytes env filestat htcommand.GET ('.' :: (parseRequest env sockG fs).entity) := by
    simp [headerBytes]
  refine ⟨?_, ?_⟩
  · rw [h2]
    simp only [headerBytes, or_true, if_true, List.append_assoc, reduceCtorEq, false_or]
  · rw [h1, h2, e]

/-- C9 on the file `./f` holding `hello`. -/
theorem head_matches_get_witness :
    (svcthread env0 [some "GET /f HTTP/1.0\r\n\r\n".toList]
        [("./f".toList, ⟨"hello".toList, 5⟩)]).out
      = (svcthread env0 [some "HEAD /f HTTP/1.0\r\n\r\n".toList]
          [("./f".toList, ⟨"hello".toList, 5⟩)]).out ++ "hello".toList :=
  (head_matches_get env0 [("./f".toList, ⟨"hello".toList, 5⟩)]
    [some "GET /f HTTP/1.0\r\n\r\n".toList] [some "HEAD /f HTTP/1.0\r\n\r\n".toList]
    ⟨"hello".toList, 5⟩ (by decide) (by decide) (by decide) (by decide) (by decide)
    (by decide)).2

/-- C10, as amended.  On every successful request (the parse raised no
error and the path, `'.'` followed by the target, is an existing file): for
`GET` and `HEAD` the response carries the line `Content-Type: image/jpeg`,
between `Last-Modified` and `Content-Length`, exactly when the target ends
with `.jpg` or `.jpeg` or is itself `jpg` or `jpeg` (the test is made on the
path); no other `Content-Type` line is written; for `POST` the response is
the five fixed header lines and the blank line, without any `Content-Type`. -/
theorem content_type_rule (env : Env) (sock : Script) (fs : Files) (filestat : FileNode)
    (h0 : (parseRequest env sock fs).herror = 0)
    (hl : fs.lookup ('.' :: (parseRequest env sock fs).entity) = some filestat) :
    (isJpeg ('.' :: (parseRequest env sock fs).entity) = true ↔
        (".jpg".toList <:+ (parseRequest env sock fs).entity
          ∨ ".jpeg".toList <:+ (parseRequest env sock fs).entity
          ∨ (parseRequest env sock fs).entity = "jpg".toList
          ∨ (parseRequest env sock fs).entity = "jpeg".toList))
    ∧ ((parseRequest env sock fs).methodtype ≠ htcommand.POST →
        (svcthread env sock fs).out
          = "HTTP/1.0 200 OK\r\n".toList
            ++ ("Date: ".toList ++ env.httpdate env.now ++ " GMT\r\n".toList)
            ++ "Server: myhttpd/0.5 (Unix)\r\n".toList
            ++ "Transfer-Encoding: identity\r\n".toList
            ++ "Connection: close\r\n".toList
            ++ ("Last-Modified: ".toList ++ env.httpdate filestat.st_mtime ++ " GMT\r\n".toList)
            ++ (if isJpeg ('.' :: (parseRequest env sock fs).entity)
                then "Content-Type: image/jpeg\r\n".toList else [])
            ++ ("Content-Length: ".toList ++ decimal filestat.content.length ++ "\r\n".toList)
            ++ "\r\n".toList
            ++ (if (parseRequest env sock fs).methodtype = htcommand.GET then filestat.content
                else []))
    ∧ ((parseRequest env sock fs).methodtype = htcommand.POST →
        (svcthread env sock fs).out
          = "HTTP/1.0 200 OK\r\n".toList
            ++ ("Date: ".toList ++ env.httpdate env.now ++ " GMT\r\n".toList)
            ++ "Server: myhttpd/0.5 (Unix)\r\n".toList
            ++ "Transfer-Encoding: identity\r\n".toList
            ++ "Connection: close\r\n".toList
            ++ "\r\n".toList) := by
  have h1 := (success_out env sock fs filestat h0 hl).1
  have hinv := (parse_ok_summary env sock fs h0).2.2.2.2.2.2.2.1
  refine ⟨isJpeg_path_iff _, ?_, ?_⟩
  · intro hp
    have hm : (parseRequest env sock fs).methodtype = htcommand.GET
        ∨ (parseRequest env sock fs).methodtype = htcommand.HEAD := by
      cases hc : (parseRequest env sock fs).methodtype with
      | INVALID => exact absurd hc hinv
      | GET => exact Or.inl rfl
      | POST => exact absurd hc hp
      | HEAD => exact Or.inr rfl
    rw [h1]
    simp only [headerBytes, hm, if_true, List.append_assoc]
  · intro hp
    rw [h1, hp]
    simp only [headerBytes, reduceCtorEq, or_self, if_false, List.append_nil]

/-- C10 on `GET /a.jpg`. -/
theorem content_type_rule_witness :
    isJpeg ('.' :: (parseRequest env0 [some "GET /a.jpg HTTP/1.0\r\n\r\n".toList]
        [("./a.jpg".toList, ⟨"J".toList, 7⟩)]).entity) = true ↔
      (".jpg".toList <:+ (parseRequest env0 [some "GET /a.jpg HTTP/1.0\r\n\r\n".toList]
          [("./a.jpg".toList, ⟨"J".toList, 7⟩)]).entity
        ∨ ".jpeg".toList <:+ (parseRequest env0 [some "GET /a.jpg HTTP/1.0\r\n\r\n".toList]
          [("./a.jpg".toList, ⟨"J".toList, 7⟩)]).entity
        ∨ (parseRequest env0 [some "GET /a.jpg HTTP/1.0\r\n\r\n".toList]
          [("./a.jpg".toList, ⟨"J".toList, 7⟩)]).entity = "jpg".toList
        ∨ (parseRequest env0 [some "GET /a.jpg HTTP/1.0\r\n\r\n".toList]
          [("./a.jpg".toList, ⟨"J".toList, 7⟩)]).entity = "jpeg".toList) :=
  (content_type_rule env0 [some "GET /a.jpg HTTP/1.0\r\n\r\n".toList]
    [("./a.jpg".toList, ⟨"J".toList, 7⟩)] ⟨"J".toList, 7⟩ (by decide) (by decide)).1

/-- C10 as stated fails on the target `jpg`: it does not end with `.jpg` or
`.jpeg`, yet the successful response to `GET jpg`, served from the file
`.jpg`, carries `Content-Type: image/jpeg`. -/
theorem jpeg_header_without_extension :
    (svcthread env0 [some "GET jpg HTTP/1.0\r\n\r\n".toList]
        [(".jpg".toList, ⟨"J".toList, 7⟩)]).out
      = ("HTTP/1.0 200 OK\r\nDate: Thu, 01 Jan 1970 00:00:00 GMT\r\n"
          ++ "Server: myhttpd/0.5 (Unix)\r\nTransfer-Encoding: identity\r\n"
          ++ "Connection: close\r\nLast-Modified: Thu, 01 Jan 1970 00:00:00 GMT\r\n"
          ++ "Content-Type: image/jpeg\r\nContent-Length: 1\r\n\r\nJ").toList
    ∧ (parseRequest env0 [some "GET jpg HTTP/1.0\r\n\r\n".toList]
        [(".jpg".toList, ⟨"J".toList, 7⟩)]).entity = "jpg".toList
    ∧ ¬ (".jpg".toList <:+ "jpg".toList ∨ ".jpeg".toList <:+ "jpg".toList) := by
  refine ⟨by decide, by decide, ?_⟩
  rintro (h | h) <;> exact absurd h.length_le (by decide)

/-- C11: on every successful request (the parse raised no error, whether the
version token was `HTTP/1.0`, `HTTP/1.1` or empty, and the path is an existing
file) the bytes written are a list of header lines, one blank line, and for
`GET` the file.  Every header line ends with CRLF.  The lines are, in order:
the status line `HTTP/1.0 200 OK`, `Date`, the server identity,
`Transfer-Encoding` and `Connection`; then, unless the method is `POST`,
`Last-Modified`, `Content-Type` when the path has a JPEG extension, and
`Content-Length` with the size of the file.  For `POST` nothing follows the
five fixed lines but the blank line. -/
theorem header_block_shape (env : Env) (sock : Script) (fs : Files) (filestat : FileNode)
    (h0 : (parseRequest env sock fs).herror = 0)
    (hl : fs.lookup ('.' :: (parseRequest env sock fs).entity) = some filestat) :
    ((parseRequest env sock fs).httpver = 10 ∨ (parseRequest env sock fs).httpver = 11)
    ∧ ∃ lines : List (List Char),
        lines
          = ["HTTP/1.0 200 OK\r\n".toList,
              "Date: ".toList ++ env.httpdate env.now ++ " GMT\r\n".toList,
              "Server: myhttpd/0.5 (Unix)\r\n".toList,
              "Transfer-Encoding: identity\r\n".toList,
              "Connection: close\r\n".toList]
            ++ (if (parseRequest env sock fs).methodtype = htcommand.POST then []
                else
                  ["Last-Modified: ".toList ++ env.httpdate filestat.st_mtime
                      ++ " GMT\r\n".toList]
                    ++ (if isJpeg ('.' :: (parseRequest env sock fs).entity)
                        then ["Content-Type: image/jpeg\r\n".toList] else [])
                    ++ ["Content-Length: ".toList ++ decimal filestat.content.length
                      ++ "\r\n".toList])
        ∧ (∀ l ∈ lines, "\r\n".toList <:+ l)
        ∧ (svcthread env sock fs).out
            = lines.flatten ++ "\r\n".toList
              ++ (if (parseRequest env sock fs).methodtype = htcommand.GET
                  then filestat.content else []) := by
  refine ⟨parse_httpver env sock fs h0, _, rfl, ?_, ?_⟩
  · intro l hmem
    have e1 : ∀ x : List Char, "\r\n".toList <:+ x ++ "\r\n".toList :=
      fun x => List.suffix_append _ _
    have e2 : ∀ x : List Char, "\r\n".toList <:+ x ++ " GMT\r\n".toList := fun x =>
      ⟨x ++ " GMT".toList, by simp⟩
    by_cases hp : (parseRequest env sock fs).methodtype = htcommand.POST
    · rw [if_pos hp, List.append_nil] at hmem
      simp only [List.mem_cons, List.mem_singleton, List.not_mem_nil, or_false] at hmem
      rcases hmem with h | h | h | h | h <;> rw [h]
      · exact e1 "HTTP/1.0 200 OK".toList
      · exact e2 _
      · exact e1 "Server: myhttpd/0.5 (Unix)".toList
      · exact e1 "Transfer-Encoding: identity".toList
      · exact e1 "Connection: close".toList
    · rw [if_neg hp] at hmem
      simp only [List.mem_append, List.mem_cons, List.mem_singleton, List.not_mem_nil,
        or_false] at hmem
      rcases hmem with (h | h | h | h | h) | (h | h) | h
      · rw [h]; exact e1 "HTTP/1.0 200 OK".toList
      · rw [h]; exact e2 _
      · rw [h]; exact e1 "Server: myhttpd/0.5 (Unix)".toList
      · rw [h]; exact e1 "Transfer-Encoding: identity".toList
      · rw [h]; exact e1 "Connection: close".toList
      · rw [h]; exact e2 _
      · by_cases hj : isJpeg ('.' :: (parseRequest env sock fs).entity) = true
        · rw [if_pos hj] at h
          simp only [List.mem_singleton] at h
          rw [h]; exact e1 "Content-Type: image/jpeg".toList
        · rw [if_neg hj] at h
          exact absurd h (List.not_mem_nil _)
      · rw [h]; exact e1 _
  · rw [(success_out env sock fs filestat h0 hl).1]
    obtain ⟨-, -, -, -, -, -, -, hinv, -⟩ := parse_ok_summary env sock fs h0
    congr 1
    unfold headerBytes
    cases hm : (parseRequest env sock fs).methodtype with
    | INVALID => exact absurd hm hinv
    | GET =>
      by_cases hj : isJpeg ('.' :: (parseRequest env sock fs).entity) = true
      · simp [hj]
      · simp [hj]
    | HEAD =>
      by_cases hj : isJpeg ('.' :: (parseRequest env sock fs).entity) = true
      · simp [hj]
      · simp [hj]
    | POST => simp

/-- C11 on `HEAD /f HTTP/1.1`: the status line still names version 1.0. -/
theorem header_block_shape_witness :
    ((parseRequest env0 [some "HEAD /f HTTP/1.1\r\n\r\n".toList]
        [("./f".toList, ⟨"hello".toList, 5⟩)]).httpver = 11)
    ∧ ∃ lines : List (List Char),
        lines.head? = some "HTTP/1.0 200 OK\r\n".toList
        ∧ (∀ l ∈ lines, "\r\n".toList <:+ l)
        ∧ (svcthread env0 [some "HEAD /f HTTP/1.1\r\n\r\n".toList]
            [("./f".toList, ⟨"hello".toList, 5⟩)]).out = lines.flatten ++ "\r\n".toList := by
  obtain ⟨-, lines, h1, h2, h3⟩ := header_block_shape env0
    [some "HEAD /f HTTP/1.1\r\n\r\n".toList] [("./f".toList, ⟨"hello".toList, 5⟩)]
    ⟨"hello".toList, 5⟩ (by decide) (by decide)
  refine ⟨by decide, lines, ?_, h2, ?_⟩
  · rw [h1]; rfl
  · rw [h3]
    have : (parseRequest env0 [some "HEAD /f HTTP/1.1\r\n\r\n".toList]
        [("./f".toList, ⟨"hello".toList, 5⟩)]).methodtype = htcommand.HEAD := by decide
    rw [this]
    simp

/-- C12 (the code departs from the claim): body bytes that arrive in the read
holding the blank line of the request never reach the file.  For every body
of at most 235 bytes, when `POST /t HTTP/1.0`, the blank line and the body
come in one read and end-of-stream follows, and `./t` exists and is empty,
the worker answers with the 200 header block and leaves every file as it was:
`./t` is still empty.  Delivered as head and body in two reads the same bytes
do reach the file; with the read boundary just before the last LF of the
blank line, that LF is stored in the file ahead of the body. -/
theorem post_body_read_with_head_is_lost (env : Env) (fs : Files) (body : List Char)
    (mtime : Int) (hlen : body.length ≤ 235)
    (hl : fs.lookup "./t".toList = some ⟨[], mtime⟩) :
    (svcthread env [some ("POST /t HTTP/1.0\r\n\r\n".toList ++ body)] fs).herror = 0
    ∧ (svcthread env [some ("POST /t HTTP/1.0\r\n\r\n".toList ++ body)] fs).out
        = "HTTP/1.0 200 OK\r\n".toList
          ++ ("Date: ".toList ++ env.httpdate env.now ++ " GMT\r\n".toList)
          ++ "Server: myhttpd/0.5 (Unix)\r\n".toList
          ++ "Transfer-Encoding: identity\r\n".toList
          ++ "Connection: close\r\n".toList
          ++ "\r\n".toList
    ∧ (svcthread env [some ("POST /t HTTP/1.0\r\n\r\n".toList ++ body)] fs).fs = fs
    ∧ (svcthread env [some ("POST /t HTTP/1.0\r\n\r\n".toList ++ body)] fs).fs.lookup
        "./t".toList = some ⟨[], mtime⟩
    ∧ (svcthread env0 [some "POST /t HTTP/1.0\r\n\r\n".toList, some "hello".toList]
        [("./t".toList, ⟨[], 0⟩)]).fs = [("./t".toList, ⟨"hello".toList, 0⟩)]
    ∧ (svcthread env0 [some "POST /t HTTP/1.0\r\n\r".toList, some "\nhello".toList]
        [("./t".toList, ⟨[], 0⟩)]).fs = [("./t".toList, ⟨"\nhello".toList, 0⟩)] := by
  obtain ⟨h0, hm, he, hsock⟩ := parse_post_single env fs body hlen
  obtain ⟨-, -, hfs, hseg, hhung, -, -, -, -⟩ := parse_ok_summary env _ fs h0
  have hl1 : fs.lookup ('.' :: (parseRequest env
      [some ("POST /t HTTP/1.0\r\n\r\n".toList ++ body)] fs).entity) = some ⟨[], mtime⟩ := by
    rw [he]; exact hl
  have hl2 : (parseRequest env [some ("POST /t HTTP/1.0\r\n\r\n".toList ++ body)] fs).fs.lookup
      ('.' :: (parseRequest env [some ("POST /t HTTP/1.0\r\n\r\n".toList ++ body)] fs).entity)
      = some ⟨[], mtime⟩ := by rw [hfs]; exact hl1
  obtain ⟨s1, s2⟩ := success_out env _ fs ⟨[], mtime⟩ h0 hl1
  have hfsEq : (svcthread env [some ("POST /t HTTP/1.0\r\n\r\n".toList ++ body)] fs).fs = fs := by
    have hsv : svcthread env [some ("POST /t HTTP/1.0\r\n\r\n".toList ++ body)] fs
        = finish (respond env (parseRequest env
            [some ("POST /t HTTP/1.0\r\n\r\n".toList ++ body)] fs)) := rfl
    rw [hsv, (finish_frame _).2.2.2.2.1, respond_found2 env _ ⟨[], mtime⟩ h0 hseg hhung hl2,
      transfer_post ⟨[], mtime⟩ (headersSent env ⟨[], mtime⟩ (parseRequest env
        [some ("POST /t HTTP/1.0\r\n\r\n".toList ++ body)] fs)) hm,
      (postLoop_eof _ _ (headersSent env ⟨[], mtime⟩ (parseRequest env
        [some ("POST /t HTTP/1.0\r\n\r\n".toList ++ body)] fs)) hsock).1]
    exact hfs
  refine ⟨s2, ?_, hfsEq, by rw [hfsEq]; exact hl, by decide, by decide⟩
  rw [s1, hm]
  simp [headerBytes]

/-- C12 on the body `hello`. -/
theorem post_body_read_with_head_is_lost_witness :
    (svcthread env0 [some ("POST /t HTTP/1.0\r\n\r\n".toList ++ "hello".toList)]
        [("./t".toList, ⟨[], 0⟩)]).fs.lookup "./t".toList = some ⟨[], 0⟩ :=
  (post_body_read_with_head_is_lost env0 [("./t".toList, ⟨[], 0⟩)] "hello".toList 0
    (by decide) (by decide)).2.2.2.1

/-- C13, as amended.  For a `POST` request that parses successfully and whose
path, `'.'` followed by the target, does not exist, the worker answers with
the 404 report and nothing else, closes the socket once, creates no file and
stores nothing: the file system is left as it was and the path still does not
exist.  `POST` appends to existing files only. -/
theorem post_to_absent_path_is_404 (env : Env) (sock : Script) (fs : Files)
    (h0 : (parseRequest env sock fs).herror = 0)
    (hm : (parseRequest env sock fs).methodtype = htcommand.POST)
    (hl : fs.lookup ('.' :: (parseRequest env sock fs).entity) = none) :
    (svcthread env sock fs).methodtype = htcommand.POST
    ∧ (svcthread env sock fs).herror = 404
    ∧ (svcthread env sock fs).out = "HTTP/1.0 404 Not Found\n\n".toList
    ∧ (svcthread env sock fs).closes = 1
    ∧ (svcthread env sock fs).fs = fs
    ∧ (svcthread env sock fs).fs.lookup ('.' :: (parseRequest env sock fs).entity) = none := by
  obtain ⟨hout, hcl, hfs, hseg, hhung, -, -, -, -⟩ := parse_ok_summary env sock fs h0
  have hl2 : (parseRequest env sock fs).fs.lookup ('.' :: (parseRequest env sock fs).entity)
      = none := by rw [hfs]; exact hl
  have hr := respond_missing env _ h0 hseg hhung hl2
  have hne : (respond env (parseRequest env sock fs)).herror ≠ 0 := by
    rw [hr]
    show (404 : Int) ≠ 0
    decide
  have hsv : svcthread env sock fs = finish (respond env (parseRequest env sock fs)) := rfl
  have hfsEq : (svcthread env sock fs).fs = fs := by
    rw [hsv, finish_skip _ hne, hr]
    exact hfs
  refine ⟨?_, ?_, ?_, ?_, hfsEq, by rw [hfsEq]; exact hl⟩
  · rw [hsv, (finish_frame _).2.2.2.1, (respond_frame env _).2.2.1]
    exact hm
  · rw [hsv, finish_skip _ hne, hr]
    rfl
  · rw [hsv, finish_skip _ hne, hr]
    show (parseRequest env sock fs).out ++ _ = _
    rw [hout]
    rfl
  · rw [hsv, finish_skip _ hne, hr]
    show (parseRequest env sock fs).closes + 1 = 1
    rw [hcl]

/-- C13 on `POST /new` with the body `hello`, over a file system without
`./new`. -/
theorem post_to_absent_path_is_404_witness :
    (svcthread env0 [some "POST /new HTTP/1.0\r\n\r\n".toList, some "hello".toList]
        [("./old".toList, ⟨"x".toList, 0⟩)]).herror = 404
    ∧ (svcthread env0 [some "POST /new HTTP/1.0\r\n\r\n".toList, some "hello".toList]
        [("./old".toList, ⟨"x".toList, 0⟩)]).fs = [("./old".toList, ⟨"x".toList, 0⟩)] :=
  ⟨(post_to_absent_path_is_404 env0
      [some "POST /new HTTP/1.0\r\n\r\n".toList, some "hello".toList]
      [("./old".toList, ⟨"x".toList, 0⟩)] (by decide) (by decide) (by decide)).2.1,
    (post_to_absent_path_is_404 env0
      [some "POST /new HTTP/1.0\r\n\r\n".toList, some "hello".toList]
      [("./old".toList, ⟨"x".toList, 0⟩)] (by decide) (by decide) (by decide)).2.2.2.2.1⟩

/-- C13 as stated fails: the well-formed request `POST /new HTTP/1.0` with the
body `hello`, for a path that does not exist, is answered with the 404 report
and not with the 200 header block; afterwards the path still does not exist
and the body, left unread on the socket, is stored nowhere. -/
theorem post_does_not_create :
    (svcthread env0 [some "POST /new HTTP/1.0\r\n\r\n".toList, some "hello".toList] []).out
      = "HTTP/1.0 404 Not Found\n\n".toList
    ∧ (svcthread env0 [some "POST /new HTTP/1.0\r\n\r\n".toList, some "hello".toList] []).fs
      = []
    ∧ (svcthread env0 [some "POST /new HTTP/1.0\r\n\r\n".toList, some "hello".toList]
        []).fs.lookup "./new".toList = none
    ∧ (svcthread env0 [some "POST /new HTTP/1.0\r\n\r\n".toList, some "hello".toList] []).sock
      = [some "hello".toList] := by
  decide

/-- C14 (the code departs from the claim): a run ends with a local-only,
negative code exactly when the priming read returns no byte.  A priming read
that fails is taken for a read of `2^64 - 1` bytes, and the empty method token
is answered with the 405 report.  A refill read that returns end-of-stream or
fails yields a token: after `GET` the missing target is answered with the 400
report, and the truncated request `GET /f` is answered with the complete 200
response, whether the refill read met end-of-stream or an error. -/
theorem read_failures_are_answered :
    (∀ (env : Env) (sock : Script) (fs : Files),
      (svcthread env sock fs).herror < 0 ↔ readLen (readFd sock (svcbuffersize - 1)).1 = 0)
    ∧ (svcthread env0 [none] []).herror = 405
    ∧ (svcthread env0 [none] []).out = "HTTP/1.0 405 Method Not Allowed\n\n".toList
    ∧ (svcthread env0 [some "GET".toList] []).herror = 400
    ∧ (svcthread env0 [some "GET".toList] []).out = "HTTP/1.0 400 Bad Request\n\n".toList
    ∧ (svcthread env0 [some "GET".toList, none] []).herror = 400
    ∧ (svcthread env0 [some "GET".toList, none] []).out = "HTTP/1.0 400 Bad Request\n\n".toList
    ∧ (svcthread env0 [some "GET /f".toList] [("./f".toList, ⟨"hello".toList, 0⟩)]).herror = 0
    ∧ (svcthread env0 [some "GET /f".toList] [("./f".toList, ⟨"hello".toList, 0⟩)]).out
        = ("HTTP/1.0 200 OK\r\nDate: Thu, 01 Jan 1970 00:00:00 GMT\r\n"
            ++ "Server: myhttpd/0.5 (Unix)\r\nTransfer-Encoding: identity\r\n"
            ++ "Connection: close\r\nLast-Modified: Thu, 01 Jan 1970 00:00:00 GMT\r\n"
            ++ "Content-Length: 5\r\n\r\nhello").toList
    ∧ (svcthread env0 [some "GET /f".toList, none] [("./f".toList, ⟨"hello".toList, 0⟩)]).out
        = (svcthread env0 [some "GET /f".toList] [("./f".toList, ⟨"hello".toList, 0⟩)]).out := by
  refine ⟨?_, by decide, by decide, by decide, by decide, by decide, by decide, by decide,
    by decide, by decide⟩
  intro env sock fs
  rcases (svc_cases env sock fs).2 with
    ⟨h, -, hr⟩ | ⟨h, -, hr, -⟩ | ⟨h, -, hr, -⟩ | ⟨h, -, hr, -⟩ | ⟨h, hr, -⟩
  · rw [h]; exact ⟨fun _ => hr, fun _ => by decide⟩
  · rw [h]; exact ⟨fun hh => absurd hh (by decide), fun hh => absurd hh hr⟩
  · rw [h]; exact ⟨fun hh => absurd hh (by decide), fun hh => absurd hh hr⟩
  · rw [h]; exact ⟨fun hh => absurd hh (by decide), fun hh => absurd hh hr⟩
  · rw [h]; exact ⟨fun hh => absurd hh (by decide), fun hh => absurd hh hr⟩

/-- C15: for every input the bytes written to the socket are exactly one of:
nothing (the priming read returned no byte); one error report, for the code
400, 404 or 405, the code the run ends with; or, when the run ends without
error, the header block, from the status line `HTTP/1.0 200 OK` to the blank
line, followed by the file for `GET` and by nothing otherwise.  The header
block is written only when the method, target, version and header stages all
ended without error and the path exists: in every other run the output is
empty or a single error report.  An error report is never empty and never
the beginning of a 200 response, so no run writes two reports, or a report
and a 200 response. -/
theorem one_response_per_run (env : Env) (sock : Script) (fs : Files) :
    (((svcthread env sock fs).herror = -1 ∧ (svcthread env sock fs).out = [])
      ∨ ((svcthread env sock fs).herror = 400 ∧ (svcthread env sock fs).out = line400)
      ∨ ((svcthread env sock fs).herror = 404 ∧ (svcthread env sock fs).out = line404)
      ∨ ((svcthread env sock fs).herror = 405 ∧ (svcthread env sock fs).out = line405)
      ∨ ((svcthread env sock fs).herror = 0
          ∧ (stageMethod env (prime (initState sock fs))).herror = 0
          ∧ (stageEntity env (stageMethod env (prime (initState sock fs)))).herror = 0
          ∧ (stageVersion env (stageEntity env (stageMethod env
                (prime (initState sock fs))))).herror = 0
          ∧ (parseRequest env sock fs).herror = 0
          ∧ ∃ (filestat : FileNode) (hd : List Char),
              fs.lookup ('.' :: (parseRequest env sock fs).entity) = some filestat
              ∧ headerBytes env filestat (parseRequest env sock fs).methodtype
                    ('.' :: (parseRequest env sock fs).entity)
                  = "HTTP/1.0 200 OK\r\n".toList ++ hd ++ "\r\n\r\n".toList
              ∧ (svcthread env sock fs).out
                  = "HTTP/1.0 200 OK\r\n".toList ++ hd ++ "\r\n\r\n".toList
                    ++ (if (parseRequest env sock fs).methodtype = htcommand.GET
                        then filestat.content else [])))
    ∧ (((parseRequest env sock fs).herror ≠ 0
          ∨ fs.lookup ('.' :: (parseRequest env sock fs).entity) = none) →
        (svcthread env sock fs).out = [] ∨ (svcthread env sock fs).out = line400
          ∨ (svcthread env sock fs).out = line404 ∨ (svcthread env sock fs).out = line405)
    ∧ (∀ x : List Char, "HTTP/1.0 200 OK\r\n".toList ++ x ≠ []
        ∧ "HTTP/1.0 200 OK\r\n".toList ++ x ≠ line400
        ∧ "HTTP/1.0 200 OK\r\n".toList ++ x ≠ line404
        ∧ "HTTP/1.0 200 OK\r\n".toList ++ x ≠ line405) := by
  refine ⟨?_, ?_, fun x => ⟨by simp, by simp, by simp, by simp⟩⟩
  · rcases (svc_cases env sock fs).2 with
      ⟨h, ho, -⟩ | ⟨h, ho, -⟩ | ⟨h, ho, -⟩ | ⟨h, ho, -⟩ | ⟨h, -, h0, st, hl, ho⟩
    · exact Or.inl ⟨h, ho⟩
    · exact Or.inr (Or.inr (Or.inr (Or.inl ⟨h, ho⟩)))
    · exact Or.inr (Or.inl ⟨h, ho⟩)
    · exact Or.inr (Or.inr (Or.inl ⟨h, ho⟩))
    · obtain ⟨a, b, c⟩ := parse_ok_stages env sock fs h0
      obtain ⟨hd, hhd⟩ := headerBytes_shape env st (parseRequest env sock fs).methodtype
        ('.' :: (parseRequest env sock fs).entity)
      refine Or.inr (Or.inr (Or.inr (Or.inr ⟨h, a, b, c, h0, st, hd, hl, hhd, ?_⟩)))
      rw [ho, hhd]
  · intro hfail
    rcases (svc_cases env sock fs).2 with
      ⟨-, ho, -⟩ | ⟨-, ho, -⟩ | ⟨-, ho, -⟩ | ⟨-, ho, -⟩ | ⟨-, -, h0, st, hl, -⟩
    · exact Or.inl ho
    · exact Or.inr (Or.inr (Or.inr ho))
    · exact Or.inr (Or.inl ho)
    · exact Or.inr (Or.inr (Or.inl ho))
    · rcases hfail with hf | hf
      · exact absurd h0 hf
      · rw [hl] at hf
        exact absurd hf (by simp)

/-- C15 on `GET /nothing` against an empty file system: the path does not
exist, and the output is one of the three error reports or empty. -/
theorem one_response_per_run_witness :
    (svcthread env0 [some "GET /nothing HTTP/1.0\r\n\r\n".toList] []).out = []
    ∨ (svcthread env0 [some "GET /nothing HTTP/1.0\r\n\r\n".toList] []).out = line400
    ∨ (svcthread env0 [some "GET /nothing HTTP/1.0\r\n\r\n".toList] []).out = line404
    ∨ (svcthread env0 [some "GET /nothing HTTP/1.0\r\n\r\n".toList] []).out = line405 :=
  (one_response_per_run env0 [some "GET /nothing HTTP/1.0\r\n\r\n".toList] []).2.1
    (Or.inr (by decide))

/-- C16: every run of the worker comes to an end, without a null
dereference, and has then closed the socket exactly once.  The one close is
that of the success path (the run ends without error: nothing was closed
before line 269), that of the error reporter (the run ends with 400, 404 or
405: the socket was open after the priming read, is closed when the response
stage is left, and line 269 is skipped), or that of the local-failure path
(the run ends with -1: the socket was closed right after the priming
read). -/
theorem socket_closed_exactly_once (env : Env) (sock : Script) (fs : Files) :
    (svcthread env sock fs).hung = false
    ∧ (svcthread env sock fs).segv = false
    ∧ (svcthread env sock fs).closes = 1
    ∧ (((svcthread env sock fs).herror = 0
          ∧ (prime (initState sock fs)).closes = 0
          ∧ (respond env (parseRequest env sock fs)).closes = 0)
      ∨ (((svcthread env sock fs).herror = 400 ∨ (svcthread env sock fs).herror = 404
            ∨ (svcthread env sock fs).herror = 405)
          ∧ (prime (initState sock fs)).closes = 0
          ∧ (respond env (parseRequest env sock fs)).closes = 1)
      ∨ ((svcthread env sock fs).herror = -1
          ∧ (prime (initState sock fs)).closes = 1)) := by
  obtain ⟨fsegv, fhung⟩ := svc_flags env sock fs
  obtain ⟨hcl, hcases⟩ := svc_cases env sock fs
  have hsv : svcthread env sock fs = finish (respond env (parseRequest env sock fs)) := rfl
  have herr : ∀ c : Int, c ≠ 0 → (svcthread env sock fs).herror = c →
      (respond env (parseRequest env sock fs)).closes = 1 := by
    intro c hc h
    have hne : (respond env (parseRequest env sock fs)).herror ≠ 0 := by
      rw [hsv, finish_herror] at h
      rw [h]; exact hc
    rw [hsv, finish_skip _ hne] at hcl
    exact hcl
  refine ⟨fhung, fsegv, hcl, ?_⟩
  rcases hcases with ⟨h, -, hr⟩ | ⟨h, -, hr, -⟩ | ⟨h, -, hr, -⟩ | ⟨h, -, hr, -⟩ | ⟨h, hr, -⟩
  · exact Or.inr (Or.inr ⟨h, (prime_eof sock fs hr).2⟩)
  · exact Or.inr (Or.inl ⟨Or.inr (Or.inr h), (prime_ok sock fs hr).2,
      herr 405 (by decide) h⟩)
  · exact Or.inr (Or.inl ⟨Or.inl h, (prime_ok sock fs hr).2, herr 400 (by decide) h⟩)
  · exact Or.inr (Or.inl ⟨Or.inr (Or.inl h), (prime_ok sock fs hr).2,
      herr 404 (by decide) h⟩)
  · refine Or.inl ⟨h, (prime_ok sock fs hr).2, ?_⟩
    have r0 : (respond env (parseRequest env sock fs)).herror = 0 := by
      rw [hsv, finish_herror] at h
      exact h
    have r1 : (respond env (parseRequest env sock fs)).segv = false := by
      rw [hsv, (finish_flags _).1] at fsegv
      exact fsegv
    have r2 : (respond env (parseRequest env sock fs)).hung = false := by
      rw [hsv, (finish_flags _).2] at fhung
      exact fhung
    rw [hsv, finish_ok _ r0 r1 r2] at hcl
    omega

/-- C17, as amended.  Start from the worker's initial state (zeroed buffer,
one priming read, cursor at the buffer start) and make any sequence of
`filesep` calls, with any delimiter sets.  The buffer then holds at most 255
data bytes, every byte behind them is `NUL`, and the cursor is either unset
or at an offset not greater than the number of data bytes held: within the
data or on the `NUL` that ends them, never beyond it, and so always inside
the buffer. -/
theorem cursor_within_data_or_on_its_end (sock : Script) (ds : List (List Char)) :
    (Reader.calls ds (primed sock)).live ≤ svcbuffersize - 1
    ∧ (Reader.calls ds (primed sock)).buffer.drop (Reader.calls ds (primed sock)).live
        = List.replicate (svcbuffersize - (Reader.calls ds (primed sock)).live) NUL
    ∧ ∀ i, (Reader.calls ds (primed sock)).bufferleft = some i →
        i ≤ (Reader.calls ds (primed sock)).live ∧ i < svcbuffersize := by
  obtain ⟨⟨-, hlive, -, hz, hc⟩, -⟩ := calls_ok ds (primed sock) (primed_ok sock)
  refine ⟨hlive, hz, fun i hi => ⟨hc i hi, ?_⟩⟩
  have := hc i hi
  have e : svcbuffersize - 1 = 255 := rfl
  rw [e] at hlive
  show i < 256
  omega

/-- C17 on the stream `GET /x y` read as `GET ` and `/x y`, after two calls:
the cursor stands at offset 3 of 4 data bytes. -/
theorem cursor_within_data_or_on_its_end_witness :
    (Reader.calls [delims, delims]
        (primed [some "GET ".toList, some "/x y".toList])).bufferleft = some 3
    ∧ (Reader.calls [delims, delims] (primed [some "GET ".toList, some "/x y".toList])).live = 4
    ∧ 3 ≤ (Reader.calls [delims, delims]
        (primed [some "GET ".toList, some "/x y".toList])).live :=
  ⟨by decide, by decide,
    ((cursor_within_data_or_on_its_end [some "GET ".toList, some "/x y".toList]
      [delims, delims]).2.2 3 (by decide)).1⟩

/-- C17 as stated fails: when the priming read delivers the four bytes
`GET `, the first `filesep` call returns `GET` and leaves the cursor set, at
offset 4: the array then holds `GET` and nothing but `NUL` behind it, so the
cursor is not at an offset smaller than the number of data bytes, and the
bytes from the cursor on are all `NUL`.  The worker's own first call leaves
the same cursor. -/
theorem cursor_at_end_of_data :
    (primed [some "GET ".toList]).live = 4
    ∧ (Reader.calls [delims] (primed [some "GET ".toList])).bufferleft = some 4
    ∧ (Reader.calls [delims] (primed [some "GET ".toList])).live = 4
    ∧ (Reader.calls [delims] (primed [some "GET ".toList])).buffer
        = "GET".toList ++ List.replicate 253 NUL
    ∧ (Reader.calls [delims] (primed [some "GET ".toList])).buffer.drop 4
        = List.replicate 252 NUL
    ∧ (pull Site.method (prime (initState [some "GET ".toList] []))).bufferleft = some 4
    ∧ ¬ (4 < (Reader.calls [delims] (primed [some "GET ".toList])).live) := by
  decide

/-- C18 (the code departs from the claim): a read of zero bytes ends the
transfer loop of `POST`: no further read is made and the files are left as
they are.  A failed read does not: its result `-1`, held in the `size_t`
variable `scratchsize`, is `2^64 - 1`, which is greater than zero.  With the
reads `ab`, failure, `x` behind the request, the `write` after the failure is
refused and appends nothing, but the loop goes on past the failure, reads `x`
and appends it: the file, empty before, ends up holding `abx`, and every read
of the connection has been made.  With a read of zero bytes in the place of
the failure the file holds `ab` and the read of `x` is never made. -/
theorem post_loop_survives_read_error :
    (∀ (path : List Char) (fuel : Nat) (s : State) (rest : Script),
      (postLoop path (fuel + 1) { s with sock := some [] :: rest }).sock = rest
      ∧ (postLoop path (fuel + 1) { s with sock := some [] :: rest }).fs = s.fs
      ∧ (postLoop path (fuel + 1) { s with sock := [] }).sock = []
      ∧ (postLoop path (fuel + 1) { s with sock := [] }).fs = s.fs)
    ∧ readLen none = 2 ^ 64 - 1
    ∧ readLen none > 0
    ∧ (svcthread env0
        [some "POST /t HTTP/1.0\r\n\r\n".toList, some "ab".toList, none, some "x".toList]
        [("./t".toList, ⟨[], 0⟩)]).sock = []
    ∧ (svcthread env0
        [some "POST /t HTTP/1.0\r\n\r\n".toList, some "ab".toList, none, some "x".toList]
        [("./t".toList, ⟨[], 0⟩)]).fs = [("./t".toList, ⟨"abx".toList, 0⟩)]
    ∧ (svcthread env0
        [some "POST /t HTTP/1.0\r\n\r\n".toList, some "ab".toList, none, some "x".toList]
        [("./t".toList, ⟨[], 0⟩)]).overrun = true
    ∧ (svcthread env0
        [some "POST /t HTTP/1.0\r\n\r\n".toList, some "ab".toList, none, some "x".toList]
        [("./t".toList, ⟨[], 0⟩)]).hung = false
    ∧ (svcthread env0
        [some "POST /t HTTP/1.0\r\n\r\n".toList, some "ab".toList, some [], some "x".toList]
        [("./t".toList, ⟨[], 0⟩)]).fs = [("./t".toList, ⟨"ab".toList, 0⟩)]
    ∧ (svcthread env0
        [some "POST /t HTTP/1.0\r\n\r\n".toList, some "ab".toList, some [], some "x".toList]
        [("./t".toList, ⟨[], 0⟩)]).sock = [some "x".toList] := by
  refine ⟨?_, by decide, by decide, by decide, by decide, by decide, by decide, by decide,
    by decide⟩
  intro path fuel s rest
  have h1 := postLoop_eof path fuel { s with sock := [] } rfl
  refine ⟨?_, ?_, h1.2.2, h1.1⟩
  · unfold postLoop
    simp [readFd, readLen]
  · unfold postLoop
    simp [readFd, readLen, readData, fileWrite_zero, fsAppend_nil]

/-- C19: `filesep`, called with a cursor slot as the worker calls it, returns
a token and never `NULL`, for every descriptor, array, capacity, cursor and
delimiter set.  On the worker's well-formed array of 256 bytes, when the read
meets end-of-stream or fails, the token is the empty string if the cursor was
unset, and the pending partial text if the unconsumed region held no
delimiter; the cursor is then left unset.  So the method stage ends with the
code it began with or with 405, the header loop with the code it began with
or with 400, and no run of the worker ends with the code -2 or -3. -/
theorem filesep_always_returns_a_token (fd : Script) (delim buf : List Char)
    (cur : Option Nat) (hok : BufOK svcbuffersize buf cur)
    (hfd : fd = [] ∨ ∃ rest, fd = none :: rest) :
    (∀ (fd2 : Script) (buf2 : List Char) (n : Nat) (cur2 : Option Nat) (delim2 : List Char),
        ∃ i, (filesep fd2 buf2 n cur2 delim2).field = some i)
    ∧ (cur = none →
        (filesep fd buf svcbuffersize cur delim).field = some 0
        ∧ cstrAt (filesep fd buf svcbuffersize cur delim).buffer 0 = []
        ∧ (filesep fd buf svcbuffersize cur delim).bufferleft = none)
    ∧ (∀ i, cur = some i → findDelim delim (buf.drop i) = none →
        (filesep fd buf svcbuffersize cur delim).field = some 0
        ∧ cstrAt (filesep fd buf svcbuffersize cur delim).buffer 0 = cstrAt buf i
        ∧ (filesep fd buf svcbuffersize cur delim).bufferleft = none)
    ∧ (∀ (env : Env) (s : State),
        (stageMethod env s).herror = s.herror ∨ (stageMethod env s).herror = 405)
    ∧ (∀ (env : Env) (fuel : Nat) (s : State),
        (headerLoop env fuel s).herror = s.herror ∨ (headerLoop env fuel s).herror = 400)
    ∧ (∀ (env : Env) (sock : Script) (fs : Files),
        (svcthread env sock fs).herror ≠ -2 ∧ (svcthread env sock fs).herror ≠ -3) := by
  obtain ⟨n1, n2⟩ := filesep_nothing fd delim buf svcbuffersize cur hok hfd
  refine ⟨filesep_field_some, n1, n2, stageMethod_herror,
    fun env fuel s => headerLoop_herror env fuel s, ?_⟩
  intro env sock fs
  rcases (svc_cases env sock fs).2 with ⟨h, -⟩ | ⟨h, -⟩ | ⟨h, -⟩ | ⟨h, -⟩ | ⟨h, -⟩
  all_goals rw [h]; exact ⟨by decide, by decide⟩

/-- C19 on the array holding `GE` at end-of-stream: the token is `GE`. -/
theorem filesep_always_returns_a_token_witness :
    (filesep [] ("GE".toList ++ List.replicate 254 NUL) svcbuffersize (some 0) delims).field
      = some 0
    ∧ cstrAt (filesep [] ("GE".toList ++ List.replicate 254 NUL) svcbuffersize (some 0)
        delims).buffer 0 = cstrAt ("GE".toList ++ List.replicate 254 NUL) 0
    ∧ (filesep [] ("GE".toList ++ List.replicate 254 NUL) svcbuffersize (some 0)
        delims).bufferleft = none :=
  (filesep_always_returns_a_token [] delims ("GE".toList ++ List.replicate 254 NUL) (some 0)
    ⟨by decide, ⟨"GE".toList ++ List.replicate 253 NUL, by decide⟩,
      fun i hi => by cases hi; decide⟩
    (Or.inl rfl)).2.2.1 0 rfl (by decide)

/-- C20: start from the worker's initial state (zeroed buffer, priming read of
at most 255 bytes, cursor at the buffer start) and make any sequence of
`filesep` calls, with any delimiter sets, whatever the reads deliver.  A read
never stores more bytes than it was asked for.  The buffer keeps its 256
bytes, holds at most 255 data bytes, and its last byte is `NUL`.  The cursor,
when set, is an index within the buffer and the unconsumed region it points
to ends with a `NUL` inside the buffer; so does the token last returned.  The
reader's variables at the end of the worker's parse are reached by such a
sequence of calls, and have these properties. -/
theorem buffer_stays_terminated (sock : Script) (ds : List (List Char)) :
    (∀ (fd : Script) (n : Nat), (readData (readFd fd n).1).length ≤ n)
    ∧ (Reader.calls ds (primed sock)).buffer.length = svcbuffersize
    ∧ (Reader.calls ds (primed sock)).live ≤ svcbuffersize - 1
    ∧ (Reader.calls ds (primed sock)).buffer.getLast? = some NUL
    ∧ (∀ i, (Reader.calls ds (primed sock)).bufferleft = some i →
        i < svcbuffersize
        ∧ i + strlen (Reader.calls ds (primed sock)).buffer i < svcbuffersize)
    ∧ (∀ j, (Reader.calls ds (primed sock)).field = some j →
        j < svcbuffersize
        ∧ j + strlen (Reader.calls ds (primed sock)).buffer j < svcbuffersize)
    ∧ (∀ (env : Env) (fs : Files),
        (∃ k : Nat,
          (Reader.calls (List.replicate k delims) (primed sock)).filedesc
              = (parseRequest env sock fs).sock
          ∧ (Reader.calls (List.replicate k delims) (primed sock)).buffer
              = (parseRequest env sock fs).buffer
          ∧ (Reader.calls (List.replicate k delims) (primed sock)).bufferleft
              = (parseRequest env sock fs).bufferleft)
        ∧ (parseRequest env sock fs).buffer.length = svcbuffersize
        ∧ (parseRequest env sock fs).buffer.getLast? = some NUL
        ∧ ∀ i, (parseRequest env sock fs).bufferleft = some i → i < svcbuffersize) := by
  obtain ⟨hlive, hf⟩ := calls_ok ds (primed sock) (primed_ok sock)
  have hbok := hlive.toBufOK
  obtain ⟨hl, hlv, -, -, hc⟩ := hlive
  obtain ⟨-, ⟨b, hb⟩, -⟩ := hbok
  have e : svcbuffersize - 1 = 255 := rfl
  have e2 : svcbuffersize = 256 := rfl
  have hin : ∀ j, j ≤ (Reader.calls ds (primed sock)).live →
      j < svcbuffersize
      ∧ j + strlen (Reader.calls ds (primed sock)).buffer j < svcbuffersize := by
    intro j hj
    have hj2 : j < (Reader.calls ds (primed sock)).buffer.length := by
      rw [hl, e2]; rw [e] at hlv; omega
    have := strlen_inside _ j ⟨b, hb⟩ hj2
    rw [hl] at this hj2
    exact ⟨hj2, this⟩
  refine ⟨readFd_length, hl, hlv, by rw [hb]; simp, fun i hi => hin i (hc i hi),
    fun j hj => hin j (hf j hj), ?_⟩
  intro env fs
  obtain ⟨-, pl, ⟨pb, hpb⟩, pc⟩ := parseRequest_ends env sock fs
  exact ⟨parse_reach env sock fs, pl, by rw [hpb]; simp, pc⟩

/-- C20 on the stream `GET /x y` read as `GET ` and `/x y`, after two calls:
the token `/x` starts at offset 0 and ends inside the buffer. -/
theorem buffer_stays_terminated_witness :
    (Reader.calls [delims, delims]
        (primed [some "GET ".toList, some "/x y".toList])).field = some 0
    ∧ 0 + strlen (Reader.calls [delims, delims]
        (primed [some "GET ".toList, some "/x y".toList])).buffer 0 < svcbuffersize :=
  ⟨by decide,
    ((buffer_stays_terminated [some "GET ".toList, some "/x y".toList]
      [delims, delims]).2.2.2.2.2.1 0 (by decide)).2⟩

end MyHttpd
